import Mathlib

/-!
# delta: a layout generator for river with swappable layouts

A shallow embedding of `src/delta.c`: the geometry engine
(`delta_handle_layout_demand` and the six per-style handlers), the command
interpreter (`layout_handle_user_command`) and the life cycle of the
outputs in the event loop of `main`, with theorems about the rectangles
pushed, the parameters after a command and the states the loop reaches.

Modelling conventions

* `uint32_t` / `unsigned int` values are natural numbers; every C operator
  on them is one of `add32`, `sub32`, `mul32`, `div32`, which reduce
  modulo `2^32` exactly where the C operator wraps.
* A handler returns `Option (List Request)`: the protocol requests it
  sends on `output->layout`, in order, or `none` when the C code has no
  defined result (an integer division by zero, or a floating-point value
  converted to `unsigned int` out of range).
* The `double` values a ratio can hold are modelled by the finite
  non-negative binary fractions `mant / 2^exp` and NaN; the only
  floating-point operation of the geometry engine,
  `width * output->main_ratio`, is rounded to 53 significant bits, ties to
  even, as IEEE-754 binary64 does.
-/

namespace Delta

/-! ## Machine arithmetic -/

/-- C `a + b` on `uint32_t`. -/
def add32 (a b : Nat) : Nat := (a + b) % 4294967296

/-- C `a - b` on `uint32_t` (wraps around below zero). -/
def sub32 (a b : Nat) : Nat := (a % 4294967296 + 4294967296 - b % 4294967296) % 4294967296

/-- C `a * b` on `uint32_t`. -/
def mul32 (a b : Nat) : Nat := (a * b) % 4294967296

/-- C `a / b` on `uint32_t`; division by zero has no defined result. -/
def div32 (a b : Nat) : Option Nat := if b = 0 then none else some (a / b)

/-- The macro `MIN(a, b)`, which expands to `(a < b ? a : b)`. -/
def MIN (a b : Nat) : Nat := if a < b then a else b

/-- A `double` that is neither negative nor infinite: the finite value
`mant / 2^exp` (every finite non-negative binary64 value has this form;
`0.5` is `mk 1 1`), or NaN. These are the values `main_ratio` and
`global_main_ratio` hold: every assignment to them goes through the macro
`CLAMP` with finite non-negative bounds, which bounds a number and lets a
NaN through. -/
inductive Double where
  | mk (mant exp : Nat)
  | nan
deriving DecidableEq, Repr

/-- The numerator of a finite `double`, in units of `2^-exp` (0 for NaN). -/
def Double.mant : Double → Nat
  | Double.mk mant _ => mant
  | Double.nan => 0

/-- The binary exponent of the unit of a finite `double` (0 for NaN). -/
def Double.exp : Double → Nat
  | Double.mk _ exp => exp
  | Double.nan => 0

/-- The rational value of a `double`. NaN has no value and compares false
with every bound: it is given the value 2, above the range [0, 1] of a
ratio, so that a bound `toRat ≤ 1` holds of numbers only. -/
def Double.toRat (d : Double) : ℚ :=
  if d = Double.nan then 2 else (d.mant : ℚ) / 2 ^ d.exp

/-- Round the natural number `n` to 53 significant bits, ties to even:
the binary64 rounding of `n / 2^e` is `round53 n / 2^e`. A number below
`2^53` is kept; otherwise the `drop` low bits are rounded away. -/
def round53 (n : Nat) : Nat :=
  if n < 2 ^ 53 then n
  else
    let drop := Nat.log2 n - 52
    let q := n / 2 ^ drop
    let rem := n % 2 ^ drop
    let half := 2 ^ (drop - 1)
    if half < rem ∨ (rem = half ∧ q % 2 = 1) then (q + 1) * 2 ^ drop else q * 2 ^ drop

/-- The C expression `width * output->main_ratio` assigned to an
`unsigned int`: `width` converts to `double` exactly, the product is
rounded to binary64, and the conversion back truncates toward zero; it
has no defined result when the product is NaN or when the truncated value
does not fit 32 bits. -/
def mul_ratio_to_uint (width : Nat) (r : Double) : Option Nat :=
  if r = Double.nan then none
  else
    let v := round53 (width * r.mant) / 2 ^ r.exp
    if v < 4294967296 then some v else none

/-! ## Data model -/

/-- The `enum LayoutStyle`. -/
inductive LayoutStyle where
  | TILE
  | SPIRAL
  | DIMINISHING
  | COLUMN
  | STACK
  | GRID
deriving DecidableEq, Repr

/-- The `struct Output`; `output` is the `wl_output` handle and `layout`
the `river_layout_v3` session handle (`none` is `NULL`). -/
structure Output where
  output : Nat
  layout : Option Nat
  main_count : Nat
  main_ratio : Double
  view_padding : Nat
  outer_padding : Nat
  layout_style : LayoutStyle
  configured : Bool
deriving DecidableEq, Repr

/-- A request sent on `output->layout`: `river_layout_v3_push_view_dimensions`
with the values of its `x`, `y`, `width`, `height`, `serial` argument
expressions (all computed in `unsigned int`), or `river_layout_v3_commit`
with the layout name and serial. -/
inductive Request where
  | push_view_dimensions (x y width height serial : Nat)
  | commit (layout_name : String) (serial : Nat)
deriving DecidableEq, Repr

/-- The values of the locals `view_x`, `view_y`, `view_width`,
`view_height`: the region of a view inside the usable area. -/
structure Rect where
  view_x : Nat
  view_y : Nat
  view_width : Nat
  view_height : Nat
deriving DecidableEq, Repr

/-- The statement `width -= 2 * output->outer_padding` (and the same for
`height`) that opens every handler. -/
def usable (o : Output) (size : Nat) : Nat := sub32 size (mul32 2 o.outer_padding)

/-! ## Tile -/

/-- The locals `main_size` and `stack_size` of `delta_handle_layout_demand_tile`
(lines 100-113), from the usable `width`. -/
def tile_sizes (o : Output) (view_count width : Nat) : Option (Nat × Nat) :=
  if o.main_count = 0 then some (0, width)
  else if view_count ≤ o.main_count then some (width, 0)
  else (mul_ratio_to_uint width o.main_ratio).map (fun main_size => (main_size, sub32 width main_size))

/-- The region assigned to view `i` by the loop body of
`delta_handle_layout_demand_tile` (lines 118-141). -/
def tile_region (o : Output) (view_count height main_size stack_size i : Nat) : Option Rect :=
  if i < o.main_count then
    (div32 height (MIN o.main_count view_count)).map
      (fun view_height => Rect.mk 0 (mul32 i view_height) main_size view_height)
  else
    (div32 height (sub32 view_count o.main_count)).map
      (fun view_height => Rect.mk main_size (mul32 (sub32 i o.main_count) view_height) stack_size view_height)

/-- The call `river_layout_v3_push_view_dimensions(output->layout,
view_x + view_padding + outer_padding, view_y + view_padding + outer_padding,
view_width - 2 * view_padding, view_height - 2 * view_padding, serial)`, as
written at lines 144-156 (tile) and at lines 179-183, 200-205, 222-227
(spiral). -/
def push_inset (o : Output) (r : Rect) (serial : Nat) : Request :=
  Request.push_view_dimensions
    (add32 (add32 r.view_x o.view_padding) o.outer_padding)
    (add32 (add32 r.view_y o.view_padding) o.outer_padding)
    (sub32 r.view_width (mul32 2 o.view_padding))
    (sub32 r.view_height (mul32 2 o.view_padding))
    serial

/-- The loop `for (unsigned int i = 0; i < view_count; i++)` of the tile
handler over the indices still to visit: each iteration pushes the
region of view `i`; the loop has no defined result as soon as one
iteration has none. -/
def tile_loop (o : Output) (view_count height main_size stack_size serial : Nat) :
    List Nat → Option (List Request)
  | [] => some []
  | i :: rest =>
    match tile_region o view_count height main_size stack_size i with
    | none => none
    | some r =>
      (tile_loop o view_count height main_size stack_size serial rest).map
        (fun pushes => push_inset o r serial :: pushes)

/-- The function `delta_handle_layout_demand_tile`. -/
def delta_handle_layout_demand_tile (o : Output) (view_count width height _tags serial : Nat) :
    Option (List Request) :=
  let width := usable o width
  let height := usable o height
  match tile_sizes o view_count width with
  | none => none
  | some (main_size, stack_size) =>
    (tile_loop o view_count height main_size stack_size serial (List.range view_count)).map
      (fun pushes => pushes ++ [Request.commit "[]=" serial])

/-! ## Spiral and Diminishing -/

/-- One iteration of the loop of `delta_handle_layout_demand_spiral`
(lines 177-231) at index `i`, from the values `s` of the four locals: the
request pushed and the values of the locals afterwards. -/
def spiral_iter (o : Output) (view_count serial : Nat) (diminish : Bool) (i : Nat) (s : Rect) :
    Request × Rect :=
  if i = sub32 view_count 1 then
    (Request.push_view_dimensions
      (add32 (add32 s.view_x o.view_padding) o.outer_padding)
      (add32 (add32 s.view_y o.view_padding) o.outer_padding)
      (sub32 s.view_width (mul32 2 o.view_padding))
      (sub32 s.view_height (mul32 2 o.view_padding))
      serial, s)
  else if i % 2 = 0 then
    let view_width := s.view_width / 2
    if i % 4 = 2 ∧ diminish = false then
      (Request.push_view_dimensions
        (add32 (add32 (add32 s.view_x o.view_padding) o.outer_padding) view_width)
        (add32 (add32 s.view_y o.view_padding) o.outer_padding)
        (sub32 view_width (mul32 2 o.view_padding))
        (sub32 s.view_height (mul32 2 o.view_padding))
        serial, Rect.mk s.view_x s.view_y view_width s.view_height)
    else
      (Request.push_view_dimensions
        (add32 (add32 s.view_x o.view_padding) o.outer_padding)
        (add32 (add32 s.view_y o.view_padding) o.outer_padding)
        (sub32 view_width (mul32 2 o.view_padding))
        (sub32 s.view_height (mul32 2 o.view_padding))
        serial, Rect.mk (add32 s.view_x view_width) s.view_y view_width s.view_height)
  else
    let view_height := s.view_height / 2
    if i % 4 = 3 ∧ diminish = false then
      (Request.push_view_dimensions
        (add32 (add32 s.view_x o.view_padding) o.outer_padding)
        (add32 (add32 (add32 s.view_y o.view_padding) o.outer_padding) view_height)
        (sub32 s.view_width (mul32 2 o.view_padding))
        (sub32 view_height (mul32 2 o.view_padding))
        serial, Rect.mk s.view_x s.view_y s.view_width view_height)
    else
      (Request.push_view_dimensions
        (add32 (add32 s.view_x o.view_padding) o.outer_padding)
        (add32 (add32 s.view_y o.view_padding) o.outer_padding)
        (sub32 s.view_width (mul32 2 o.view_padding))
        (sub32 view_height (mul32 2 o.view_padding))
        serial, Rect.mk s.view_x (add32 s.view_y view_height) s.view_width view_height)

/-- The loop `for (i = 0; i < view_count; i++)` of the spiral handler,
with `n` iterations left to run from index `i`. -/
def spiral_loop (o : Output) (view_count serial : Nat) (diminish : Bool) :
    Nat → Nat → Rect → List Request
  | 0, _, _ => []
  | n + 1, i, s =>
    (spiral_iter o view_count serial diminish i s).1 ::
      spiral_loop o view_count serial diminish n (i + 1) (spiral_iter o view_count serial diminish i s).2

/-- The values of the locals `view_x`, `view_y`, `view_width`,
`view_height` at the start of iteration `k` of the spiral loop: the
rectangle still to be divided, starting from the whole usable area. -/
def spiral_vars (o : Output) (view_count serial : Nat) (diminish : Bool) (width height : Nat) :
    Nat → Rect
  | 0 => Rect.mk 0 0 width height
  | k + 1 =>
    (spiral_iter o view_count serial diminish k
      (spiral_vars o view_count serial diminish width height k)).2

/-- The region that iteration `i` of the spiral loop gives to its view,
from the values `s` of the locals at the start of the iteration: the
whole remaining rectangle for the last view, otherwise the half of it
selected by the branch taken at lines 186-230. -/
def spiral_region (view_count : Nat) (diminish : Bool) (i : Nat) (s : Rect) : Rect :=
  if i = sub32 view_count 1 then s
  else if i % 2 = 0 then
    if i % 4 = 2 ∧ diminish = false then
      Rect.mk (s.view_x + s.view_width / 2) s.view_y (s.view_width / 2) s.view_height
    else
      Rect.mk s.view_x s.view_y (s.view_width / 2) s.view_height
  else
    if i % 4 = 3 ∧ diminish = false then
      Rect.mk s.view_x (s.view_y + s.view_height / 2) s.view_width (s.view_height / 2)
    else
      Rect.mk s.view_x s.view_y s.view_width (s.view_height / 2)

/-- The layout name committed by `delta_handle_layout_demand_spiral`
(lines 233-237); the name of the diminishing variant is the string
literal of line 234, whose bytes are `C3 A2 E2 80 A0 CB 9C`. -/
def spiral_name (diminish : Bool) : String :=
  if diminish then "â†˜" else "@"

/-- The function `delta_handle_layout_demand_spiral`; its two `printf`
calls write to standard output, not to the compositor, and are left out. -/
def delta_handle_layout_demand_spiral (o : Output) (view_count width height _tags serial : Nat)
    (diminish : Bool) : Option (List Request) :=
  let width := usable o width
  let height := usable o height
  some (spiral_loop o view_count serial diminish view_count 0 (Rect.mk 0 0 width height)
    ++ [Request.commit (spiral_name diminish) serial])

/-! ## Column, Stack, Grid -/

/-- The function `delta_handle_layout_demand_column`. -/
def delta_handle_layout_demand_column (o : Output) (view_count width height _tags serial : Nat) :
    Option (List Request) :=
  let width := usable o width
  let height := usable o height
  (div32 width view_count).map (fun view_outer_width =>
    let view_inner_width := sub32 view_outer_width (mul32 2 o.view_padding)
    (List.range view_count).map (fun i =>
      let view_x := mul32 i view_outer_width
      Request.push_view_dimensions
        (add32 (add32 view_x o.view_padding) o.outer_padding)
        o.outer_padding
        view_inner_width
        height
        serial)
    ++ [Request.commit "|||" serial])

/-- The function `delta_handle_layout_demand_stack`. -/
def delta_handle_layout_demand_stack (o : Output) (view_count width height _tags serial : Nat) :
    Option (List Request) :=
  let width := usable o width
  let height := usable o height
  (div32 height view_count).map (fun view_outer_height =>
    let view_inner_height := sub32 view_outer_height (mul32 2 o.view_padding)
    (List.range view_count).map (fun i =>
      let view_y := mul32 i view_outer_height
      Request.push_view_dimensions
        o.outer_padding
        (add32 (add32 view_y o.view_padding) o.outer_padding)
        width
        view_inner_height
        serial)
    ++ [Request.commit "=" serial])

/-- The local `grid_size` of `delta_handle_layout_demand_grid` (lines
332-335). `floor(sqrt(view_count))` is the integer square root: a
`uint32_t` converts to `double` exactly and the correctly rounded square
root of an integer below `2^32` never reaches the next integer. -/
def grid_size (view_count : Nat) : Nat :=
  let grid_size := Nat.sqrt view_count
  if mul32 grid_size grid_size < view_count then add32 grid_size 1 else grid_size

/-- The function `delta_handle_layout_demand_grid`. -/
def delta_handle_layout_demand_grid (o : Output) (view_count width height _tags serial : Nat) :
    Option (List Request) :=
  let width := usable o width
  let height := usable o height
  let grid_size := grid_size view_count
  match div32 height grid_size, div32 width grid_size with
  | some view_outer_height, some view_outer_width =>
    let view_inner_height := sub32 view_outer_height (mul32 2 o.view_padding)
    let view_inner_width := sub32 view_outer_width (mul32 2 o.view_padding)
    some ((List.range view_count).map (fun i =>
      let row := i / grid_size
      let col := i % grid_size
      let view_x := mul32 col view_outer_width
      let view_y := mul32 row view_outer_height
      Request.push_view_dimensions
        (add32 (add32 view_x o.view_padding) o.outer_padding)
        (add32 (add32 view_y o.view_padding) o.outer_padding)
        view_inner_width
        view_inner_height
        serial)
    ++ [Request.commit "#" serial])
  | _, _ => none

/-! ## Dispatch -/

/-- The function `delta_handle_layout_demand`: the `switch` on
`output->layout_style`. -/
def delta_handle_layout_demand (o : Output) (view_count width height tags serial : Nat) :
    Option (List Request) :=
  match o.layout_style with
  | LayoutStyle.TILE => delta_handle_layout_demand_tile o view_count width height tags serial
  | LayoutStyle.SPIRAL => delta_handle_layout_demand_spiral o view_count width height tags serial false
  | LayoutStyle.DIMINISHING => delta_handle_layout_demand_spiral o view_count width height tags serial true
  | LayoutStyle.COLUMN => delta_handle_layout_demand_column o view_count width height tags serial
  | LayoutStyle.STACK => delta_handle_layout_demand_stack o view_count width height tags serial
  | LayoutStyle.GRID => delta_handle_layout_demand_grid o view_count width height tags serial

/-- The layout name each handler commits (lines 159, 234, 236, 272, 310
and 364), by style. -/
def layout_name : LayoutStyle → String
  | LayoutStyle.TILE => "[]="
  | LayoutStyle.SPIRAL => spiral_name false
  | LayoutStyle.DIMINISHING => spiral_name true
  | LayoutStyle.COLUMN => "|||"
  | LayoutStyle.STACK => "="
  | LayoutStyle.GRID => "#"

/-! ## Commands: the C library

A C string is the list of its characters before the terminating NUL; a
`char **ptr` into it is the list of the characters from `*ptr` on. -/

/-- The C library predicate `isspace` in the "C" locale: space, `\t`, `\n`,
`\v`, `\f`, `\r`. -/
def isspace (c : Char) : Bool :=
  c = ' ' || c = '\t' || c = '\n' || c = Char.ofNat 11 || c = Char.ofNat 12 || c = '\r'

/-- The digit loop of `atoi`: decimal digits are accumulated up to the
first other character. -/
def atoi_digits : List Char → Nat → Nat
  | [], acc => acc
  | c :: cs, acc => if c.isDigit then atoi_digits cs (10 * acc + (c.toNat - 48)) else acc

/-- The C library function `atoi`: leading white space is skipped, an
optional sign is read, then decimal digits up to the first other
character; with no digits the value is 0. The value is the mathematical
integer read; whether it fits an `int` is checked by the caller. -/
def atoi (s : List Char) : Int :=
  match s.dropWhile isspace with
  | '-' :: r => -(atoi_digits r 0 : Int)
  | '+' :: r => (atoi_digits r 0 : Int)
  | r => (atoi_digits r 0 : Int)

/-- Whether an integer is a value of `int32_t`. -/
def in_int32 (n : Int) : Bool := decide (-2147483648 ≤ n ∧ n ≤ 2147483647)

/-- The conversion `(int32_t)v` of a `uint32_t` (two's complement). -/
def to_int32 (v : Nat) : Int :=
  if v % 4294967296 < 2147483648 then (v % 4294967296 : Nat) else (v % 4294967296 : Nat) - 4294967296

/-- The macro `MAX(a, b)`, which expands to `(a > b ? a : b)`, on `int32_t`. -/
def MAX (a b : Int) : Int := if a > b then a else b

/-! ## Commands: floating point -/

/-- A `double` with its sign: the finite value `mag` or `-mag` (NaN when
`mag` is NaN), or an infinity. The function `atof` of the C library is a
parameter of the command interpreter, with values of this type. -/
inductive SDouble where
  | mk (neg : Bool) (mag : Double)
  | inf (neg : Bool)
deriving DecidableEq, Repr

/-- Whether a `double` is NaN. -/
def SDouble.isNaN : SDouble → Bool
  | SDouble.mk _ Double.nan => true
  | _ => false

/-- The signed numerator of a finite `double`, in units of `2^-exp` (0 for
NaN and the infinities). -/
def SDouble.num : SDouble → Int
  | SDouble.mk neg mag => if neg then -(mag.mant : Int) else (mag.mant : Int)
  | SDouble.inf _ => 0

/-- The binary exponent of the unit of a finite `double` (0 for NaN and the
infinities). -/
def SDouble.exp : SDouble → Nat
  | SDouble.mk _ mag => mag.exp
  | SDouble.inf _ => 0

/-- The rational value of a finite `double` (0 for NaN and the
infinities, which have none). -/
def SDouble.toRat (a : SDouble) : ℚ := (a.num : ℚ) / 2 ^ a.exp

/-- C `a < b` on `double`: false when an operand is NaN, exact on numbers,
with `-inf` below and `+inf` above every finite value. -/
def SDouble.lt (a b : SDouble) : Bool :=
  if a.isNaN || b.isNaN then false
  else
    match a, b with
    | SDouble.inf na, SDouble.inf nb => na && !nb
    | SDouble.inf na, SDouble.mk _ _ => na
    | SDouble.mk _ _, SDouble.inf nb => !nb
    | SDouble.mk _ _, SDouble.mk _ _ => decide (a.num * 2 ^ b.exp < b.num * 2 ^ a.exp)

/-- C `a + b` on `double`: NaN when an operand is NaN or the operands are
infinities of opposite sign, an infinite operand otherwise, and for finite
operands the exact sum rounded to binary64, which overflows to an infinity
from `2^1024` on; an exact sum of zero is `-0` only for `-0 + -0`. -/
def SDouble.add (a b : SDouble) : SDouble :=
  if a.isNaN || b.isNaN then SDouble.mk false Double.nan
  else
    match a, b with
    | SDouble.inf na, SDouble.inf nb => if na = nb then SDouble.inf na else SDouble.mk false Double.nan
    | SDouble.inf na, SDouble.mk _ _ => SDouble.inf na
    | SDouble.mk _ _, SDouble.inf nb => SDouble.inf nb
    | SDouble.mk na _, SDouble.mk nb _ =>
      let e := max a.exp b.exp
      let n : Int := a.num * 2 ^ (e - a.exp) + b.num * 2 ^ (e - b.exp)
      if 2 ^ (1024 + e) ≤ round53 n.natAbs then SDouble.inf (decide (n < 0))
      else SDouble.mk (if n = 0 then na && nb else decide (n < 0)) (Double.mk (round53 n.natAbs) e)

/-- A `double` as a value of `Double`, the type of the stored ratios, which
holds NaN and the numbers that are neither negative nor infinite. -/
def SDouble.toDouble : SDouble → Option Double
  | SDouble.mk neg mag =>
    if mag = Double.nan then some Double.nan else if neg then none else some mag
  | SDouble.inf _ => none

/-- The macro `MIN(a, b)`, `(a < b ? a : b)`, on `double`. -/
def MIN_double (a b : SDouble) : SDouble := if a.lt b then a else b

/-- The macro `MAX(a, b)`, `(a > b ? a : b)`, on `double`. -/
def MAX_double (a b : SDouble) : SDouble := if b.lt a then a else b

/-- The macro `CLAMP(a, b, c)`, `(MIN(MAX(b, c), MAX(MIN(b, c), a)))`, on
`double`. -/
def CLAMP (a b c : SDouble) : SDouble := MIN_double (MAX_double b c) (MAX_double (MIN_double b c) a)

/-- The `double` literal `0.1`. -/
def literal_0_1 : SDouble := SDouble.mk false (Double.mk 3602879701896397 55)

/-- The `double` literal `0.9`. -/
def literal_0_9 : SDouble := SDouble.mk false (Double.mk 8106479329266893 53)

/-! ## Commands: the interpreter -/

/-- The function `skip_whitespace`: the value returned and the new `*ptr`.
The pointer is never `NULL` here. -/
def skip_whitespace : List Char → Bool × List Char
  | [] => (true, [])
  | c :: cs =>
    if isspace c then
      match cs with
      | [] => (false, [])
      | d :: ds => skip_whitespace (d :: ds)
    else (true, c :: cs)

/-- The function `skip_nonwhitespace`: the value returned and the new
`*ptr`. Called at the end of the string it steps over the terminating NUL
and reads beyond the string: no defined result. -/
def skip_nonwhitespace : List Char → Option (Bool × List Char)
  | [] => none
  | c :: cs =>
    if isspace c then some (true, c :: cs)
    else
      match cs with
      | [] => some (false, [])
      | d :: ds => skip_nonwhitespace (d :: ds)

/-- The function `get_second_word`: `some none` is the `NULL` returned with
a diagnostic, `some (some w)` the pointer to the second word (the rest of
the line from its first character), `none` no defined result. The
diagnostics written to `stderr` are not modelled. -/
def get_second_word (ptr : List Char) : Option (Option (List Char)) :=
  match skip_nonwhitespace ptr with
  | none => none
  | some (false, _) => some none
  | some (true, p1) =>
    match skip_whitespace p1 with
    | (false, _) => some none
    | (true, second_word) =>
      match skip_nonwhitespace second_word with
      | none => none
      | some (false, _) => some (some second_word)
      | some (true, p2) =>
        if (skip_whitespace p2).1 then some none else some (some second_word)

/-- The function `handle_uint32_command`: the new `*value`. It has no
defined result when `atoi` overflows an `int` or the signed addition
overflows. -/
def handle_uint32_command (ptr : List Char) (value : Nat) : Option Nat :=
  match get_second_word ptr with
  | none => none
  | some none => some value
  | some (some second_word) =>
    let arg := atoi second_word
    if in_int32 arg then
      if second_word.head? = some '+' ∨ second_word.head? = some '-' then
        if in_int32 (to_int32 value + arg) then some (MAX (to_int32 value + arg) 0).toNat
        else none
      else some (MAX arg 0).toNat
    else none

/-- The function `handle_float_command`: the new `*value`, NaN included. A
negative or infinite result is not a value of the `Double` of the model
(`none`); with the bounds `0.1` and `0.9` of its only call the result is
never negative or infinite. -/
def handle_float_command (atof : List Char → SDouble) (ptr : List Char) (value : Double)
    (clamp_upper clamp_lower : SDouble) : Option Double :=
  match get_second_word ptr with
  | none => none
  | some none => some value
  | some (some second_word) =>
    let arg := atof second_word
    let r :=
      if second_word.head? = some '+' ∨ second_word.head? = some '-' then
        CLAMP (SDouble.add (SDouble.mk false value) arg) clamp_upper clamp_lower
      else CLAMP arg clamp_upper clamp_lower
    r.toDouble

/-- The rest of a line after its first word and the white space that
follows it: where the next word starts, or the empty string. -/
def after_word (x : List Char) : List Char :=
  (x.dropWhile (fun c => !isspace c)).dropWhile isspace

/-- Whether a string starts at the end of a word: it is empty or starts with
a white-space character. -/
def word_end (rest : List Char) : Bool :=
  match rest with
  | [] => true
  | c :: _ => isspace c

/-- The value of a string of decimal digits, by position. -/
def decimal_value : List Char → Nat
  | [] => 0
  | c :: cs => (c.toNat - 48) * 10 ^ cs.length + decimal_value cs

/-- The function `word_comp`. -/
def word_comp (word comp : List Char) : Bool :=
  comp.isPrefixOf word &&
    match word.drop comp.length with
    | [] => true
    | c :: _ => isspace c

/-- The six keywords compared by `layout_handle_user_command`, in the order
of its `if` chain. -/
inductive Keyword where
  | main_count
  | view_padding
  | outer_padding
  | main_ratio
  | reset
  | swap_layout
deriving DecidableEq, Repr

/-- The string literal of a keyword. -/
def Keyword.text : Keyword → List Char
  | Keyword.main_count => "main_count".toList
  | Keyword.view_padding => "view_padding".toList
  | Keyword.outer_padding => "outer_padding".toList
  | Keyword.main_ratio => "main_ratio".toList
  | Keyword.reset => "reset".toList
  | Keyword.swap_layout => "swap_layout".toList

/-- The parameter named by one of the three integer keywords. -/
def int_param (K : Keyword) (o : Output) : Nat :=
  match K with
  | Keyword.main_count => o.main_count
  | Keyword.view_padding => o.view_padding
  | Keyword.outer_padding => o.outer_padding
  | _ => 0

/-- The output with the parameter named by one of the three integer
keywords set to `v`, every other field kept. -/
def set_int_param (K : Keyword) (o : Output) (v : Nat) : Output :=
  match K with
  | Keyword.main_count => { o with main_count := v }
  | Keyword.view_padding => { o with view_padding := v }
  | Keyword.outer_padding => { o with outer_padding := v }
  | _ => o

/-- The globals `global_main_count`, `global_main_ratio`,
`global_view_padding`, `global_outer_padding`. -/
structure Globals where
  global_main_count : Nat
  global_main_ratio : Double
  global_view_padding : Nat
  global_outer_padding : Nat
deriving DecidableEq, Repr

/-- The integer value of an `enum LayoutStyle` constant. -/
def style_value : LayoutStyle → Nat
  | LayoutStyle.TILE => 0
  | LayoutStyle.SPIRAL => 1
  | LayoutStyle.DIMINISHING => 2
  | LayoutStyle.COLUMN => 3
  | LayoutStyle.STACK => 4
  | LayoutStyle.GRID => 5

/-- The `enum LayoutStyle` constant of an integer below `LAYOUT_STYLE_COUNT`. -/
def style_of_value : Nat → LayoutStyle
  | 0 => LayoutStyle.TILE
  | 1 => LayoutStyle.SPIRAL
  | 2 => LayoutStyle.DIMINISHING
  | 3 => LayoutStyle.COLUMN
  | 4 => LayoutStyle.STACK
  | _ => LayoutStyle.GRID

/-- The macro `LAYOUT_STYLE_COUNT`. -/
def LAYOUT_STYLE_COUNT : Nat := 6

/-- The function `layout_handle_user_command`: the `Output` after the
command, or `none` when the command has no defined result. The
diagnostics written to `stderr` are not modelled. -/
def layout_handle_user_command (atof : List Char → SDouble) (g : Globals) (o : Output)
    (_command : List Char) : Option Output :=
  match skip_whitespace _command with
  | (false, _) => some o
  | (true, command) =>
    if word_comp command "main_count".toList then
      (handle_uint32_command command o.main_count).map (fun v => { o with main_count := v })
    else if word_comp command "view_padding".toList then
      (handle_uint32_command command o.view_padding).map (fun v => { o with view_padding := v })
    else if word_comp command "outer_padding".toList then
      (handle_uint32_command command o.outer_padding).map (fun v => { o with outer_padding := v })
    else if word_comp command "main_ratio".toList then
      (handle_float_command atof command o.main_ratio literal_0_1 literal_0_9).map
        (fun r => { o with main_ratio := r })
    else if word_comp command "reset".toList then
      match skip_nonwhitespace command with
      | none => none
      | some (b, p1) =>
        if b && (skip_whitespace p1).1 then some o
        else some { o with
          main_count := g.global_main_count
          main_ratio := g.global_main_ratio
          view_padding := g.global_view_padding
          outer_padding := g.global_outer_padding }
    else if word_comp command "swap_layout".toList then
      match skip_nonwhitespace command with
      | none => none
      | some (b, p1) =>
        if b && (skip_whitespace p1).1 then some o
        else some { o with
          layout_style := style_of_value ((style_value o.layout_style + 1) % LAYOUT_STYLE_COUNT) }
    else some o

/-- A sequence of `user_command` events delivered to one output, in order;
`none` as soon as one of them has no defined result. -/
def user_commands (atof : List Char → SDouble) (g : Globals) :
    Output → List (List Char) → Option Output
  | o, [] => some o
  | o, c :: cs =>
    match layout_handle_user_command atof g o c with
    | none => none
    | some o1 => user_commands atof g o1 cs

/-! ## Output lifecycle and the event loop -/

/-- The macro `EXIT_SUCCESS` of the C library. -/
def EXIT_SUCCESS : Nat := 0

/-- The macro `EXIT_FAILURE` of the C library. -/
def EXIT_FAILURE : Nat := 1

/-- The globals `layout_manager`, `outputs` (the `wl_list`, first element
first), `sync_callback`, `loop` and `ret`; `none` is `NULL`. -/
structure State where
  layout_manager : Option Nat
  outputs : List Output
  sync_callback : Option Nat
  loop : Bool
  ret : Nat
deriving DecidableEq, Repr

/-- The interface named by a `global` event of the registry, as the two
`strcmp` of `registry_handle_global` see it. -/
inductive Interface where
  | river_layout_manager_v3
  | wl_output
  | other
deriving DecidableEq, Repr

/-- An event dispatched by `wl_display_dispatch` to one of the listeners:
a `global` of the registry (with the outcome of the `calloc` of
`create_output`), the `done` of the sync callback, and the three events of
the `river_layout_v3` object of the output with the given `wl_output`. -/
inductive Event where
  | global (name : Nat) (interface : Interface) (alloc_ok : Bool)
  | sync_done
  | namespace_in_use (wl_output : Nat)
  | layout_demand (wl_output : Nat) (view_count width height tags serial : Nat)
  | user_command (wl_output : Nat) (command : List Char)
deriving DecidableEq, Repr

/-- The function `configure_output`; the `river_layout_v3` object returned
by `river_layout_manager_v3_get_layout` is named after the `wl_output` it is
created for. -/
def configure_output (o : Output) : Output :=
  { o with configured := true, layout := some o.output }

/-- The function `create_output`: the value returned and the new globals.
`wl_list_insert(&outputs, ...)` inserts at the head of the list; `calloc`
leaves `layout_style` at `TILE`. -/
def create_output (g : Globals) (s : State) (wl_output : Nat) (alloc_ok : Bool) : Bool × State :=
  if alloc_ok then
    let output : Output :=
      { output := wl_output
        layout := none
        main_count := g.global_main_count
        main_ratio := g.global_main_ratio
        view_padding := g.global_view_padding
        outer_padding := g.global_outer_padding
        layout_style := LayoutStyle.TILE
        configured := false }
    let output := if s.layout_manager ≠ none then configure_output output else output
    (true, { s with outputs := output :: s.outputs })
  else (false, s)

/-- The functions `destroy_output` and `destroy_all_outputs`: every output
is destroyed and removed from the list. -/
def destroy_all_outputs (s : State) : State :=
  { s with outputs := [] }

/-- The function `registry_handle_global`. -/
def registry_handle_global (g : Globals) (s : State) (name : Nat) (interface : Interface)
    (alloc_ok : Bool) : State :=
  match interface with
  | Interface.river_layout_manager_v3 => { s with layout_manager := some name }
  | Interface.wl_output =>
    match create_output g s name alloc_ok with
    | (true, s1) => s1
    | (false, s1) => { s1 with loop := false, ret := EXIT_FAILURE }
  | Interface.other => s

/-- The function `sync_handle_done`; `wl_list_for_each` visits the list
from its head. -/
def sync_handle_done (s : State) : State :=
  let s := { s with sync_callback := none }
  match s.layout_manager with
  | none => { s with ret := EXIT_FAILURE, loop := false }
  | some _ =>
    { s with outputs := s.outputs.map (fun o => if o.configured then o else configure_output o) }

/-- The function `layout_handle_namespace_in_use`. -/
def layout_handle_namespace_in_use (s : State) : State :=
  { s with loop := false }

/-- A `user_command` event of the `river_layout_v3` object named `wl_output`
applied to the list of outputs: `layout_handle_user_command` runs on the
output that holds the object; `none` when it has no defined result. -/
def user_command_outputs (atof : List Char → SDouble) (g : Globals) (wl_output : Nat)
    (command : List Char) : List Output → Option (List Output)
  | [] => some []
  | o :: os =>
    match (if o.layout = some wl_output then layout_handle_user_command atof g o command
        else some o) with
    | none => none
    | some o1 => (user_command_outputs atof g wl_output command os).map (fun os1 => o1 :: os1)

/-- The listener called for one event; an event of a `river_layout_v3`
object reaches the outputs that hold that object. `none`: the user command
has no defined result. A layout demand sends its requests and leaves the
globals unchanged. -/
def dispatch_event (atof : List Char → SDouble) (g : Globals) (s : State) : Event → Option State
  | Event.global name interface alloc_ok => some (registry_handle_global g s name interface alloc_ok)
  | Event.sync_done => some (sync_handle_done s)
  | Event.namespace_in_use wl_output =>
    if s.outputs.any (fun o => o.layout = some wl_output) then
      some (layout_handle_namespace_in_use s)
    else some s
  | Event.layout_demand _ _ _ _ _ _ => some s
  | Event.user_command wl_output command =>
    (user_command_outputs atof g wl_output command s.outputs).map
      (fun outputs => { s with outputs := outputs })

/-- One call of `wl_display_dispatch`: the events of a batch are handled
one after the other. -/
def dispatch_batch (atof : List Char → SDouble) (g : Globals) :
    State → List Event → Option State
  | s, [] => some s
  | s, e :: es =>
    match dispatch_event atof g s e with
    | none => none
    | some s1 => dispatch_batch atof g s1 es

/-- The loop `while (loop && wl_display_dispatch(wl_display) != -1)` of
`main`, over the batches of events the display delivers; when they are
exhausted `wl_display_dispatch` returns `-1`. -/
def main_loop (atof : List Char → SDouble) (g : Globals) :
    State → List (List Event) → Option State
  | s, [] => some s
  | s, b :: bs =>
    if s.loop then
      match dispatch_batch atof g s b with
      | none => none
      | some s1 => main_loop atof g s1 bs
    else some s

/-- The function `finish_wayland` once the display is connected. -/
def finish_wayland (s : State) : State :=
  { destroy_all_outputs s with sync_callback := none, layout_manager := none }

/-- The function `main` after the arguments are parsed into the globals
`g`: the exit status and the final globals. `connected` is the result of
`init_wayland`; without a connection `finish_wayland` returns at once. -/
def main (atof : List Char → SDouble) (g : Globals) (connected : Bool)
    (batches : List (List Event)) : Option (Nat × State) :=
  let s0 : State :=
    { layout_manager := none, outputs := [], sync_callback := none, loop := true,
      ret := EXIT_FAILURE }
  if connected then
    let s1 := { s0 with sync_callback := some 0, ret := EXIT_SUCCESS }
    (main_loop atof g s1 batches).map (fun s2 => ((finish_wayland s2).ret, finish_wayland s2))
  else some (s0.ret, s0)

/-- The globals when `main` enters its loop: `init_wayland` has returned
true, with the sync callback attached, and `ret` is `EXIT_SUCCESS`. -/
def loop_entry : State :=
  { layout_manager := none, outputs := [], sync_callback := some 0, loop := true,
    ret := EXIT_SUCCESS }

/-- The `global` events of the registry for the advertised globals `l`,
each given by its name, its interface and the outcome of the `calloc` of
`create_output`. -/
def registry_events (l : List (Nat × Interface × Bool)) : List Event :=
  l.map (fun t => Event.global t.1 t.2.1 t.2.2)

/-- The requests `river_layout_manager_v3_get_layout` that the loop
`wl_list_for_each(output, &outputs, link) if (!output->configured)
configure_output(output);` of `sync_handle_done` sends, each named by the
`wl_output` it is sent for, in the order in which they are sent. -/
def get_layout_requests : List Output → List Nat
  | [] => []
  | o :: os =>
    if o.configured then get_layout_requests os else o.output :: get_layout_requests os

/-- The `river_layout_manager_v3_get_layout` requests sent by
`sync_handle_done`, in order; none when it returns early for want of a
layout manager. -/
def sync_handle_done_requests (s : State) : List Nat :=
  match s.layout_manager with
  | none => []
  | some _ => get_layout_requests s.outputs

/-! ## Rectangles -/

/-- The rectangle `a` lies inside the rectangle `b`. -/
def Rect.within (a b : Rect) : Prop :=
  b.view_x ≤ a.view_x ∧ a.view_x + a.view_width ≤ b.view_x + b.view_width ∧
  b.view_y ≤ a.view_y ∧ a.view_y + a.view_height ≤ b.view_y + b.view_height

/-- The interiors of the rectangles `a` and `b` meet: on both axes the
open intervals they span have a common point. -/
def Rect.overlap (a b : Rect) : Prop :=
  max a.view_x b.view_x < min (a.view_x + a.view_width) (b.view_x + b.view_width) ∧
  max a.view_y b.view_y < min (a.view_y + a.view_height) (b.view_y + b.view_height)

instance (a b : Rect) : Decidable (Rect.within a b) := by
  unfold Rect.within
  infer_instance

instance (a b : Rect) : Decidable (Rect.overlap a b) := by
  unfold Rect.overlap
  infer_instance

/-! ## Sample outputs -/

/-- A stand-in for `atof` that reads a decimal integer, as `atoi` does. -/
def integer_atof (s : List Char) : SDouble :=
  SDouble.mk (decide (atoi s < 0)) (Double.mk (atoi s).natAbs 0)

/-- The globals with their initial values. -/
def default_globals : Globals :=
  Globals.mk 1 (Double.mk 1 1) 5 5

/-- An output with the start-up defaults of the globals (`main_count = 1`,
`main_ratio = 0.5`, `view_padding = 5`, `outer_padding = 5`) and the given
layout style. -/
def default_output (style : LayoutStyle) : Output :=
  Output.mk 0 (some 1) 1 (Double.mk 1 1) 5 5 style true

/-- An output with `view_padding = 0` (`main_count = 1`, `main_ratio = 0.5`,
`outer_padding = 5`) and the given layout style. -/
def unpadded_output (style : LayoutStyle) : Output :=
  Output.mk 0 (some 1) 1 (Double.mk 1 1) 0 5 style true

/-! ## Machine arithmetic: supporting lemmas -/

theorem usable_lt (o : Output) (s : Nat) : usable o s < 4294967296 := by
  unfold usable sub32
  omega

theorem mul32_of_lt {a b : Nat} (h : a * b < 4294967296) : mul32 a b = a * b :=
  Nat.mod_eq_of_lt h

theorem sub32_of_le {a b : Nat} (ha : a < 4294967296) (h : b ≤ a) : sub32 a b = a - b := by
  unfold sub32
  omega

theorem add32_of_lt {a b : Nat} (h : a + b < 4294967296) : add32 a b = a + b :=
  Nat.mod_eq_of_lt h

theorem succ_mul_div_le {i n : Nat} (H : Nat) (h : i < n) : i * (H / n) + H / n ≤ H := by
  calc i * (H / n) + H / n = (i + 1) * (H / n) := by ring
    _ ≤ n * (H / n) := Nat.mul_le_mul_right _ h
    _ ≤ H := Nat.mul_div_le H n

theorem mul32_index {i n H : Nat} (hH : H < 4294967296) (h : i < n) :
    mul32 i (H / n) = i * (H / n) := by
  apply mul32_of_lt
  exact Nat.lt_of_le_of_lt (Nat.le_trans (Nat.le_add_right _ _) (succ_mul_div_le H h)) hH

theorem div32_of_pos {a b : Nat} (h : 0 < b) : div32 a b = some (a / b) := by
  unfold div32
  rw [if_neg (by omega)]

/-! ## The floating-point product: supporting lemmas -/

theorem round53_le (n : Nat) : round53 n ≤ n + 2 ^ (Nat.log2 n - 52) := by
  unfold round53
  split
  · exact Nat.le_add_right _ _
  · have hq : n / 2 ^ (Nat.log2 n - 52) * 2 ^ (Nat.log2 n - 52) ≤ n := Nat.div_mul_le_self _ _
    simp only []
    split
    · rw [Nat.add_mul, Nat.one_mul]
      omega
    · omega

theorem mul_ratio_to_uint_le (W : Nat) (r : Double) (hW : W < 4294967296)
    (hrn : r ≠ Double.nan ∧ r.mant ≤ 2 ^ r.exp) :
    ∃ M, mul_ratio_to_uint W r = some M ∧ M ≤ W := by
  have hr := hrn.2
  have hpos : 0 < 2 ^ r.exp := Nat.two_pow_pos r.exp
  have hN : W * r.mant ≤ W * 2 ^ r.exp := Nat.mul_le_mul_left _ hr
  have hlt : round53 (W * r.mant) < (W + 1) * 2 ^ r.exp := by
    by_cases hsmall : W * r.mant < 2 ^ 53
    · have : round53 (W * r.mant) = W * r.mant := by
        unfold round53
        rw [if_pos hsmall]
      rw [this, Nat.add_mul, Nat.one_mul]
      omega
    · have hne : W * r.mant ≠ 0 := by
        intro h0
        rw [h0] at hsmall
        exact hsmall (Nat.two_pow_pos 53)
      have h53 : 53 ≤ Nat.log2 (W * r.mant) := (Nat.le_log2 hne).2 (by omega)
      have hup : W * r.mant < 2 ^ (32 + r.exp) := by
        rw [Nat.pow_add]
        calc W * r.mant ≤ W * 2 ^ r.exp := hN
          _ < 2 ^ 32 * 2 ^ r.exp := Nat.mul_lt_mul_of_pos_right (by norm_num; omega) hpos
      have hlog : Nat.log2 (W * r.mant) < 32 + r.exp := (Nat.log2_lt hne).2 hup
      have hd : 2 ^ (Nat.log2 (W * r.mant) - 52) < 2 ^ r.exp :=
        Nat.pow_lt_pow_right (by decide) (by omega)
      have := round53_le (W * r.mant)
      rw [Nat.add_mul, Nat.one_mul]
      omega
  have hle : round53 (W * r.mant) / 2 ^ r.exp ≤ W :=
    Nat.lt_succ_iff.1 ((Nat.div_lt_iff_lt_mul hpos).2 hlt)
  refine ⟨round53 (W * r.mant) / 2 ^ r.exp, ?_, hle⟩
  unfold mul_ratio_to_uint
  rw [if_neg hrn.1]
  simp only []
  rw [if_pos (by omega)]

/-! ## Tile: supporting lemmas -/

theorem tile_loop_some (o : Output) (view_count height main_size stack_size serial : Nat)
    (g : Nat → Rect) (l : List Nat)
    (h : ∀ i ∈ l, tile_region o view_count height main_size stack_size i = some (g i)) :
    tile_loop o view_count height main_size stack_size serial l
      = some (l.map (fun i => push_inset o (g i) serial)) := by
  induction l with
  | nil => rfl
  | cons a t ih =>
    have h1 := h a (List.mem_cons_self a t)
    have h2 := ih (fun b hb => h b (List.mem_cons_of_mem a hb))
    simp [tile_loop, h1, h2]

theorem Double.toRat_of_ne_nan (d : Double) (h : d ≠ Double.nan) :
    d.toRat = (d.mant : ℚ) / 2 ^ d.exp := by
  unfold Double.toRat
  rw [if_neg h]

theorem Double.toRat_mk (mant exp : Nat) :
    (Double.mk mant exp).toRat = (mant : ℚ) / 2 ^ exp :=
  Double.toRat_of_ne_nan _ (by simp)

theorem Double.ne_nan_of_le_one (d : Double) (h : d.toRat ≤ 1) : d ≠ Double.nan := by
  intro hn
  rw [hn] at h
  unfold Double.toRat at h
  rw [if_pos rfl] at h
  norm_num at h

theorem Double.le_one_iff (d : Double) :
    d.toRat ≤ 1 ↔ d ≠ Double.nan ∧ d.mant ≤ 2 ^ d.exp := by
  have hpos : (0 : ℚ) < 2 ^ d.exp := by positivity
  constructor
  · intro h
    have hn := Double.ne_nan_of_le_one d h
    rw [Double.toRat_of_ne_nan d hn, div_le_one hpos] at h
    have h2 : (d.mant : ℚ) ≤ ((2 ^ d.exp : ℕ) : ℚ) := by
      push_cast
      exact h
    exact ⟨hn, by exact_mod_cast h2⟩
  · intro h
    rw [Double.toRat_of_ne_nan d h.1, div_le_one hpos]
    have h2 : (d.mant : ℚ) ≤ ((2 ^ d.exp : ℕ) : ℚ) := by exact_mod_cast h.2
    push_cast at h2
    exact h2

theorem mul_ratio_to_uint_exact (W : Nat) (r : Double) (M : Nat)
    (hM : mul_ratio_to_uint W r = some M) (hsmall : W * r.mant < 2 ^ 53) :
    M = ⌊(W : ℚ) * r.toRat⌋₊ := by
  have hn : r ≠ Double.nan := by
    intro hn
    unfold mul_ratio_to_uint at hM
    rw [if_pos hn] at hM
    cases hM
  unfold mul_ratio_to_uint at hM
  rw [if_neg hn] at hM
  simp only [] at hM
  split at hM
  · have hM2 : round53 (W * r.mant) / 2 ^ r.exp = M := Option.some.inj hM
    have hr : round53 (W * r.mant) = W * r.mant := by
      unfold round53
      rw [if_pos hsmall]
    rw [hr] at hM2
    have hq : (W : ℚ) * r.toRat = ((W * r.mant : ℕ) : ℚ) / ((2 ^ r.exp : ℕ) : ℚ) := by
      rw [Double.toRat_of_ne_nan r hn]
      push_cast
      ring
    rw [hq, Nat.floor_div_eq_div, hM2]
  · exact absurd hM (by simp)

theorem tile_split (o : Output) (view_count width height tags serial M : Nat)
    (hmc : 1 ≤ o.main_count) (hvc : o.main_count < view_count) (h32 : view_count < 4294967296)
    (hM : mul_ratio_to_uint (usable o width) o.main_ratio = some M) (hMW : M ≤ usable o width) :
    delta_handle_layout_demand_tile o view_count width height tags serial =
      some ((List.range view_count).map (fun i =>
        push_inset o
          (if i < o.main_count then
            Rect.mk 0 (i * (usable o height / o.main_count)) M (usable o height / o.main_count)
          else
            Rect.mk M ((i - o.main_count) * (usable o height / (view_count - o.main_count)))
              (usable o width - M) (usable o height / (view_count - o.main_count)))
          serial) ++ [Request.commit "[]=" serial]) := by
  have hW := usable_lt o width
  have hH := usable_lt o height
  have hsizes : tile_sizes o view_count (usable o width) = some (M, usable o width - M) := by
    unfold tile_sizes
    rw [if_neg (by omega), if_neg (by omega), hM, Option.map_some', sub32_of_le hW hMW]
  have hreg : ∀ i ∈ List.range view_count,
      tile_region o view_count (usable o height) M (usable o width - M) i =
        some (if i < o.main_count then
            Rect.mk 0 (i * (usable o height / o.main_count)) M (usable o height / o.main_count)
          else
            Rect.mk M ((i - o.main_count) * (usable o height / (view_count - o.main_count)))
              (usable o width - M) (usable o height / (view_count - o.main_count))) := by
    intro i hi
    have hiv : i < view_count := List.mem_range.1 hi
    unfold tile_region
    by_cases him : i < o.main_count
    · have hmin : MIN o.main_count view_count = o.main_count := by
        unfold MIN
        rw [if_pos hvc]
      rw [if_pos him, if_pos him, hmin, div32_of_pos hmc, Option.map_some', mul32_index hH him]
    · have hsub : sub32 view_count o.main_count = view_count - o.main_count :=
        sub32_of_le h32 (by omega)
      have hsubi : sub32 i o.main_count = i - o.main_count := sub32_of_le (by omega) (by omega)
      have hlt : i - o.main_count < view_count - o.main_count := by omega
      rw [if_neg him, if_neg him, hsub, hsubi, div32_of_pos (by omega), Option.map_some',
        mul32_index hH hlt]
  unfold delta_handle_layout_demand_tile
  simp only [hsizes]
  rw [tile_loop_some o view_count (usable o height) M (usable o width - M) serial _ _ hreg]
  rfl

theorem tile_degenerate (o : Output) (view_count width height tags serial : Nat)
    (h32 : view_count < 4294967296)
    (hdeg : o.main_count = 0 ∨ view_count ≤ o.main_count) :
    delta_handle_layout_demand_tile o view_count width height tags serial =
      some ((List.range view_count).map (fun i =>
        push_inset o
          (Rect.mk 0 (i * (usable o height / view_count)) (usable o width)
            (usable o height / view_count))
          serial) ++ [Request.commit "[]=" serial]) := by
  have hH := usable_lt o height
  by_cases h0 : o.main_count = 0
  · have hsizes : tile_sizes o view_count (usable o width) = some (0, usable o width) := by
      unfold tile_sizes
      rw [if_pos h0]
    have hreg : ∀ i ∈ List.range view_count,
        tile_region o view_count (usable o height) 0 (usable o width) i =
          some (Rect.mk 0 (i * (usable o height / view_count)) (usable o width)
            (usable o height / view_count)) := by
      intro i hi
      have hiv : i < view_count := List.mem_range.1 hi
      have hsub : sub32 view_count o.main_count = view_count := by
        rw [h0]
        exact sub32_of_le h32 (Nat.zero_le _)
      have hsubi : sub32 i o.main_count = i := by
        rw [h0]
        exact sub32_of_le (by omega) (Nat.zero_le _)
      unfold tile_region
      rw [if_neg (by omega), hsub, hsubi, div32_of_pos (by omega), Option.map_some',
        mul32_index hH hiv]
    unfold delta_handle_layout_demand_tile
    simp only [hsizes]
    rw [tile_loop_some o view_count (usable o height) 0 (usable o width) serial _ _ hreg]
    rfl
  · have hle : view_count ≤ o.main_count := by
      rcases hdeg with h | h
      · exact absurd h h0
      · exact h
    have hsizes : tile_sizes o view_count (usable o width) = some (usable o width, 0) := by
      unfold tile_sizes
      rw [if_neg h0, if_pos hle]
    have hreg : ∀ i ∈ List.range view_count,
        tile_region o view_count (usable o height) (usable o width) 0 i =
          some (Rect.mk 0 (i * (usable o height / view_count)) (usable o width)
            (usable o height / view_count)) := by
      intro i hi
      have hiv : i < view_count := List.mem_range.1 hi
      have hmin : MIN o.main_count view_count = view_count := by
        unfold MIN
        by_cases hlt : o.main_count < view_count
        · omega
        · rw [if_neg hlt]
      unfold tile_region
      rw [if_pos (by omega), hmin, div32_of_pos (by omega), Option.map_some',
        mul32_index hH hiv]
    unfold delta_handle_layout_demand_tile
    simp only [hsizes]
    rw [tile_loop_some o view_count (usable o height) (usable o width) 0 serial _ _ hreg]
    rfl

/-! ## Dispatch: supporting lemmas -/

theorem dispatch_tile (o : Output) (view_count width height tags serial : Nat)
    (h : o.layout_style = LayoutStyle.TILE) :
    delta_handle_layout_demand o view_count width height tags serial =
      delta_handle_layout_demand_tile o view_count width height tags serial := by
  unfold delta_handle_layout_demand
  rw [h]

theorem dispatch_spiral (o : Output) (view_count width height tags serial : Nat)
    (h : o.layout_style = LayoutStyle.SPIRAL) :
    delta_handle_layout_demand o view_count width height tags serial =
      delta_handle_layout_demand_spiral o view_count width height tags serial false := by
  unfold delta_handle_layout_demand
  rw [h]

theorem dispatch_diminishing (o : Output) (view_count width height tags serial : Nat)
    (h : o.layout_style = LayoutStyle.DIMINISHING) :
    delta_handle_layout_demand o view_count width height tags serial =
      delta_handle_layout_demand_spiral o view_count width height tags serial true := by
  unfold delta_handle_layout_demand
  rw [h]

theorem dispatch_column (o : Output) (view_count width height tags serial : Nat)
    (h : o.layout_style = LayoutStyle.COLUMN) :
    delta_handle_layout_demand o view_count width height tags serial =
      delta_handle_layout_demand_column o view_count width height tags serial := by
  unfold delta_handle_layout_demand
  rw [h]

theorem dispatch_stack (o : Output) (view_count width height tags serial : Nat)
    (h : o.layout_style = LayoutStyle.STACK) :
    delta_handle_layout_demand o view_count width height tags serial =
      delta_handle_layout_demand_stack o view_count width height tags serial := by
  unfold delta_handle_layout_demand
  rw [h]

theorem dispatch_grid (o : Output) (view_count width height tags serial : Nat)
    (h : o.layout_style = LayoutStyle.GRID) :
    delta_handle_layout_demand o view_count width height tags serial =
      delta_handle_layout_demand_grid o view_count width height tags serial := by
  unfold delta_handle_layout_demand
  rw [h]

/-! ## Tile: the claims -/

/-- C2. Tile, general case: when `view_count > main_count >= 1` (and
`main_ratio <= 1`), with `W` and `H` the usable width and height, the
main column has width `M`, the value of the C expression
`width * main_ratio` truncated to an unsigned integer (the exact floor of
the real product whenever the product is exactly representable), with
`M <= W`; each view `i < main_count` has the region at x-offset `0`,
y-offset `i * (H / main_count)`, of width `M` and height `H / main_count`;
each later view has the region at x-offset `M`, y-offset
`(i - main_count) * (H / (view_count - main_count))`, of width `W - M` and
height `H / (view_count - main_count)`; the handler pushes these regions
in index order and then commits. -/
theorem tile_main_column_and_stack (o : Output) (view_count width height tags serial : Nat)
    (hmc : 1 ≤ o.main_count) (hvc : o.main_count < view_count) (h32 : view_count < 4294967296)
    (hr : o.main_ratio.toRat ≤ 1) :
    ∃ M, mul_ratio_to_uint (usable o width) o.main_ratio = some M ∧ M ≤ usable o width ∧
      (usable o width * o.main_ratio.mant < 2 ^ 53 →
        M = ⌊(usable o width : ℚ) * o.main_ratio.toRat⌋₊) ∧
      delta_handle_layout_demand_tile o view_count width height tags serial =
        some ((List.range view_count).map (fun i =>
          push_inset o
            (if i < o.main_count then
              Rect.mk 0 (i * (usable o height / o.main_count)) M (usable o height / o.main_count)
            else
              Rect.mk M ((i - o.main_count) * (usable o height / (view_count - o.main_count)))
                (usable o width - M) (usable o height / (view_count - o.main_count)))
            serial) ++ [Request.commit "[]=" serial]) := by
  obtain ⟨M, hM, hMW⟩ := mul_ratio_to_uint_le (usable o width) o.main_ratio (usable_lt o width)
    ((Double.le_one_iff o.main_ratio).1 hr)
  exact ⟨M, hM, hMW, mul_ratio_to_uint_exact _ _ M hM,
    tile_split o view_count width height tags serial M hmc hvc h32 hM hMW⟩

theorem tile_scenario_handler (o : Output) (tags serial : Nat)
    (hmc : o.main_count = 1) (hmr : o.main_ratio = Double.mk 1 1)
    (hvp : o.view_padding = 0) (hop : o.outer_padding = 0) :
    delta_handle_layout_demand_tile o 3 1000 800 tags serial
    = some [Request.push_view_dimensions 0 0 500 800 serial,
            Request.push_view_dimensions 500 0 500 400 serial,
            Request.push_view_dimensions 500 400 500 400 serial,
            Request.commit "[]=" serial] := by
  have hm : mul_ratio_to_uint 1000 (Double.mk 1 1) = some 500 := by
    have h53 : round53 (1000 * 1) = 1000 := by
      unfold round53
      rw [if_pos (by norm_num)]
    unfold mul_ratio_to_uint
    rw [if_neg (by simp)]
    simp only [Double.mant, Double.exp, h53]
    norm_num
  have hu : ∀ s, s < 4294967296 → usable o s = s := by
    intro s hs
    unfold usable sub32 mul32
    rw [hop]
    omega
  have h := tile_split o 3 1000 800 tags serial 500 (by omega) (by omega) (by decide)
    (by rw [hu 1000 (by decide), hmr]; exact hm) (by rw [hu 1000 (by decide)]; decide)
  have hr : List.range 3 = [0, 1, 2] := by decide
  rw [hu 1000 (by decide), hu 800 (by decide), hr, hmc] at h
  rw [h]
  simp [push_inset, add32, sub32, mul32, hvp, hop]

/-- C3. Concrete Tile scenario: with `outer_padding = 0`, `view_padding = 0`,
`main_count = 1`, `main_ratio = 0.5` and style Tile, a demand with 3 views,
width 1000 and height 800 pushes `(0,0,500,800)`, `(500,0,500,400)`,
`(500,400,500,400)` in that order and then commits. -/
theorem tile_scenario (out : Nat) (lay : Option Nat) (conf : Bool) (tags serial : Nat) :
    delta_handle_layout_demand
      (Output.mk out lay 1 (Double.mk 1 1) 0 0 LayoutStyle.TILE conf) 3 1000 800 tags serial
    = some [Request.push_view_dimensions 0 0 500 800 serial,
            Request.push_view_dimensions 500 0 500 400 serial,
            Request.push_view_dimensions 500 400 500 400 serial,
            Request.commit "[]=" serial] :=
  (dispatch_tile (Output.mk out lay 1 (Double.mk 1 1) 0 0 LayoutStyle.TILE conf)
    3 1000 800 tags serial rfl).trans
    (tile_scenario_handler (Output.mk out lay 1 (Double.mk 1 1) 0 0 LayoutStyle.TILE conf)
      tags serial rfl rfl rfl rfl)

/-- C4. Tile, degenerate cases: when `view_count >= 1` and `main_count = 0`
or `view_count <= main_count`, every view `i` has the region at x-offset
`0` of the whole usable width `W`, at y-offset `i * (H / view_count)` and of
height `H / view_count`, whatever `main_ratio` is. -/
theorem tile_single_column (o : Output) (view_count width height tags serial : Nat)
    (_hvc : 1 ≤ view_count) (h32 : view_count < 4294967296)
    (hdeg : o.main_count = 0 ∨ view_count ≤ o.main_count) :
    delta_handle_layout_demand_tile o view_count width height tags serial =
      some ((List.range view_count).map (fun i =>
        push_inset o
          (Rect.mk 0 (i * (usable o height / view_count)) (usable o width)
            (usable o height / view_count))
          serial) ++ [Request.commit "[]=" serial]) :=
  tile_degenerate o view_count width height tags serial h32 hdeg

/-! ## Column, Stack, Grid: supporting lemmas -/

theorem column_pushes (o : Output) (view_count width height tags serial : Nat)
    (hn : 1 ≤ view_count) :
    delta_handle_layout_demand_column o view_count width height tags serial =
      some ((List.range view_count).map (fun i =>
        Request.push_view_dimensions
          (add32 (add32 (i * (usable o width / view_count)) o.view_padding) o.outer_padding)
          o.outer_padding
          (sub32 (usable o width / view_count) (mul32 2 o.view_padding))
          (usable o height)
          serial) ++ [Request.commit "|||" serial]) := by
  unfold delta_handle_layout_demand_column
  simp only [div32_of_pos hn, Option.map_some']
  congr 2
  apply List.map_congr_left
  intro i hi
  rw [mul32_index (usable_lt o width) (List.mem_range.1 hi)]

theorem stack_pushes (o : Output) (view_count width height tags serial : Nat)
    (hn : 1 ≤ view_count) :
    delta_handle_layout_demand_stack o view_count width height tags serial =
      some ((List.range view_count).map (fun i =>
        Request.push_view_dimensions
          o.outer_padding
          (add32 (add32 (i * (usable o height / view_count)) o.view_padding) o.outer_padding)
          (usable o width)
          (sub32 (usable o height / view_count) (mul32 2 o.view_padding))
          serial) ++ [Request.commit "=" serial]) := by
  unfold delta_handle_layout_demand_stack
  simp only [div32_of_pos hn, Option.map_some']
  congr 2
  apply List.map_congr_left
  intro i hi
  rw [mul32_index (usable_lt o height) (List.mem_range.1 hi)]

theorem grid_size_cases (n : Nat) (h32 : n < 4294967296) :
    (Nat.sqrt n * Nat.sqrt n < n ∧ grid_size n = Nat.sqrt n + 1) ∨
    (Nat.sqrt n * Nat.sqrt n = n ∧ grid_size n = Nat.sqrt n) := by
  have hle := Nat.sqrt_le n
  have hs : Nat.sqrt n < 65536 := Nat.sqrt_lt.2 (by omega)
  have hss : Nat.sqrt n * Nat.sqrt n < 4294967296 := by omega
  unfold grid_size
  simp only [mul32_of_lt hss]
  by_cases hlt : Nat.sqrt n * Nat.sqrt n < n
  · left
    rw [if_pos hlt, add32_of_lt (by omega)]
    exact ⟨hlt, rfl⟩
  · right
    rw [if_neg hlt]
    exact ⟨by omega, rfl⟩

theorem grid_size_covers (n : Nat) (h32 : n < 4294967296) : n ≤ grid_size n * grid_size n := by
  rcases grid_size_cases n h32 with ⟨_, hg⟩ | ⟨hsq, hg⟩
  · rw [hg]
    exact Nat.le_of_lt (Nat.lt_succ_sqrt n)
  · rw [hg, hsq]

theorem grid_size_least (n k : Nat) (h32 : n < 4294967296) (hk : n ≤ k * k) :
    grid_size n ≤ k := by
  rcases grid_size_cases n h32 with ⟨hlt, hg⟩ | ⟨hsq, hg⟩
  · rw [hg]
    by_contra hcon
    have hks : k ≤ Nat.sqrt n := by omega
    have : k * k ≤ Nat.sqrt n * Nat.sqrt n := Nat.mul_le_mul hks hks
    omega
  · rw [hg]
    by_contra hcon
    have hks : k < Nat.sqrt n := by omega
    have : k * k < Nat.sqrt n * Nat.sqrt n := Nat.mul_self_lt_mul_self hks
    omega

theorem grid_size_pos (n : Nat) (hn : 1 ≤ n) (h32 : n < 4294967296) : 0 < grid_size n := by
  have h := grid_size_covers n h32
  by_contra hcon
  have h0 : grid_size n = 0 := by omega
  rw [h0] at h
  omega

theorem grid_pushes (o : Output) (view_count width height tags serial : Nat)
    (hn : 1 ≤ view_count) (h32 : view_count < 4294967296) :
    delta_handle_layout_demand_grid o view_count width height tags serial =
      some ((List.range view_count).map (fun i =>
        push_inset o
          (Rect.mk ((i % grid_size view_count) * (usable o width / grid_size view_count))
            ((i / grid_size view_count) * (usable o height / grid_size view_count))
            (usable o width / grid_size view_count)
            (usable o height / grid_size view_count))
          serial) ++ [Request.commit "#" serial]) := by
  have hg := grid_size_pos view_count hn h32
  have hcov := grid_size_covers view_count h32
  unfold delta_handle_layout_demand_grid
  simp only [div32_of_pos hg]
  congr 2
  apply List.map_congr_left
  intro i hi
  have hi2 : i < view_count := List.mem_range.1 hi
  have hcol : i % grid_size view_count < grid_size view_count := Nat.mod_lt _ hg
  have hrow : i / grid_size view_count < grid_size view_count :=
    (Nat.div_lt_iff_lt_mul hg).2 (by omega)
  rw [mul32_index (usable_lt o width) hcol, mul32_index (usable_lt o height) hrow]
  rfl

/-! ## Spiral and Diminishing: supporting lemmas -/

theorem spiral_loop_eq (o : Output) (view_count serial : Nat) (diminish : Bool)
    (width height : Nat) (n i : Nat) :
    spiral_loop o view_count serial diminish n i
        (spiral_vars o view_count serial diminish width height i) =
      (List.range' i n).map (fun j =>
        (spiral_iter o view_count serial diminish j
          (spiral_vars o view_count serial diminish width height j)).1) := by
  induction n generalizing i with
  | zero => rfl
  | succ n ih =>
    have h := ih (i + 1)
    rw [spiral_vars] at h
    rw [spiral_loop, h]
    rfl

theorem spiral_pushes (o : Output) (view_count width height tags serial : Nat)
    (diminish : Bool) :
    delta_handle_layout_demand_spiral o view_count width height tags serial diminish =
      some ((List.range view_count).map (fun j =>
        (spiral_iter o view_count serial diminish j
          (spiral_vars o view_count serial diminish (usable o width) (usable o height) j)).1)
        ++ [Request.commit (spiral_name diminish) serial]) := by
  have h := spiral_loop_eq o view_count serial diminish (usable o width) (usable o height)
    view_count 0
  rw [← List.range_eq_range'] at h
  unfold delta_handle_layout_demand_spiral
  simp only []
  rw [← h]
  rfl

theorem spiral_iter_bounds (o : Output) (view_count serial : Nat) (diminish : Bool)
    (W H i : Nat) (s : Rect) (hW : W < 4294967296) (hH : H < 4294967296)
    (hx : s.view_x + s.view_width ≤ W) (hy : s.view_y + s.view_height ≤ H) :
    (spiral_iter o view_count serial diminish i s).2.view_x +
        (spiral_iter o view_count serial diminish i s).2.view_width ≤ W ∧
    (spiral_iter o view_count serial diminish i s).2.view_y +
        (spiral_iter o view_count serial diminish i s).2.view_height ≤ H := by
  have hax : add32 s.view_x (s.view_width / 2) = s.view_x + s.view_width / 2 :=
    add32_of_lt (by omega)
  have hay : add32 s.view_y (s.view_height / 2) = s.view_y + s.view_height / 2 :=
    add32_of_lt (by omega)
  unfold spiral_iter
  split_ifs <;> simp only [hax, hay] <;> omega

theorem spiral_vars_bounds (o : Output) (view_count serial : Nat) (diminish : Bool)
    (W H : Nat) (hW : W < 4294967296) (hH : H < 4294967296) (k : Nat) :
    (spiral_vars o view_count serial diminish W H k).view_x +
        (spiral_vars o view_count serial diminish W H k).view_width ≤ W ∧
    (spiral_vars o view_count serial diminish W H k).view_y +
        (spiral_vars o view_count serial diminish W H k).view_height ≤ H := by
  induction k with
  | zero =>
    rw [spiral_vars]
    exact ⟨by simp, by simp⟩
  | succ k ih =>
    rw [spiral_vars]
    exact spiral_iter_bounds o view_count serial diminish W H k _ hW hH ih.1 ih.2

theorem spiral_iter_last (o : Output) (view_count serial : Nat) (diminish : Bool) (i : Nat)
    (s : Rect) (hlast : i = sub32 view_count 1) :
    spiral_iter o view_count serial diminish i s = (push_inset o s serial, s) := by
  unfold spiral_iter
  rw [if_pos hlast]
  rfl

theorem spiral_iter_left (o : Output) (view_count serial : Nat) (diminish : Bool) (i : Nat)
    (s : Rect) (hlast : i ≠ sub32 view_count 1) (heven : i % 2 = 0)
    (hside : ¬(i % 4 = 2 ∧ diminish = false)) :
    spiral_iter o view_count serial diminish i s =
      (push_inset o (Rect.mk s.view_x s.view_y (s.view_width / 2) s.view_height) serial,
        Rect.mk (add32 s.view_x (s.view_width / 2)) s.view_y (s.view_width / 2) s.view_height) := by
  unfold spiral_iter
  rw [if_neg hlast, if_pos heven]
  simp only []
  rw [if_neg hside]
  rfl

theorem spiral_iter_right (o : Output) (view_count serial : Nat) (diminish : Bool) (i : Nat)
    (s : Rect) (hlast : i ≠ sub32 view_count 1) (h4 : i % 4 = 2) (hd : diminish = false) :
    spiral_iter o view_count serial diminish i s =
      (push_inset o
          (Rect.mk (s.view_x + s.view_width / 2) s.view_y (s.view_width / 2) s.view_height) serial,
        Rect.mk s.view_x s.view_y (s.view_width / 2) s.view_height) := by
  have hx : add32 (add32 (add32 s.view_x o.view_padding) o.outer_padding) (s.view_width / 2) =
      add32 (add32 (s.view_x + s.view_width / 2) o.view_padding) o.outer_padding := by
    unfold add32
    omega
  unfold spiral_iter
  rw [if_neg hlast, if_pos (by omega)]
  simp only []
  rw [if_pos ⟨h4, hd⟩, hx]
  rfl

theorem spiral_iter_top (o : Output) (view_count serial : Nat) (diminish : Bool) (i : Nat)
    (s : Rect) (hlast : i ≠ sub32 view_count 1) (hodd : i % 2 = 1)
    (hside : ¬(i % 4 = 3 ∧ diminish = false)) :
    spiral_iter o view_count serial diminish i s =
      (push_inset o (Rect.mk s.view_x s.view_y s.view_width (s.view_height / 2)) serial,
        Rect.mk s.view_x (add32 s.view_y (s.view_height / 2)) s.view_width (s.view_height / 2)) := by
  unfold spiral_iter
  rw [if_neg hlast, if_neg (by omega)]
  simp only []
  rw [if_neg hside]
  rfl

theorem spiral_iter_bottom (o : Output) (view_count serial : Nat) (diminish : Bool) (i : Nat)
    (s : Rect) (hlast : i ≠ sub32 view_count 1) (h4 : i % 4 = 3) (hd : diminish = false) :
    spiral_iter o view_count serial diminish i s =
      (push_inset o
          (Rect.mk s.view_x (s.view_y + s.view_height / 2) s.view_width (s.view_height / 2)) serial,
        Rect.mk s.view_x s.view_y s.view_width (s.view_height / 2)) := by
  have hy : add32 (add32 (add32 s.view_y o.view_padding) o.outer_padding) (s.view_height / 2) =
      add32 (add32 (s.view_y + s.view_height / 2) o.view_padding) o.outer_padding := by
    unfold add32
    omega
  unfold spiral_iter
  rw [if_neg hlast, if_neg (by omega)]
  simp only []
  rw [if_pos ⟨h4, hd⟩, hy]
  rfl

theorem spiral_iter_push (o : Output) (view_count serial : Nat) (diminish : Bool) (i : Nat)
    (s : Rect) :
    (spiral_iter o view_count serial diminish i s).1 =
      push_inset o (spiral_region view_count diminish i s) serial := by
  by_cases hlast : i = sub32 view_count 1
  · rw [spiral_iter_last o view_count serial diminish i s hlast]
    unfold spiral_region
    rw [if_pos hlast]
  · unfold spiral_region
    rw [if_neg hlast]
    by_cases heven : i % 2 = 0
    · rw [if_pos heven]
      by_cases hside : i % 4 = 2 ∧ diminish = false
      · rw [if_pos hside, spiral_iter_right o view_count serial diminish i s hlast hside.1 hside.2]
      · rw [if_neg hside, spiral_iter_left o view_count serial diminish i s hlast heven hside]
    · rw [if_neg heven]
      by_cases hside : i % 4 = 3 ∧ diminish = false
      · rw [if_pos hside, spiral_iter_bottom o view_count serial diminish i s hlast hside.1 hside.2]
      · rw [if_neg hside,
          spiral_iter_top o view_count serial diminish i s hlast (by omega) hside]

theorem spiral_iter_size (o : Output) (view_count serial : Nat) (diminish : Bool) (i : Nat)
    (s : Rect) (hlast : i ≠ sub32 view_count 1) :
    (i % 2 = 0 →
      (spiral_iter o view_count serial diminish i s).2.view_width = s.view_width / 2 ∧
      (spiral_iter o view_count serial diminish i s).2.view_height = s.view_height) ∧
    (i % 2 = 1 →
      (spiral_iter o view_count serial diminish i s).2.view_width = s.view_width ∧
      (spiral_iter o view_count serial diminish i s).2.view_height = s.view_height / 2) := by
  constructor
  · intro heven
    by_cases hside : i % 4 = 2 ∧ diminish = false
    · rw [spiral_iter_right o view_count serial diminish i s hlast hside.1 hside.2]
      exact ⟨rfl, rfl⟩
    · rw [spiral_iter_left o view_count serial diminish i s hlast heven hside]
      exact ⟨rfl, rfl⟩
  · intro hodd
    by_cases hside : i % 4 = 3 ∧ diminish = false
    · rw [spiral_iter_bottom o view_count serial diminish i s hlast hside.1 hside.2]
      exact ⟨rfl, rfl⟩
    · rw [spiral_iter_top o view_count serial diminish i s hlast hodd hside]
      exact ⟨rfl, rfl⟩

theorem spiral_vars_size (o : Output) (view_count serial : Nat) (diminish : Bool)
    (W H : Nat) (h32 : view_count < 4294967296) (k : Nat) (hk : k + 1 ≤ view_count) :
    (spiral_vars o view_count serial diminish W H k).view_width = W / 2 ^ ((k + 1) / 2) ∧
    (spiral_vars o view_count serial diminish W H k).view_height = H / 2 ^ (k / 2) := by
  induction k with
  | zero =>
    rw [spiral_vars]
    simp
  | succ k ih =>
    have hprev := ih (by omega)
    have hlast : k ≠ sub32 view_count 1 := by
      rw [sub32_of_le h32 (by omega)]
      omega
    have hsz := spiral_iter_size o view_count serial diminish k
      (spiral_vars o view_count serial diminish W H k) hlast
    rw [spiral_vars]
    rcases Nat.mod_two_eq_zero_or_one k with heven | hodd
    · have h1 : (k + 1 + 1) / 2 = (k + 1) / 2 + 1 := by omega
      have h2 : (k + 1) / 2 = k / 2 := by omega
      rw [(hsz.1 heven).1, (hsz.1 heven).2, hprev.1, hprev.2, h1, h2, Nat.div_div_eq_div_mul,
        Nat.pow_succ]
      exact ⟨rfl, rfl⟩
    · have h1 : (k + 1 + 1) / 2 = (k + 1) / 2 := by omega
      have h2 : (k + 1) / 2 = k / 2 + 1 := by omega
      rw [(hsz.2 hodd).1, (hsz.2 hodd).2, hprev.1, hprev.2, h1, h2, Nat.div_div_eq_div_mul,
        Nat.pow_succ]
      exact ⟨rfl, rfl⟩

theorem spiral_region_size (o : Output) (view_count serial : Nat) (diminish : Bool) (i : Nat)
    (s : Rect) (hlast : i ≠ sub32 view_count 1) :
    (spiral_region view_count diminish i s).view_width =
        (spiral_iter o view_count serial diminish i s).2.view_width ∧
    (spiral_region view_count diminish i s).view_height =
        (spiral_iter o view_count serial diminish i s).2.view_height := by
  unfold spiral_region
  rw [if_neg hlast]
  by_cases heven : i % 2 = 0
  · rw [if_pos heven]
    by_cases hside : i % 4 = 2 ∧ diminish = false
    · rw [if_pos hside, spiral_iter_right o view_count serial diminish i s hlast hside.1 hside.2]
      exact ⟨rfl, rfl⟩
    · rw [if_neg hside, spiral_iter_left o view_count serial diminish i s hlast heven hside]
      exact ⟨rfl, rfl⟩
  · rw [if_neg heven]
    by_cases hside : i % 4 = 3 ∧ diminish = false
    · rw [if_pos hside, spiral_iter_bottom o view_count serial diminish i s hlast hside.1 hside.2]
      exact ⟨rfl, rfl⟩
    · rw [if_neg hside, spiral_iter_top o view_count serial diminish i s hlast (by omega) hside]
      exact ⟨rfl, rfl⟩

theorem range_map_getElem (f : Nat → Request) (n i : Nat) (h : i < n) :
    ((List.range n).map f)[i]? = some (f i) := by
  simp [h]

theorem spiral_step (o : Output) (view_count serial : Nat) (diminish : Bool) (i : Nat)
    (s : Rect) (W H : Nat) (hW : W < 4294967296) (hH : H < 4294967296)
    (hx : s.view_x + s.view_width ≤ W) (hy : s.view_y + s.view_height ≤ H)
    (hlast : i ≠ sub32 view_count 1) :
    (i % 2 = 0 →
      (spiral_iter o view_count serial diminish i s).2.view_width = s.view_width / 2 ∧
      (spiral_iter o view_count serial diminish i s).2.view_height = s.view_height) ∧
    (i % 2 = 1 →
      (spiral_iter o view_count serial diminish i s).2.view_height = s.view_height / 2 ∧
      (spiral_iter o view_count serial diminish i s).2.view_width = s.view_width) ∧
    (diminish = true →
      (spiral_iter o view_count serial diminish i s).1 =
        push_inset o (Rect.mk s.view_x s.view_y
          (spiral_iter o view_count serial diminish i s).2.view_width
          (spiral_iter o view_count serial diminish i s).2.view_height) serial ∧
      (i % 2 = 0 →
        (spiral_iter o view_count serial diminish i s).2.view_x =
          s.view_x + (spiral_iter o view_count serial diminish i s).2.view_width ∧
        (spiral_iter o view_count serial diminish i s).2.view_y = s.view_y) ∧
      (i % 2 = 1 →
        (spiral_iter o view_count serial diminish i s).2.view_x = s.view_x ∧
        (spiral_iter o view_count serial diminish i s).2.view_y =
          s.view_y + (spiral_iter o view_count serial diminish i s).2.view_height) ∧
      s.view_x ≤ (spiral_iter o view_count serial diminish i s).2.view_x ∧
      s.view_y ≤ (spiral_iter o view_count serial diminish i s).2.view_y) ∧
    (diminish = false →
      (i % 4 = 0 →
        (spiral_iter o view_count serial diminish i s).1 =
          push_inset o (Rect.mk s.view_x s.view_y
            (spiral_iter o view_count serial diminish i s).2.view_width
            (spiral_iter o view_count serial diminish i s).2.view_height) serial ∧
        (spiral_iter o view_count serial diminish i s).2.view_x =
          s.view_x + (spiral_iter o view_count serial diminish i s).2.view_width ∧
        (spiral_iter o view_count serial diminish i s).2.view_y = s.view_y) ∧
      (i % 4 = 1 →
        (spiral_iter o view_count serial diminish i s).1 =
          push_inset o (Rect.mk s.view_x s.view_y
            (spiral_iter o view_count serial diminish i s).2.view_width
            (spiral_iter o view_count serial diminish i s).2.view_height) serial ∧
        (spiral_iter o view_count serial diminish i s).2.view_x = s.view_x ∧
        (spiral_iter o view_count serial diminish i s).2.view_y =
          s.view_y + (spiral_iter o view_count serial diminish i s).2.view_height) ∧
      (i % 4 = 2 →
        (spiral_iter o view_count serial diminish i s).1 =
          push_inset o (Rect.mk
            (s.view_x + (spiral_iter o view_count serial diminish i s).2.view_width) s.view_y
            (spiral_iter o view_count serial diminish i s).2.view_width
            (spiral_iter o view_count serial diminish i s).2.view_height) serial ∧
        (spiral_iter o view_count serial diminish i s).2.view_x = s.view_x ∧
        (spiral_iter o view_count serial diminish i s).2.view_y = s.view_y) ∧
      (i % 4 = 3 →
        (spiral_iter o view_count serial diminish i s).1 =
          push_inset o (Rect.mk s.view_x
            (s.view_y + (spiral_iter o view_count serial diminish i s).2.view_height)
            (spiral_iter o view_count serial diminish i s).2.view_width
            (spiral_iter o view_count serial diminish i s).2.view_height) serial ∧
        (spiral_iter o view_count serial diminish i s).2.view_x = s.view_x ∧
        (spiral_iter o view_count serial diminish i s).2.view_y = s.view_y)) := by
  have hax : add32 s.view_x (s.view_width / 2) = s.view_x + s.view_width / 2 :=
    add32_of_lt (by omega)
  have hay : add32 s.view_y (s.view_height / 2) = s.view_y + s.view_height / 2 :=
    add32_of_lt (by omega)
  by_cases heven : i % 2 = 0
  · by_cases hside : i % 4 = 2 ∧ diminish = false
    · rw [spiral_iter_right o view_count serial diminish i s hlast hside.1 hside.2]
      have h4 := hside.1
      refine ⟨fun _ => ⟨rfl, rfl⟩, fun h => absurd h (by omega),
        fun hd => absurd (hside.2.symm.trans hd) (by decide),
        fun _ => ⟨fun h => absurd h (by omega), fun h => absurd h (by omega),
          fun _ => ⟨rfl, rfl, rfl⟩, fun h => absurd h (by omega)⟩⟩
    · rw [spiral_iter_left o view_count serial diminish i s hlast heven hside, hax]
      refine ⟨fun _ => ⟨rfl, rfl⟩, fun h => absurd h (by omega),
        fun _ => ⟨rfl, fun _ => ⟨rfl, rfl⟩, fun h => absurd h (by omega),
          Nat.le_add_right _ _, Nat.le_refl _⟩,
        fun hd => ⟨fun _ => ⟨rfl, rfl, rfl⟩, fun h => absurd h (by omega),
          fun h => absurd ⟨h, hd⟩ hside, fun h => absurd h (by omega)⟩⟩
  · have hodd : i % 2 = 1 := by omega
    by_cases hside : i % 4 = 3 ∧ diminish = false
    · rw [spiral_iter_bottom o view_count serial diminish i s hlast hside.1 hside.2]
      have h4 := hside.1
      refine ⟨fun h => absurd h heven, fun _ => ⟨rfl, rfl⟩,
        fun hd => absurd (hside.2.symm.trans hd) (by decide),
        fun _ => ⟨fun h => absurd h (by omega), fun h => absurd h (by omega),
          fun h => absurd h (by omega), fun _ => ⟨rfl, rfl, rfl⟩⟩⟩
    · rw [spiral_iter_top o view_count serial diminish i s hlast hodd hside, hay]
      refine ⟨fun h => absurd h heven, fun _ => ⟨rfl, rfl⟩,
        fun _ => ⟨rfl, fun h => absurd h heven, fun _ => ⟨rfl, rfl⟩,
          Nat.le_refl _, Nat.le_add_right _ _⟩,
        fun hd => ⟨fun h => absurd h (by omega), fun _ => ⟨rfl, rfl, rfl⟩,
          fun h => absurd h (by omega), fun h => absurd ⟨h, hd⟩ hside⟩⟩

/-! ## Spiral and Diminishing: the claims -/

/-- C6. Spiral and Diminishing, last view: for `view_count = n >= 1` and
both values of `diminish`, the handler pushes `n` rectangles and commits;
the last view (index `n - 1`) is pushed the whole rectangle `s` left over
after the `n - 1` preceding splits, of width `W / 2^ceil((n-1)/2)` (that is
`W / 2^(n/2)`) and height `H / 2^floor((n-1)/2)`; for `n = 1` it is the
whole usable area, and for `n >= 2` the view before the last is pushed a
rectangle of the same width and height. -/
theorem spiral_last_view (o : Output) (view_count width height tags serial : Nat)
    (diminish : Bool) (hn : 1 ≤ view_count) (h32 : view_count < 4294967296) :
    ∃ pushes s,
      delta_handle_layout_demand_spiral o view_count width height tags serial diminish =
        some (pushes ++ [Request.commit (spiral_name diminish) serial]) ∧
      pushes.length = view_count ∧
      s = spiral_vars o view_count serial diminish (usable o width) (usable o height)
        (view_count - 1) ∧
      s.view_width = usable o width / 2 ^ (view_count / 2) ∧
      s.view_height = usable o height / 2 ^ ((view_count - 1) / 2) ∧
      pushes[view_count - 1]? = some (push_inset o s serial) ∧
      (view_count = 1 → s = Rect.mk 0 0 (usable o width) (usable o height)) ∧
      (2 ≤ view_count → ∃ x y, pushes[view_count - 2]? =
        some (Request.push_view_dimensions x y
          (sub32 s.view_width (mul32 2 o.view_padding))
          (sub32 s.view_height (mul32 2 o.view_padding)) serial)) := by
  have hsub : sub32 view_count 1 = view_count - 1 := sub32_of_le h32 hn
  have hsize := spiral_vars_size o view_count serial diminish (usable o width) (usable o height)
    h32 (view_count - 1) (by omega)
  rw [Nat.sub_add_cancel hn] at hsize
  refine ⟨_, _, spiral_pushes o view_count width height tags serial diminish, by simp, rfl,
    hsize.1, hsize.2, ?_, ?_, ?_⟩
  · rw [range_map_getElem _ view_count (view_count - 1) (by omega),
      spiral_iter_last o view_count serial diminish (view_count - 1) _ hsub.symm]
  · intro h1
    rw [h1]
    rfl
  · intro h2
    have hlast : view_count - 2 ≠ sub32 view_count 1 := by
      rw [hsub]
      omega
    have hstep : view_count - 1 = (view_count - 2) + 1 := by omega
    have hreg := spiral_region_size o view_count serial diminish (view_count - 2)
      (spiral_vars o view_count serial diminish (usable o width) (usable o height)
        (view_count - 2)) hlast
    refine ⟨add32 (add32 (spiral_region view_count diminish (view_count - 2)
        (spiral_vars o view_count serial diminish (usable o width) (usable o height)
          (view_count - 2))).view_x o.view_padding) o.outer_padding,
      add32 (add32 (spiral_region view_count diminish (view_count - 2)
        (spiral_vars o view_count serial diminish (usable o width) (usable o height)
          (view_count - 2))).view_y o.view_padding) o.outer_padding, ?_⟩
    rw [range_map_getElem _ view_count (view_count - 2) (by omega), spiral_iter_push,
      hstep, spiral_vars, ← hreg.1, ← hreg.2]
    rfl

/-- C7. Spiral and Diminishing, side rule: at every non-last view `i`
(`i + 1 < view_count`), with `s` the remaining rectangle before the
iteration and `t` the remaining rectangle after it, an even `i` halves
the width and an odd `i` halves the height. With `diminish` the view is
pushed the left half (even `i`) or the top half (odd `i`) and the right or
bottom half is retained, so the origin of the remaining rectangle never
decreases. Without it the half pushed is the left one for `i % 4 = 0`
(right retained), the top one for `i % 4 = 1` (bottom retained), the right
one for `i % 4 = 2` (left retained) and the bottom one for `i % 4 = 3` (top
retained). -/
theorem spiral_side_rule (o : Output) (view_count width height tags serial i : Nat)
    (diminish : Bool) (h32 : view_count < 4294967296) (hi : i + 1 < view_count) :
    ∃ pushes p s t,
      delta_handle_layout_demand_spiral o view_count width height tags serial diminish =
        some (pushes ++ [Request.commit (spiral_name diminish) serial]) ∧
      pushes[i]? = some p ∧
      s = spiral_vars o view_count serial diminish (usable o width) (usable o height) i ∧
      t = spiral_vars o view_count serial diminish (usable o width) (usable o height) (i + 1) ∧
      (i % 2 = 0 → t.view_width = s.view_width / 2 ∧ t.view_height = s.view_height) ∧
      (i % 2 = 1 → t.view_height = s.view_height / 2 ∧ t.view_width = s.view_width) ∧
      (diminish = true →
        p = push_inset o (Rect.mk s.view_x s.view_y t.view_width t.view_height) serial ∧
        (i % 2 = 0 → t.view_x = s.view_x + t.view_width ∧ t.view_y = s.view_y) ∧
        (i % 2 = 1 → t.view_x = s.view_x ∧ t.view_y = s.view_y + t.view_height) ∧
        s.view_x ≤ t.view_x ∧ s.view_y ≤ t.view_y) ∧
      (diminish = false →
        (i % 4 = 0 →
          p = push_inset o (Rect.mk s.view_x s.view_y t.view_width t.view_height) serial ∧
          t.view_x = s.view_x + t.view_width ∧ t.view_y = s.view_y) ∧
        (i % 4 = 1 →
          p = push_inset o (Rect.mk s.view_x s.view_y t.view_width t.view_height) serial ∧
          t.view_x = s.view_x ∧ t.view_y = s.view_y + t.view_height) ∧
        (i % 4 = 2 →
          p = push_inset o
            (Rect.mk (s.view_x + t.view_width) s.view_y t.view_width t.view_height) serial ∧
          t.view_x = s.view_x ∧ t.view_y = s.view_y) ∧
        (i % 4 = 3 →
          p = push_inset o
            (Rect.mk s.view_x (s.view_y + t.view_height) t.view_width t.view_height) serial ∧
          t.view_x = s.view_x ∧ t.view_y = s.view_y)) := by
  have hlast : i ≠ sub32 view_count 1 := by
    rw [sub32_of_le h32 (by omega)]
    omega
  have hb := spiral_vars_bounds o view_count serial diminish (usable o width) (usable o height)
    (usable_lt o width) (usable_lt o height) i
  have hstep := spiral_step o view_count serial diminish i
    (spiral_vars o view_count serial diminish (usable o width) (usable o height) i)
    (usable o width) (usable o height) (usable_lt o width) (usable_lt o height) hb.1 hb.2 hlast
  refine ⟨_, _, _, _, spiral_pushes o view_count width height tags serial diminish,
    range_map_getElem _ view_count i (by omega), rfl, rfl, ?_⟩
  rw [spiral_vars]
  exact hstep

/-! ## Tile: witnesses -/

theorem tile_main_column_and_stack_witness :
    (1 ≤ (default_output LayoutStyle.TILE).main_count ∧
      (default_output LayoutStyle.TILE).main_count < 3 ∧ 3 < 4294967296 ∧
      (default_output LayoutStyle.TILE).main_ratio.toRat ≤ 1) ∧
    ∃ M, mul_ratio_to_uint (usable (default_output LayoutStyle.TILE) 1010)
        (default_output LayoutStyle.TILE).main_ratio = some M ∧
      M ≤ usable (default_output LayoutStyle.TILE) 1010 ∧
      (usable (default_output LayoutStyle.TILE) 1010 *
          (default_output LayoutStyle.TILE).main_ratio.mant < 2 ^ 53 →
        M = ⌊(usable (default_output LayoutStyle.TILE) 1010 : ℚ) *
          (default_output LayoutStyle.TILE).main_ratio.toRat⌋₊) ∧
      delta_handle_layout_demand_tile (default_output LayoutStyle.TILE) 3 1010 810 0 7 =
        some ((List.range 3).map (fun i =>
          push_inset (default_output LayoutStyle.TILE)
            (if i < (default_output LayoutStyle.TILE).main_count then
              Rect.mk 0 (i * (usable (default_output LayoutStyle.TILE) 810 /
                  (default_output LayoutStyle.TILE).main_count)) M
                (usable (default_output LayoutStyle.TILE) 810 /
                  (default_output LayoutStyle.TILE).main_count)
            else
              Rect.mk M ((i - (default_output LayoutStyle.TILE).main_count) *
                  (usable (default_output LayoutStyle.TILE) 810 /
                    (3 - (default_output LayoutStyle.TILE).main_count)))
                (usable (default_output LayoutStyle.TILE) 1010 - M)
                (usable (default_output LayoutStyle.TILE) 810 /
                  (3 - (default_output LayoutStyle.TILE).main_count)))
            7) ++ [Request.commit "[]=" 7]) :=
  have hmc : 1 ≤ (default_output LayoutStyle.TILE).main_count := by decide
  have hvc : (default_output LayoutStyle.TILE).main_count < 3 := by decide
  have h32 : 3 < 4294967296 := by decide
  have hr : (default_output LayoutStyle.TILE).main_ratio.toRat ≤ 1 :=
    (Double.le_one_iff _).2 (by decide)
  ⟨⟨hmc, hvc, h32, hr⟩,
    tile_main_column_and_stack (default_output LayoutStyle.TILE) 3 1010 810 0 7 hmc hvc h32 hr⟩

theorem tile_single_column_witness :
    (1 ≤ 1 ∧ 1 < 4294967296 ∧
      ((default_output LayoutStyle.TILE).main_count = 0 ∨
        1 ≤ (default_output LayoutStyle.TILE).main_count)) ∧
    delta_handle_layout_demand_tile (default_output LayoutStyle.TILE) 1 1010 810 0 7 =
      some ((List.range 1).map (fun i =>
        push_inset (default_output LayoutStyle.TILE)
          (Rect.mk 0 (i * (usable (default_output LayoutStyle.TILE) 810 / 1))
            (usable (default_output LayoutStyle.TILE) 1010)
            (usable (default_output LayoutStyle.TILE) 810 / 1))
          7) ++ [Request.commit "[]=" 7]) :=
  have hvc : 1 ≤ 1 := Nat.le_refl 1
  have h32 : 1 < 4294967296 := by decide
  have hdeg : (default_output LayoutStyle.TILE).main_count = 0 ∨
      1 ≤ (default_output LayoutStyle.TILE).main_count := Or.inr (by decide)
  ⟨⟨hvc, h32, hdeg⟩,
    tile_single_column (default_output LayoutStyle.TILE) 1 1010 810 0 7 hvc h32 hdeg⟩

/-! ## Column, Stack, Grid: the claims -/

/-- C8. Column: for `view_count = n >= 1`, with usable width `W` and usable
height `H`, view `i` is pushed the column at x-offset `i * (W / n)` of width
`W / n` (inset by `view_padding` on the left and right), at the top of the
usable area (`y = outer_padding`) and of the full height `H`; the columns
follow one another from left to right inside the usable width. -/
theorem column_equal_columns (o : Output) (view_count width height tags serial : Nat)
    (hn : 1 ≤ view_count) :
    delta_handle_layout_demand_column o view_count width height tags serial =
      some ((List.range view_count).map (fun i =>
        Request.push_view_dimensions
          (add32 (add32 (i * (usable o width / view_count)) o.view_padding) o.outer_padding)
          o.outer_padding
          (sub32 (usable o width / view_count) (mul32 2 o.view_padding))
          (usable o height)
          serial) ++ [Request.commit "|||" serial]) ∧
    ∀ i, i < view_count →
      i * (usable o width / view_count) + usable o width / view_count ≤ usable o width :=
  ⟨column_pushes o view_count width height tags serial hn,
    fun _ hi => succ_mul_div_le (usable o width) hi⟩

theorem column_equal_columns_witness :
    1 ≤ 3 ∧
    (delta_handle_layout_demand_column (default_output LayoutStyle.COLUMN) 3 1010 810 0 7 =
      some ((List.range 3).map (fun i =>
        Request.push_view_dimensions
          (add32 (add32 (i * (usable (default_output LayoutStyle.COLUMN) 1010 / 3))
            (default_output LayoutStyle.COLUMN).view_padding)
            (default_output LayoutStyle.COLUMN).outer_padding)
          (default_output LayoutStyle.COLUMN).outer_padding
          (sub32 (usable (default_output LayoutStyle.COLUMN) 1010 / 3)
            (mul32 2 (default_output LayoutStyle.COLUMN).view_padding))
          (usable (default_output LayoutStyle.COLUMN) 810)
          7) ++ [Request.commit "|||" 7]) ∧
    ∀ i, i < 3 →
      i * (usable (default_output LayoutStyle.COLUMN) 1010 / 3) +
        usable (default_output LayoutStyle.COLUMN) 1010 / 3 ≤
      usable (default_output LayoutStyle.COLUMN) 1010) :=
  ⟨by decide, column_equal_columns (default_output LayoutStyle.COLUMN) 3 1010 810 0 7 (by decide)⟩

/-- C9. Stack: for `view_count = n >= 1`, with usable width `W` and usable
height `H`, view `i` is pushed the row at y-offset `i * (H / n)` of height
`H / n` (inset by `view_padding` at the top and bottom), at the left of the
usable area (`x = outer_padding`) and of the full width `W`; the rows
follow one another from top to bottom inside the usable height. -/
theorem stack_equal_rows (o : Output) (view_count width height tags serial : Nat)
    (hn : 1 ≤ view_count) :
    delta_handle_layout_demand_stack o view_count width height tags serial =
      some ((List.range view_count).map (fun i =>
        Request.push_view_dimensions
          o.outer_padding
          (add32 (add32 (i * (usable o height / view_count)) o.view_padding) o.outer_padding)
          (usable o width)
          (sub32 (usable o height / view_count) (mul32 2 o.view_padding))
          serial) ++ [Request.commit "=" serial]) ∧
    ∀ i, i < view_count →
      i * (usable o height / view_count) + usable o height / view_count ≤ usable o height :=
  ⟨stack_pushes o view_count width height tags serial hn,
    fun _ hi => succ_mul_div_le (usable o height) hi⟩

theorem stack_equal_rows_witness :
    1 ≤ 3 ∧
    (delta_handle_layout_demand_stack (default_output LayoutStyle.STACK) 3 1010 810 0 7 =
      some ((List.range 3).map (fun i =>
        Request.push_view_dimensions
          (default_output LayoutStyle.STACK).outer_padding
          (add32 (add32 (i * (usable (default_output LayoutStyle.STACK) 810 / 3))
            (default_output LayoutStyle.STACK).view_padding)
            (default_output LayoutStyle.STACK).outer_padding)
          (usable (default_output LayoutStyle.STACK) 1010)
          (sub32 (usable (default_output LayoutStyle.STACK) 810 / 3)
            (mul32 2 (default_output LayoutStyle.STACK).view_padding))
          7) ++ [Request.commit "=" 7]) ∧
    ∀ i, i < 3 →
      i * (usable (default_output LayoutStyle.STACK) 810 / 3) +
        usable (default_output LayoutStyle.STACK) 810 / 3 ≤
      usable (default_output LayoutStyle.STACK) 810) :=
  ⟨by decide, stack_equal_rows (default_output LayoutStyle.STACK) 3 1010 810 0 7 (by decide)⟩

theorem grid_size_eq_ceil_sqrt (n : Nat) (h32 : n < 4294967296) :
    grid_size n = ⌈Real.sqrt (n : ℝ)⌉₊ := by
  apply le_antisymm
  · apply grid_size_least n _ h32
    have h1 : Real.sqrt (n : ℝ) ≤ (⌈Real.sqrt (n : ℝ)⌉₊ : ℝ) := Nat.le_ceil _
    have h2 : (n : ℝ) ≤ (⌈Real.sqrt (n : ℝ)⌉₊ : ℝ) ^ 2 :=
      (Real.sqrt_le_left (Nat.cast_nonneg _)).1 h1
    have h3 : (n : ℝ) ≤ ((⌈Real.sqrt (n : ℝ)⌉₊ * ⌈Real.sqrt (n : ℝ)⌉₊ : ℕ) : ℝ) := by
      push_cast
      rw [← sq]
      exact h2
    exact_mod_cast h3
  · apply Nat.ceil_le.2
    apply (Real.sqrt_le_left (Nat.cast_nonneg _)).2
    have h := grid_size_covers n h32
    have h3 : (n : ℝ) ≤ ((grid_size n * grid_size n : ℕ) : ℝ) := by exact_mod_cast h
    push_cast at h3
    rw [sq]
    exact h3

/-- C5. Grid sizing and placement: for `1 <= view_count < 2^32` the
`grid_size` computed by the grid handler is `ceil(sqrt(view_count))`, the
least `g` with `g * g >= view_count`; every view `i < view_count` has
`row = i / grid_size <= grid_size - 1` and `col = i % grid_size <=
grid_size - 1`, and the handler pushes exactly the cell `(row, col)` of the
equal-cell grid for each of the `view_count` views, in index order. -/
theorem grid_size_and_cells (o : Output) (view_count width height tags serial : Nat)
    (hn : 1 ≤ view_count) (h32 : view_count < 4294967296) :
    grid_size view_count = ⌈Real.sqrt (view_count : ℝ)⌉₊ ∧
    view_count ≤ grid_size view_count * grid_size view_count ∧
    (∀ k, view_count ≤ k * k → grid_size view_count ≤ k) ∧
    (∀ i, i < view_count →
      i / grid_size view_count ≤ grid_size view_count - 1 ∧
      i % grid_size view_count ≤ grid_size view_count - 1) ∧
    delta_handle_layout_demand_grid o view_count width height tags serial =
      some ((List.range view_count).map (fun i =>
        push_inset o
          (Rect.mk ((i % grid_size view_count) * (usable o width / grid_size view_count))
            ((i / grid_size view_count) * (usable o height / grid_size view_count))
            (usable o width / grid_size view_count)
            (usable o height / grid_size view_count))
          serial) ++ [Request.commit "#" serial]) := by
  have hg := grid_size_pos view_count hn h32
  have hcov := grid_size_covers view_count h32
  refine ⟨grid_size_eq_ceil_sqrt view_count h32, hcov,
    fun k hk => grid_size_least view_count k h32 hk, ?_,
    grid_pushes o view_count width height tags serial hn h32⟩
  intro i hi
  have hcol : i % grid_size view_count < grid_size view_count := Nat.mod_lt _ hg
  have hrow : i / grid_size view_count < grid_size view_count :=
    (Nat.div_lt_iff_lt_mul hg).2 (by omega)
  omega

theorem grid_size_and_cells_witness :
    (1 ≤ 5 ∧ 5 < 4294967296) ∧
    (grid_size 5 = ⌈Real.sqrt ((5 : ℕ) : ℝ)⌉₊ ∧
    5 ≤ grid_size 5 * grid_size 5 ∧
    (∀ k, 5 ≤ k * k → grid_size 5 ≤ k) ∧
    (∀ i, i < 5 →
      i / grid_size 5 ≤ grid_size 5 - 1 ∧
      i % grid_size 5 ≤ grid_size 5 - 1) ∧
    delta_handle_layout_demand_grid (default_output LayoutStyle.GRID) 5 1010 810 0 7 =
      some ((List.range 5).map (fun i =>
        push_inset (default_output LayoutStyle.GRID)
          (Rect.mk ((i % grid_size 5) * (usable (default_output LayoutStyle.GRID) 1010 / grid_size 5))
            ((i / grid_size 5) * (usable (default_output LayoutStyle.GRID) 810 / grid_size 5))
            (usable (default_output LayoutStyle.GRID) 1010 / grid_size 5)
            (usable (default_output LayoutStyle.GRID) 810 / grid_size 5))
          7) ++ [Request.commit "#" 7])) :=
  ⟨⟨by decide, by decide⟩,
    grid_size_and_cells (default_output LayoutStyle.GRID) 5 1010 810 0 7 (by decide) (by decide)⟩

/-! ## Spiral and Diminishing: witnesses -/

theorem spiral_last_view_witness :
    (1 ≤ 5 ∧ 5 < 4294967296) ∧
    ∃ pushes s,
      delta_handle_layout_demand_spiral (default_output LayoutStyle.SPIRAL) 5 1010 810 0 7 false =
        some (pushes ++ [Request.commit (spiral_name false) 7]) ∧
      pushes.length = 5 ∧
      s = spiral_vars (default_output LayoutStyle.SPIRAL) 5 7 false
        (usable (default_output LayoutStyle.SPIRAL) 1010)
        (usable (default_output LayoutStyle.SPIRAL) 810) (5 - 1) ∧
      s.view_width = usable (default_output LayoutStyle.SPIRAL) 1010 / 2 ^ (5 / 2) ∧
      s.view_height = usable (default_output LayoutStyle.SPIRAL) 810 / 2 ^ ((5 - 1) / 2) ∧
      pushes[5 - 1]? = some (push_inset (default_output LayoutStyle.SPIRAL) s 7) ∧
      (5 = 1 → s = Rect.mk 0 0 (usable (default_output LayoutStyle.SPIRAL) 1010)
        (usable (default_output LayoutStyle.SPIRAL) 810)) ∧
      (2 ≤ 5 → ∃ x y, pushes[5 - 2]? =
        some (Request.push_view_dimensions x y
          (sub32 s.view_width (mul32 2 (default_output LayoutStyle.SPIRAL).view_padding))
          (sub32 s.view_height (mul32 2 (default_output LayoutStyle.SPIRAL).view_padding)) 7)) :=
  ⟨⟨by decide, by decide⟩,
    spiral_last_view (default_output LayoutStyle.SPIRAL) 5 1010 810 0 7 false
      (by decide) (by decide)⟩

theorem spiral_side_rule_witness :
    (5 < 4294967296 ∧ 2 + 1 < 5) ∧
    ∃ pushes p s t,
      delta_handle_layout_demand_spiral (default_output LayoutStyle.SPIRAL) 5 1010 810 0 7 false =
        some (pushes ++ [Request.commit (spiral_name false) 7]) ∧
      pushes[2]? = some p ∧
      s = spiral_vars (default_output LayoutStyle.SPIRAL) 5 7 false
        (usable (default_output LayoutStyle.SPIRAL) 1010)
        (usable (default_output LayoutStyle.SPIRAL) 810) 2 ∧
      t = spiral_vars (default_output LayoutStyle.SPIRAL) 5 7 false
        (usable (default_output LayoutStyle.SPIRAL) 1010)
        (usable (default_output LayoutStyle.SPIRAL) 810) (2 + 1) ∧
      (2 % 2 = 0 → t.view_width = s.view_width / 2 ∧ t.view_height = s.view_height) ∧
      (2 % 2 = 1 → t.view_height = s.view_height / 2 ∧ t.view_width = s.view_width) ∧
      (false = true →
        p = push_inset (default_output LayoutStyle.SPIRAL)
          (Rect.mk s.view_x s.view_y t.view_width t.view_height) 7 ∧
        (2 % 2 = 0 → t.view_x = s.view_x + t.view_width ∧ t.view_y = s.view_y) ∧
        (2 % 2 = 1 → t.view_x = s.view_x ∧ t.view_y = s.view_y + t.view_height) ∧
        s.view_x ≤ t.view_x ∧ s.view_y ≤ t.view_y) ∧
      (false = false →
        (2 % 4 = 0 →
          p = push_inset (default_output LayoutStyle.SPIRAL)
            (Rect.mk s.view_x s.view_y t.view_width t.view_height) 7 ∧
          t.view_x = s.view_x + t.view_width ∧ t.view_y = s.view_y) ∧
        (2 % 4 = 1 →
          p = push_inset (default_output LayoutStyle.SPIRAL)
            (Rect.mk s.view_x s.view_y t.view_width t.view_height) 7 ∧
          t.view_x = s.view_x ∧ t.view_y = s.view_y + t.view_height) ∧
        (2 % 4 = 2 →
          p = push_inset (default_output LayoutStyle.SPIRAL)
            (Rect.mk (s.view_x + t.view_width) s.view_y t.view_width t.view_height) 7 ∧
          t.view_x = s.view_x ∧ t.view_y = s.view_y) ∧
        (2 % 4 = 3 →
          p = push_inset (default_output LayoutStyle.SPIRAL)
            (Rect.mk s.view_x (s.view_y + t.view_height) t.view_width t.view_height) 7 ∧
          t.view_x = s.view_x ∧ t.view_y = s.view_y)) :=
  ⟨⟨by decide, by decide⟩,
    spiral_side_rule (default_output LayoutStyle.SPIRAL) 5 1010 810 0 7 2 false
      (by decide) (by decide)⟩

/-! ## View padding -/

theorem tile_pushes (o : Output) (view_count width height tags serial : Nat)
    (h32 : view_count < 4294967296)
    (hr : o.main_ratio ≠ Double.nan ∧ o.main_ratio.mant ≤ 2 ^ o.main_ratio.exp) :
    ∃ M S, tile_sizes o view_count (usable o width) = some (M, S) ∧
      ∃ region : Nat → Rect,
        (∀ i, i < view_count →
          tile_region o view_count (usable o height) M S i = some (region i)) ∧
        delta_handle_layout_demand_tile o view_count width height tags serial =
          some ((List.range view_count).map (fun i => push_inset o (region i) serial)
            ++ [Request.commit "[]=" serial]) := by
  have hsizes : ∃ M S, tile_sizes o view_count (usable o width) = some (M, S) := by
    unfold tile_sizes
    by_cases h0 : o.main_count = 0
    · rw [if_pos h0]
      exact ⟨_, _, rfl⟩
    · rw [if_neg h0]
      by_cases hle : view_count ≤ o.main_count
      · rw [if_pos hle]
        exact ⟨_, _, rfl⟩
      · obtain ⟨M, hM, _⟩ :=
          mul_ratio_to_uint_le (usable o width) o.main_ratio (usable_lt o width) hr
        rw [if_neg hle, hM]
        exact ⟨_, _, rfl⟩
  obtain ⟨M, S, hMS⟩ := hsizes
  have hreg : ∀ i, i < view_count →
      tile_region o view_count (usable o height) M S i =
        some ((tile_region o view_count (usable o height) M S i).getD (Rect.mk 0 0 0 0)) := by
    intro i hi
    unfold tile_region
    by_cases him : i < o.main_count
    · have hmin : 0 < MIN o.main_count view_count := by
        unfold MIN
        split <;> omega
      rw [if_pos him, div32_of_pos hmin]
      rfl
    · have hsub : sub32 view_count o.main_count = view_count - o.main_count :=
        sub32_of_le h32 (by omega)
      rw [if_neg him, hsub, div32_of_pos (by omega)]
      rfl
  refine ⟨M, S, hMS, _, hreg, ?_⟩
  unfold delta_handle_layout_demand_tile
  simp only [hMS]
  rw [tile_loop_some o view_count (usable o height) M S serial _ _
    (fun i hi => hreg i (List.mem_range.1 hi))]
  rfl

theorem push_inset_eq (o : Output) (r : Rect) (serial : Nat) :
    push_inset o r serial =
      Request.push_view_dimensions
        ((o.outer_padding + r.view_x + o.view_padding) % 4294967296)
        ((o.outer_padding + r.view_y + o.view_padding) % 4294967296)
        (sub32 r.view_width (mul32 2 o.view_padding))
        (sub32 r.view_height (mul32 2 o.view_padding))
        serial := by
  have hx : add32 (add32 r.view_x o.view_padding) o.outer_padding =
      (o.outer_padding + r.view_x + o.view_padding) % 4294967296 := by
    unfold add32
    omega
  have hy : add32 (add32 r.view_y o.view_padding) o.outer_padding =
      (o.outer_padding + r.view_y + o.view_padding) % 4294967296 := by
    unfold add32
    omega
  unfold push_inset
  rw [hx, hy]

theorem spiral_region_pushes (o : Output) (view_count width height tags serial : Nat)
    (diminish : Bool) :
    delta_handle_layout_demand_spiral o view_count width height tags serial diminish =
      some ((List.range view_count).map (fun i =>
        push_inset o
          (spiral_region view_count diminish i
            (spiral_vars o view_count serial diminish (usable o width) (usable o height) i))
          serial) ++ [Request.commit (spiral_name diminish) serial]) := by
  rw [spiral_pushes]
  congr 2
  apply List.map_congr_left
  intro i _
  exact spiral_iter_push o view_count serial diminish i _

/-- C10, as stated, fails: with `view_padding = 5` and `outer_padding = 5`
the column handler pushes the single view of a 1010 x 810 demand the
rectangle `(10, 5, 990, 800)`, which is not its region `(0, 0, 1000, 800)`
inset by `view_padding` on all four sides. -/
theorem column_push_not_inset :
    delta_handle_layout_demand_column (default_output LayoutStyle.COLUMN) 1 1010 810 0 7 =
      some [Request.push_view_dimensions 10 5 990 800 7, Request.commit "|||" 7] ∧
    Request.push_view_dimensions 10 5 990 800 7 ≠
      push_inset (default_output LayoutStyle.COLUMN) (Rect.mk 0 0 1000 800) 7 := by
  decide

/-- C10, amended. In 32-bit unsigned arithmetic, the tile, spiral,
diminishing and grid handlers push every view its region `(rx, ry, rw, rh)`
inset by `view_padding` on all four sides, that is `(outer_padding + rx +
view_padding, outer_padding + ry + view_padding, rw - 2 * view_padding,
rh - 2 * view_padding)`; the column handler insets the region on the left
and right only (`y = outer_padding`, height the usable height), and the
stack handler at the top and bottom only (`x = outer_padding`, width the
usable width). -/
theorem view_padding_inset (o : Output) (view_count width height tags serial : Nat)
    (hn : 1 ≤ view_count) (h32 : view_count < 4294967296) (hr : o.main_ratio.toRat ≤ 1) :
    (∀ r : Rect, push_inset o r serial =
      Request.push_view_dimensions
        ((o.outer_padding + r.view_x + o.view_padding) % 4294967296)
        ((o.outer_padding + r.view_y + o.view_padding) % 4294967296)
        (sub32 r.view_width (mul32 2 o.view_padding))
        (sub32 r.view_height (mul32 2 o.view_padding))
        serial) ∧
    (∃ M S, tile_sizes o view_count (usable o width) = some (M, S) ∧
      ∃ region : Nat → Rect,
        (∀ i, i < view_count →
          tile_region o view_count (usable o height) M S i = some (region i)) ∧
        delta_handle_layout_demand_tile o view_count width height tags serial =
          some ((List.range view_count).map (fun i => push_inset o (region i) serial)
            ++ [Request.commit "[]=" serial])) ∧
    (∀ diminish : Bool,
      delta_handle_layout_demand_spiral o view_count width height tags serial diminish =
        some ((List.range view_count).map (fun i =>
          push_inset o
            (spiral_region view_count diminish i
              (spiral_vars o view_count serial diminish (usable o width) (usable o height) i))
            serial) ++ [Request.commit (spiral_name diminish) serial])) ∧
    delta_handle_layout_demand_grid o view_count width height tags serial =
      some ((List.range view_count).map (fun i =>
        push_inset o
          (Rect.mk ((i % grid_size view_count) * (usable o width / grid_size view_count))
            ((i / grid_size view_count) * (usable o height / grid_size view_count))
            (usable o width / grid_size view_count)
            (usable o height / grid_size view_count))
          serial) ++ [Request.commit "#" serial]) ∧
    delta_handle_layout_demand_column o view_count width height tags serial =
      some ((List.range view_count).map (fun i =>
        Request.push_view_dimensions
          (add32 (add32 (i * (usable o width / view_count)) o.view_padding) o.outer_padding)
          o.outer_padding
          (sub32 (usable o width / view_count) (mul32 2 o.view_padding))
          (usable o height)
          serial) ++ [Request.commit "|||" serial]) ∧
    delta_handle_layout_demand_stack o view_count width height tags serial =
      some ((List.range view_count).map (fun i =>
        Request.push_view_dimensions
          o.outer_padding
          (add32 (add32 (i * (usable o height / view_count)) o.view_padding) o.outer_padding)
          (usable o width)
          (sub32 (usable o height / view_count) (mul32 2 o.view_padding))
          serial) ++ [Request.commit "=" serial]) :=
  ⟨fun r => push_inset_eq o r serial,
    tile_pushes o view_count width height tags serial h32 ((Double.le_one_iff _).1 hr),
    fun diminish => spiral_region_pushes o view_count width height tags serial diminish,
    grid_pushes o view_count width height tags serial hn h32,
    column_pushes o view_count width height tags serial hn,
    stack_pushes o view_count width height tags serial hn⟩

theorem view_padding_inset_witness :
    (1 ≤ 3 ∧ 3 < 4294967296 ∧ (default_output LayoutStyle.TILE).main_ratio.toRat ≤ 1) ∧
    ((∀ r : Rect, push_inset (default_output LayoutStyle.TILE) r 7 =
      Request.push_view_dimensions
        (((default_output LayoutStyle.TILE).outer_padding + r.view_x +
          (default_output LayoutStyle.TILE).view_padding) % 4294967296)
        (((default_output LayoutStyle.TILE).outer_padding + r.view_y +
          (default_output LayoutStyle.TILE).view_padding) % 4294967296)
        (sub32 r.view_width (mul32 2 (default_output LayoutStyle.TILE).view_padding))
        (sub32 r.view_height (mul32 2 (default_output LayoutStyle.TILE).view_padding))
        7) ∧
    (∃ M S, tile_sizes (default_output LayoutStyle.TILE) 3
        (usable (default_output LayoutStyle.TILE) 1010) = some (M, S) ∧
      ∃ region : Nat → Rect,
        (∀ i, i < 3 →
          tile_region (default_output LayoutStyle.TILE) 3
            (usable (default_output LayoutStyle.TILE) 810) M S i = some (region i)) ∧
        delta_handle_layout_demand_tile (default_output LayoutStyle.TILE) 3 1010 810 0 7 =
          some ((List.range 3).map (fun i =>
            push_inset (default_output LayoutStyle.TILE) (region i) 7)
            ++ [Request.commit "[]=" 7])) ∧
    (∀ diminish : Bool,
      delta_handle_layout_demand_spiral (default_output LayoutStyle.TILE) 3 1010 810 0 7 diminish =
        some ((List.range 3).map (fun i =>
          push_inset (default_output LayoutStyle.TILE)
            (spiral_region 3 diminish i
              (spiral_vars (default_output LayoutStyle.TILE) 3 7 diminish
                (usable (default_output LayoutStyle.TILE) 1010)
                (usable (default_output LayoutStyle.TILE) 810) i))
            7) ++ [Request.commit (spiral_name diminish) 7])) ∧
    delta_handle_layout_demand_grid (default_output LayoutStyle.TILE) 3 1010 810 0 7 =
      some ((List.range 3).map (fun i =>
        push_inset (default_output LayoutStyle.TILE)
          (Rect.mk ((i % grid_size 3) * (usable (default_output LayoutStyle.TILE) 1010 / grid_size 3))
            ((i / grid_size 3) * (usable (default_output LayoutStyle.TILE) 810 / grid_size 3))
            (usable (default_output LayoutStyle.TILE) 1010 / grid_size 3)
            (usable (default_output LayoutStyle.TILE) 810 / grid_size 3))
          7) ++ [Request.commit "#" 7]) ∧
    delta_handle_layout_demand_column (default_output LayoutStyle.TILE) 3 1010 810 0 7 =
      some ((List.range 3).map (fun i =>
        Request.push_view_dimensions
          (add32 (add32 (i * (usable (default_output LayoutStyle.TILE) 1010 / 3))
            (default_output LayoutStyle.TILE).view_padding)
            (default_output LayoutStyle.TILE).outer_padding)
          (default_output LayoutStyle.TILE).outer_padding
          (sub32 (usable (default_output LayoutStyle.TILE) 1010 / 3)
            (mul32 2 (default_output LayoutStyle.TILE).view_padding))
          (usable (default_output LayoutStyle.TILE) 810)
          7) ++ [Request.commit "|||" 7]) ∧
    delta_handle_layout_demand_stack (default_output LayoutStyle.TILE) 3 1010 810 0 7 =
      some ((List.range 3).map (fun i =>
        Request.push_view_dimensions
          (default_output LayoutStyle.TILE).outer_padding
          (add32 (add32 (i * (usable (default_output LayoutStyle.TILE) 810 / 3))
            (default_output LayoutStyle.TILE).view_padding)
            (default_output LayoutStyle.TILE).outer_padding)
          (usable (default_output LayoutStyle.TILE) 1010)
          (sub32 (usable (default_output LayoutStyle.TILE) 810 / 3)
            (mul32 2 (default_output LayoutStyle.TILE).view_padding))
          7) ++ [Request.commit "=" 7])) :=
  have hn : 1 ≤ 3 := by decide
  have h32 : 3 < 4294967296 := by decide
  have hr : (default_output LayoutStyle.TILE).main_ratio.toRat ≤ 1 :=
    (Double.le_one_iff _).2 (by decide)
  ⟨⟨hn, h32, hr⟩,
    view_padding_inset (default_output LayoutStyle.TILE) 3 1010 810 0 7 hn h32 hr⟩

/-! ## The whole response -/

theorem layout_demand_shape (o : Output) (view_count width height tags serial : Nat)
    (hn : 1 ≤ view_count) (h32 : view_count < 4294967296) (hr : o.main_ratio.toRat ≤ 1) :
    ∃ pushes,
      delta_handle_layout_demand o view_count width height tags serial =
        some (pushes ++ [Request.commit (layout_name o.layout_style) serial]) ∧
      pushes.length = view_count ∧
      ∀ p ∈ pushes, ∃ x y w h, p = Request.push_view_dimensions x y w h serial := by
  have hmem : ∀ (f : Nat → Rect) (p : Request),
      p ∈ (List.range view_count).map (fun i => push_inset o (f i) serial) →
      ∃ x y w h, p = Request.push_view_dimensions x y w h serial := by
    intro f p hp
    obtain ⟨i, _, hi⟩ := List.mem_map.1 hp
    exact ⟨_, _, _, _, hi.symm⟩
  cases hs : o.layout_style with
  | TILE =>
    obtain ⟨M, S, _, region, _, hres⟩ :=
      tile_pushes o view_count width height tags serial h32 ((Double.le_one_iff _).1 hr)
    rw [dispatch_tile o view_count width height tags serial hs]
    exact ⟨_, hres, by simp, hmem region⟩
  | SPIRAL =>
    rw [dispatch_spiral o view_count width height tags serial hs]
    exact ⟨_, spiral_region_pushes o view_count width height tags serial false, by simp,
      hmem _⟩
  | DIMINISHING =>
    rw [dispatch_diminishing o view_count width height tags serial hs]
    exact ⟨_, spiral_region_pushes o view_count width height tags serial true, by simp,
      hmem _⟩
  | COLUMN =>
    rw [dispatch_column o view_count width height tags serial hs]
    refine ⟨_, column_pushes o view_count width height tags serial hn, by simp, ?_⟩
    intro p hp
    obtain ⟨i, _, hi⟩ := List.mem_map.1 hp
    exact ⟨_, _, _, _, hi.symm⟩
  | STACK =>
    rw [dispatch_stack o view_count width height tags serial hs]
    refine ⟨_, stack_pushes o view_count width height tags serial hn, by simp, ?_⟩
    intro p hp
    obtain ⟨i, _, hi⟩ := List.mem_map.1 hp
    exact ⟨_, _, _, _, hi.symm⟩
  | GRID =>
    rw [dispatch_grid o view_count width height tags serial hs]
    exact ⟨_, grid_pushes o view_count width height tags serial hn h32, by simp, hmem _⟩

/-- C1 fails on the code for the Diminishing style. The handler does push
one rectangle per view and one commit with the serial of the demand
(`layout_demand_shape`), but the layout name it commits for Diminishing is
the string literal of line 234, `"â†˜"` (three characters, bytes
`C3 A2 E2 80 A0 CB 9C`), not `"↘"`: here on a demand with one view and
serial 7. -/
theorem diminishing_commit_name :
    delta_handle_layout_demand (default_output LayoutStyle.DIMINISHING) 1 1010 810 0 7 =
      some [Request.push_view_dimensions 10 10 990 790 7, Request.commit "â†˜" 7] ∧
    "â†˜" ≠ "↘" := by
  decide

/-! ## Zero views and the usable area -/

theorem grid_size_zero : grid_size 0 = 0 := by
  decide

theorem grid_size_one : grid_size 1 = 1 := by
  decide

theorem range_one : List.range 1 = [0] := by
  decide

/-- C11 fails on the code for Column, Stack and Grid. With `view_count = 0`
the tile and spiral handlers push nothing and commit, but the column and
stack handlers divide the usable width / height by `view_count = 0` and the
grid handler divides by `grid_size = 0` before their loops: they have no
defined result, for every width, height and output parameters. -/
theorem zero_views (o : Output) (width height tags serial : Nat) :
    delta_handle_layout_demand_tile o 0 width height tags serial =
      some [Request.commit "[]=" serial] ∧
    (∀ diminish : Bool,
      delta_handle_layout_demand_spiral o 0 width height tags serial diminish =
        some [Request.commit (spiral_name diminish) serial]) ∧
    div32 (usable o width) 0 = none ∧
    delta_handle_layout_demand_column o 0 width height tags serial = none ∧
    div32 (usable o height) 0 = none ∧
    delta_handle_layout_demand_stack o 0 width height tags serial = none ∧
    div32 (usable o height) (grid_size 0) = none ∧
    delta_handle_layout_demand_grid o 0 width height tags serial = none := by
  refine ⟨?_, ?_, rfl, rfl, rfl, rfl, ?_, ?_⟩
  · have h := tile_degenerate o 0 width height tags serial (by decide)
      (by
        by_cases h0 : o.main_count = 0
        · exact Or.inl h0
        · exact Or.inr (Nat.zero_le _))
    rw [h]
    rfl
  · intro diminish
    rw [spiral_pushes]
    rfl
  · rw [grid_size_zero]
    rfl
  · unfold delta_handle_layout_demand_grid
    simp only [grid_size_zero]
    rfl

theorem single_view_tile (o : Output) (width height tags serial : Nat) :
    delta_handle_layout_demand_tile o 1 width height tags serial =
      some [push_inset o (Rect.mk 0 0 (usable o width) (usable o height)) serial,
        Request.commit "[]=" serial] := by
  have h := tile_degenerate o 1 width height tags serial (by decide)
    (by
      by_cases h0 : o.main_count = 0
      · exact Or.inl h0
      · exact Or.inr (by omega))
  rw [h]
  simp [range_one]

theorem single_view_spiral (o : Output) (width height tags serial : Nat) (diminish : Bool) :
    delta_handle_layout_demand_spiral o 1 width height tags serial diminish =
      some [push_inset o (Rect.mk 0 0 (usable o width) (usable o height)) serial,
        Request.commit (spiral_name diminish) serial] := by
  have hlast : (0 : Nat) = sub32 1 1 := by decide
  rw [spiral_region_pushes]
  simp [range_one, spiral_region, spiral_vars, if_pos hlast]

theorem single_view_grid (o : Output) (width height tags serial : Nat) :
    delta_handle_layout_demand_grid o 1 width height tags serial =
      some [push_inset o (Rect.mk 0 0 (usable o width) (usable o height)) serial,
        Request.commit "#" serial] := by
  rw [grid_pushes o 1 width height tags serial (by decide) (by decide)]
  simp [range_one, grid_size_one]

theorem single_view_column (o : Output) (width height tags serial : Nat) :
    delta_handle_layout_demand_column o 1 width height tags serial =
      some [Request.push_view_dimensions
          (add32 (add32 0 o.view_padding) o.outer_padding)
          o.outer_padding
          (sub32 (usable o width) (mul32 2 o.view_padding))
          (usable o height)
          serial,
        Request.commit "|||" serial] := by
  rw [column_pushes o 1 width height tags serial (by decide)]
  simp [range_one]

theorem single_view_stack (o : Output) (width height tags serial : Nat) :
    delta_handle_layout_demand_stack o 1 width height tags serial =
      some [Request.push_view_dimensions
          o.outer_padding
          (add32 (add32 0 o.view_padding) o.outer_padding)
          (usable o width)
          (sub32 (usable o height) (mul32 2 o.view_padding))
          serial,
        Request.commit "=" serial] := by
  rw [stack_pushes o 1 width height tags serial (by decide)]
  simp [range_one]

theorem usable_of_le (o : Output) (size : Nat) (hs : size < 4294967296)
    (h : 2 * o.outer_padding ≤ size) : usable o size = size - 2 * o.outer_padding := by
  unfold usable sub32 mul32
  omega

theorem usable_of_lt (o : Output) (size : Nat) (hop : 2 * o.outer_padding < 4294967296)
    (h : size < 2 * o.outer_padding) :
    usable o size = size + 4294967296 - 2 * o.outer_padding := by
  unfold usable sub32 mul32
  omega

/-- C12, as stated, fails: with `outer_padding = 5` a demand of width 4 has
the usable width `4 - 10` wrapped around to `4294967290`, and the stack
handler pushes its single view that width. -/
theorem usable_width_wraps :
    usable (default_output LayoutStyle.STACK) 4 = 4294967290 ∧
    delta_handle_layout_demand_stack (default_output LayoutStyle.STACK) 1 4 810 0 7 =
      some [Request.push_view_dimensions 5 10 4294967290 790 7, Request.commit "=" 7] := by
  decide

/-- C12, amended. In every one of the six algorithms the usable width
(respectively height) used for subdivision is the 32-bit unsigned
difference `width - 2 * outer_padding`: it is `width - 2 * outer_padding`
when `2 * outer_padding <= width`, and it wraps around to
`width + 2^32 - 2 * outer_padding` when `2 * outer_padding` exceeds the
demanded width; a single view is given exactly that usable area by each
of the six handlers. -/
theorem usable_area_is_wrapped_difference (o : Output) (width height tags serial : Nat)
    (hw : width < 4294967296) (hh : height < 4294967296)
    (hop : 2 * o.outer_padding < 4294967296) :
    (2 * o.outer_padding ≤ width → usable o width = width - 2 * o.outer_padding) ∧
    (width < 2 * o.outer_padding →
      usable o width = width + 4294967296 - 2 * o.outer_padding) ∧
    (2 * o.outer_padding ≤ height → usable o height = height - 2 * o.outer_padding) ∧
    (height < 2 * o.outer_padding →
      usable o height = height + 4294967296 - 2 * o.outer_padding) ∧
    delta_handle_layout_demand_tile o 1 width height tags serial =
      some [push_inset o (Rect.mk 0 0 (usable o width) (usable o height)) serial,
        Request.commit "[]=" serial] ∧
    (∀ diminish : Bool,
      delta_handle_layout_demand_spiral o 1 width height tags serial diminish =
        some [push_inset o (Rect.mk 0 0 (usable o width) (usable o height)) serial,
          Request.commit (spiral_name diminish) serial]) ∧
    delta_handle_layout_demand_grid o 1 width height tags serial =
      some [push_inset o (Rect.mk 0 0 (usable o width) (usable o height)) serial,
        Request.commit "#" serial] ∧
    delta_handle_layout_demand_column o 1 width height tags serial =
      some [Request.push_view_dimensions
          (add32 (add32 0 o.view_padding) o.outer_padding)
          o.outer_padding
          (sub32 (usable o width) (mul32 2 o.view_padding))
          (usable o height)
          serial,
        Request.commit "|||" serial] ∧
    delta_handle_layout_demand_stack o 1 width height tags serial =
      some [Request.push_view_dimensions
          o.outer_padding
          (add32 (add32 0 o.view_padding) o.outer_padding)
          (usable o width)
          (sub32 (usable o height) (mul32 2 o.view_padding))
          serial,
        Request.commit "=" serial] :=
  ⟨usable_of_le o width hw, usable_of_lt o width hop, usable_of_le o height hh,
    usable_of_lt o height hop, single_view_tile o width height tags serial,
    fun diminish => single_view_spiral o width height tags serial diminish,
    single_view_grid o width height tags serial,
    single_view_column o width height tags serial,
    single_view_stack o width height tags serial⟩

/-! ## Commands: scanning lemmas -/

theorem dropWhile_space_append (pre x : List Char) (hpre : pre.all isspace = true) :
    (pre ++ x).dropWhile isspace = x.dropWhile isspace := by
  induction pre with
  | nil => rfl
  | cons c cs ih =>
    simp only [List.all_cons, Bool.and_eq_true] at hpre
    simp [List.dropWhile, hpre.1, ih hpre.2]

theorem dropWhile_space_all (s : List Char) (hs : s.all isspace = true) :
    s.dropWhile isspace = [] := by
  have h := dropWhile_space_append s [] hs
  simpa using h

theorem dropWhile_space_head (c : Char) (x : List Char) (hc : isspace c = false) :
    (c :: x).dropWhile isspace = c :: x := by
  simp [List.dropWhile, hc]

theorem dropWhile_nonspace_append (w x : List Char)
    (hw : w.all (fun c => !isspace c) = true) :
    (w ++ x).dropWhile (fun c => !isspace c) = x.dropWhile (fun c => !isspace c) := by
  induction w with
  | nil => rfl
  | cons c cs ih =>
    simp only [List.all_cons, Bool.and_eq_true] at hw
    simp [List.dropWhile, hw.1, ih hw.2]

theorem dropWhile_nonspace_head (c : Char) (x : List Char) (hc : isspace c = true) :
    (c :: x).dropWhile (fun c => !isspace c) = c :: x := by
  simp [List.dropWhile, hc]

theorem dropWhile_nonspace_space (s : List Char) (hs : s.all isspace = true) :
    s.dropWhile (fun c => !isspace c) = s := by
  cases s with
  | nil => rfl
  | cons c cs =>
    simp only [List.all_cons, Bool.and_eq_true] at hs
    exact dropWhile_nonspace_head c cs hs.1

theorem dropWhile_space_head_false (x : List Char) :
    ∀ c t, x.dropWhile isspace = c :: t → isspace c = false := by
  induction x with
  | nil => intro c t h; simp at h
  | cons d ds ih =>
    intro c t h
    by_cases hd : isspace d = true
    · rw [List.dropWhile_cons_of_pos hd] at h
      exact ih c t h
    · have hd2 : isspace d = false := by simpa using hd
      rw [dropWhile_space_head d ds hd2] at h
      cases h
      exact hd2

theorem dropWhile_nonspace_head_true (x : List Char) :
    ∀ c t, x.dropWhile (fun c => !isspace c) = c :: t → isspace c = true := by
  induction x with
  | nil => intro c t h; simp at h
  | cons d ds ih =>
    intro c t h
    by_cases hd : isspace d = true
    · rw [dropWhile_nonspace_head d ds hd] at h
      cases h
      exact hd
    · have hd2 : isspace d = false := by simpa using hd
      rw [List.dropWhile_cons_of_pos (by simp [hd2])] at h
      exact ih c t h

theorem skip_whitespace_eq (x : List Char) :
    skip_whitespace x =
      (x.isEmpty || !(x.dropWhile isspace).isEmpty, x.dropWhile isspace) := by
  induction x with
  | nil => rfl
  | cons c cs ih =>
    by_cases hc : isspace c = true
    · cases cs with
      | nil => simp [skip_whitespace, hc, List.dropWhile]
      | cons d ds =>
        have h1 : skip_whitespace (c :: d :: ds) = skip_whitespace (d :: ds) := by
          simp [skip_whitespace, hc]
        rw [h1, ih, List.dropWhile_cons_of_pos hc]
        rfl
    · have hc2 : isspace c = false := by simpa using hc
      cases cs with
      | nil => simp [skip_whitespace, hc2, List.dropWhile]
      | cons d ds => simp [skip_whitespace, hc2, List.dropWhile]

theorem skip_nonwhitespace_eq (x : List Char) (hx : x ≠ []) :
    skip_nonwhitespace x =
      some (!(x.dropWhile (fun c => !isspace c)).isEmpty,
        x.dropWhile (fun c => !isspace c)) := by
  induction x with
  | nil => exact absurd rfl hx
  | cons c cs ih =>
    by_cases hc : isspace c = true
    · cases cs with
      | nil => simp [skip_nonwhitespace, hc, List.dropWhile]
      | cons d ds => simp [skip_nonwhitespace, hc, List.dropWhile]
    · have hc2 : isspace c = false := by simpa using hc
      cases cs with
      | nil => simp [skip_nonwhitespace, hc2, List.dropWhile]
      | cons d ds =>
        have h1 : skip_nonwhitespace (c :: d :: ds) = skip_nonwhitespace (d :: ds) := by
          simp [skip_nonwhitespace, hc2]
        have h2 : List.dropWhile (fun c => !isspace c) (c :: d :: ds) =
            List.dropWhile (fun c => !isspace c) (d :: ds) := by
          simp [List.dropWhile, hc2]
        rw [h1, ih (by simp), h2]

theorem after_word_eq (x : List Char) :
    after_word x = (x.dropWhile (fun c => !isspace c)).dropWhile isspace := rfl

theorem extra_token (x : List Char) :
    (!(x.dropWhile (fun c => !isspace c)).isEmpty &&
      (skip_whitespace (x.dropWhile (fun c => !isspace c))).1) = !(after_word x).isEmpty := by
  rw [skip_whitespace_eq, after_word_eq]
  cases h : x.dropWhile (fun c => !isspace c) with
  | nil => rfl
  | cons c t => simp

theorem get_second_word_eq (x : List Char) (hx : x ≠ []) :
    get_second_word x =
      some (if after_word x = [] then none
        else if after_word (after_word x) = [] then some (after_word x) else none) := by
  unfold get_second_word
  rw [skip_nonwhitespace_eq x hx]
  cases hr : x.dropWhile (fun c => !isspace c) with
  | nil => simp [after_word_eq, hr]
  | cons rc rt =>
    simp only [List.isEmpty_cons, Bool.not_false]
    rw [skip_whitespace_eq]
    have hw : after_word x = List.dropWhile isspace (rc :: rt) := by
      rw [after_word_eq, hr]
    cases hw2 : List.dropWhile isspace (rc :: rt) with
    | nil => simp [hw, hw2]
    | cons wc wt =>
      simp only [List.isEmpty_cons, Bool.not_false, Bool.or_true]
      rw [skip_nonwhitespace_eq (wc :: wt) (by simp)]
      cases hv : List.dropWhile (fun c => !isspace c) (wc :: wt) with
      | nil => simp [hw, hw2, after_word_eq, hv]
      | cons vc vt =>
        simp only [List.isEmpty_cons, Bool.not_false]
        rw [skip_whitespace_eq]
        have ht : after_word (wc :: wt) = List.dropWhile isspace (vc :: vt) := by
          rw [after_word_eq, hv]
        cases ht2 : List.dropWhile isspace (vc :: vt) with
        | nil => simp [hw, hw2, ht, ht2]
        | cons tc tt => simp [hw, hw2, ht, ht2]

theorem word_comp_cons (c k : Char) (y K : List Char) :
    word_comp (c :: y) (k :: K) = ((k == c) && word_comp y K) := by
  simp [word_comp, List.isPrefixOf, Bool.and_assoc]

theorem word_comp_nil_cons (k : Char) (K : List Char) : word_comp [] (k :: K) = false := by
  simp [word_comp, List.isPrefixOf]

theorem word_comp_nil_right (y : List Char) : word_comp y [] = word_end y := by
  cases y <;> simp [word_comp, word_end]

theorem isDigit_of_isspace (c : Char) (h : isspace c = true) : c.isDigit = false := by
  simp only [isspace, Bool.or_eq_true, decide_eq_true_eq] at h
  rcases h with ((((h | h) | h) | h) | h) | h <;> subst h <;> decide

theorem ne_of_isspace (c k : Char) (hc : isspace c = true) (hk : isspace k = false) :
    (k == c) = false := by
  by_cases h : k = c
  · subst h
    rw [hc] at hk
    cases hk
  · simpa using h

theorem word_end_cases (rest : List Char) (h : word_end rest = true) :
    rest = [] ∨ ∃ c t, rest = c :: t ∧ isspace c = true := by
  cases rest with
  | nil => exact Or.inl rfl
  | cons c t => exact Or.inr ⟨c, t, rfl, h⟩

theorem word_end_of_all_space (s : List Char) (hs : s.all isspace = true) :
    word_end s = true := by
  cases s with
  | nil => rfl
  | cons c t =>
    simp only [List.all_cons, Bool.and_eq_true] at hs
    exact hs.1

theorem word_comp_word (K : List Char) (hK : K.all (fun c => !isspace c) = true) :
    ∀ (w rest : List Char), w.all (fun c => !isspace c) = true → word_end rest = true →
      word_comp (w ++ rest) K = decide (w = K) := by
  induction K with
  | nil =>
    intro w rest hw hrest
    rw [word_comp_nil_right]
    cases w with
    | nil => simpa using hrest
    | cons c t =>
      simp only [List.all_cons, Bool.and_eq_true, Bool.not_eq_true'] at hw
      simp [word_end, hw.1]
  | cons k K ih =>
    intro w rest hw hrest
    simp only [List.all_cons, Bool.and_eq_true, Bool.not_eq_true'] at hK
    cases w with
    | nil =>
      rcases word_end_cases rest hrest with h | ⟨c, t, h, hc⟩
      · subst h
        simp [word_comp_nil_cons]
      · subst h
        simp [word_comp_cons, ne_of_isspace c k hc hK.1]
    | cons c t =>
      simp only [List.all_cons, Bool.and_eq_true] at hw
      rw [List.cons_append, word_comp_cons, ih hK.2 t rest hw.2 hrest]
      by_cases hkc : k = c
      · subst hkc
        simp
      · have h2 : ¬ c = k := fun h => hkc h.symm
        simp [hkc, h2]

theorem word_comp_append_space (K : List Char) (hK : K.all (fun c => !isspace c) = true) :
    ∀ (y s : List Char), s.all isspace = true → word_comp (y ++ s) K = word_comp y K := by
  induction K with
  | nil =>
    intro y s hs
    rw [word_comp_nil_right, word_comp_nil_right]
    cases y with
    | nil => simpa [word_end] using word_end_of_all_space s hs
    | cons c t => rfl
  | cons k K ih =>
    intro y s hs
    simp only [List.all_cons, Bool.and_eq_true, Bool.not_eq_true'] at hK
    cases y with
    | nil =>
      rw [List.nil_append, word_comp_nil_cons]
      cases s with
      | nil => exact word_comp_nil_cons k K
      | cons c t =>
        simp only [List.all_cons, Bool.and_eq_true] at hs
        rw [word_comp_cons, ne_of_isspace c k hs.1 hK.1]
        rfl
    | cons c t =>
      rw [List.cons_append, word_comp_cons, word_comp_cons, ih hK.2 t s hs]

theorem atoi_digits_append (s : List Char) (hs : word_end s = true) :
    ∀ (r : List Char) (acc : Nat), atoi_digits (r ++ s) acc = atoi_digits r acc := by
  intro r
  induction r with
  | nil =>
    intro acc
    rcases word_end_cases s hs with h | ⟨c, t, h, hc⟩
    · subst h
      rfl
    · subst h
      simp [atoi_digits, isDigit_of_isspace c hc]
  | cons c t ih =>
    intro acc
    by_cases hd : c.isDigit = true
    · simp [atoi_digits, hd, ih]
    · simp [atoi_digits, hd]

theorem atoi_digits_value (ds : List Char) (hds : ds.all Char.isDigit = true) :
    ∀ acc : Nat, atoi_digits ds acc = acc * 10 ^ ds.length + decimal_value ds := by
  induction ds with
  | nil =>
    intro acc
    simp [atoi_digits, decimal_value]
  | cons c t ih =>
    intro acc
    simp only [List.all_cons, Bool.and_eq_true] at hds
    simp only [atoi_digits, hds.1, if_true, ih hds.2, decimal_value, List.length_cons]
    ring

theorem atoi_append (a s : List Char) (hs : word_end s = true)
    (ha : ∃ c t, a = c :: t ∧ isspace c = false) : atoi (a ++ s) = atoi a := by
  obtain ⟨c, t, rfl, hc⟩ := ha
  unfold atoi
  rw [List.cons_append, dropWhile_space_head c (t ++ s) hc, dropWhile_space_head c t hc]
  by_cases h1 : c = '-'
  · subst h1
    simp [atoi_digits_append s hs]
  · by_cases h2 : c = '+'
    · subst h2
      simp [atoi_digits_append s hs]
    · have h3 := atoi_digits_append s hs (c :: t) 0
      rw [List.cons_append] at h3
      simp [h1, h2, h3]

theorem after_word_word (w rest : List Char) (hw : w.all (fun c => !isspace c) = true)
    (hrest : word_end rest = true) : after_word (w ++ rest) = rest.dropWhile isspace := by
  rw [after_word_eq, dropWhile_nonspace_append w rest hw]
  rcases word_end_cases rest hrest with h | ⟨c, t, h, hc⟩
  · subst h
    rfl
  · subst h
    rw [dropWhile_nonspace_head c t hc]

theorem word_end_append (sep x : List Char) (hsep : sep.all isspace = true)
    (hne : sep ≠ []) : word_end (sep ++ x) = true := by
  cases sep with
  | nil => exact absurd rfl hne
  | cons c t =>
    simp only [List.all_cons, Bool.and_eq_true] at hsep
    exact hsep.1

theorem dropWhile_space_word (sep a x : List Char) (hsep : sep.all isspace = true)
    (ha : a.all (fun c => !isspace c) = true) (hne : a ≠ []) :
    (sep ++ (a ++ x)).dropWhile isspace = a ++ x := by
  rw [dropWhile_space_append sep _ hsep]
  cases a with
  | nil => exact absurd rfl hne
  | cons c t =>
    simp only [List.all_cons, Bool.and_eq_true, Bool.not_eq_true'] at ha
    exact dropWhile_space_head c (t ++ x) ha.1

theorem append_ne_nil_left (a x : List Char) (hne : a ≠ []) : a ++ x ≠ [] := by
  cases a with
  | nil => exact absurd rfl hne
  | cons c t => simp

theorem second_word_no_arg (w post : List Char) (hw : w.all (fun c => !isspace c) = true)
    (hne : w ≠ []) (hpost : post.all isspace = true) :
    get_second_word (w ++ post) = some none := by
  rw [get_second_word_eq _ (append_ne_nil_left w post hne),
    after_word_word w post hw (word_end_of_all_space post hpost),
    dropWhile_space_all post hpost]
  rfl

theorem second_word_one_arg (w sep a post : List Char)
    (hw : w.all (fun c => !isspace c) = true) (hne : w ≠ [])
    (hsep : sep.all isspace = true) (hsepne : sep ≠ [])
    (ha : a.all (fun c => !isspace c) = true) (hane : a ≠ [])
    (hpost : post.all isspace = true) :
    get_second_word (w ++ (sep ++ (a ++ post))) = some (some (a ++ post)) := by
  have h1 : after_word (w ++ (sep ++ (a ++ post))) = a ++ post := by
    rw [after_word_word w _ hw (word_end_append sep _ hsep hsepne),
      dropWhile_space_word sep a post hsep ha hane]
  have h2 : after_word (a ++ post) = [] := by
    rw [after_word_word a post ha (word_end_of_all_space post hpost),
      dropWhile_space_all post hpost]
  rw [get_second_word_eq _ (append_ne_nil_left w _ hne), h1, h2,
    if_neg (append_ne_nil_left a post hane), if_pos rfl]

theorem second_word_many (w sep a sep2 : List Char) (c : Char) (rest : List Char)
    (hw : w.all (fun c => !isspace c) = true) (hne : w ≠ [])
    (hsep : sep.all isspace = true) (hsepne : sep ≠ [])
    (ha : a.all (fun c => !isspace c) = true) (hane : a ≠ [])
    (hsep2 : sep2.all isspace = true) (hsep2ne : sep2 ≠ [])
    (hc : isspace c = false) :
    get_second_word (w ++ (sep ++ (a ++ (sep2 ++ c :: rest)))) = some none := by
  have h1 : after_word (w ++ (sep ++ (a ++ (sep2 ++ c :: rest)))) =
      a ++ (sep2 ++ c :: rest) := by
    rw [after_word_word w _ hw (word_end_append sep _ hsep hsepne),
      dropWhile_space_word sep a _ hsep ha hane]
  have h2 : after_word (a ++ (sep2 ++ c :: rest)) = c :: rest := by
    rw [after_word_word a _ ha (word_end_append sep2 _ hsep2 hsep2ne),
      dropWhile_space_append sep2 _ hsep2, dropWhile_space_head c rest hc]
  rw [get_second_word_eq _ (append_ne_nil_left w _ hne), h1, h2,
    if_neg (append_ne_nil_left a _ hane), if_neg (by simp)]

theorem keyword_no_space (K : Keyword) : K.text.all (fun c => !isspace c) = true := by
  cases K <;> decide

theorem keyword_ne_nil (K : Keyword) : K.text ≠ [] := by
  cases K <;> decide

theorem keyword_text_injective (K K2 : Keyword) : K.text = K2.text ↔ K = K2 := by
  cases K <;> cases K2 <;> decide

/-! ## Commands: the interpreter on a line that starts with a word -/

theorem word_comp_keyword (K K2 : Keyword) (rest : List Char) (hrest : word_end rest = true) :
    word_comp (K.text ++ rest) K2.text = decide (K = K2) := by
  rw [word_comp_word K2.text (keyword_no_space K2) K.text rest (keyword_no_space K) hrest]
  by_cases h : K = K2
  · subst h
    simp
  · have h2 : ¬ K.text = K2.text := fun ht => h ((keyword_text_injective K K2).1 ht)
    simp [h, h2]

theorem skip_whitespace_word (y : List Char) (hy : ∃ c t, y = c :: t ∧ isspace c = false) :
    skip_whitespace y = (true, y) := by
  obtain ⟨c, t, rfl, hc⟩ := hy
  rw [skip_whitespace_eq, dropWhile_space_head c t hc]
  rfl

theorem keyword_head (K : Keyword) (rest : List Char) :
    ∃ c t, K.text ++ rest = c :: t ∧ isspace c = false := by
  cases K <;> exact ⟨_, _, rfl, by decide⟩

theorem user_command_keyword (atof : List Char → SDouble) (g : Globals) (o : Output)
    (K : Keyword) (rest : List Char) (hrest : word_end rest = true) :
    layout_handle_user_command atof g o (K.text ++ rest) =
      match K with
      | Keyword.main_count =>
        (handle_uint32_command (K.text ++ rest) o.main_count).map
          (fun v => { o with main_count := v })
      | Keyword.view_padding =>
        (handle_uint32_command (K.text ++ rest) o.view_padding).map
          (fun v => { o with view_padding := v })
      | Keyword.outer_padding =>
        (handle_uint32_command (K.text ++ rest) o.outer_padding).map
          (fun v => { o with outer_padding := v })
      | Keyword.main_ratio =>
        (handle_float_command atof (K.text ++ rest) o.main_ratio literal_0_1 literal_0_9).map
          (fun r => { o with main_ratio := r })
      | Keyword.reset =>
        if (rest.dropWhile isspace).isEmpty then
          some { o with
            main_count := g.global_main_count
            main_ratio := g.global_main_ratio
            view_padding := g.global_view_padding
            outer_padding := g.global_outer_padding }
        else some o
      | Keyword.swap_layout =>
        if (rest.dropWhile isspace).isEmpty then
          some { o with
            layout_style := style_of_value ((style_value o.layout_style + 1) % LAYOUT_STYLE_COUNT) }
        else some o := by
  have h1 : word_comp (K.text ++ rest) "main_count".toList = decide (K = Keyword.main_count) :=
    word_comp_keyword K Keyword.main_count rest hrest
  have h2 : word_comp (K.text ++ rest) "view_padding".toList =
      decide (K = Keyword.view_padding) :=
    word_comp_keyword K Keyword.view_padding rest hrest
  have h3 : word_comp (K.text ++ rest) "outer_padding".toList =
      decide (K = Keyword.outer_padding) :=
    word_comp_keyword K Keyword.outer_padding rest hrest
  have h4 : word_comp (K.text ++ rest) "main_ratio".toList = decide (K = Keyword.main_ratio) :=
    word_comp_keyword K Keyword.main_ratio rest hrest
  have h5 : word_comp (K.text ++ rest) "reset".toList = decide (K = Keyword.reset) :=
    word_comp_keyword K Keyword.reset rest hrest
  have h6 : word_comp (K.text ++ rest) "swap_layout".toList =
      decide (K = Keyword.swap_layout) :=
    word_comp_keyword K Keyword.swap_layout rest hrest
  have hne : K.text ++ rest ≠ [] := append_ne_nil_left _ _ (keyword_ne_nil K)
  have hx := extra_token (K.text ++ rest)
  rw [after_word_word K.text rest (keyword_no_space K) hrest] at hx
  unfold layout_handle_user_command
  rw [skip_whitespace_word _ (keyword_head K rest)]
  simp only [h1, h2, h3, h4, h5, h6, skip_nonwhitespace_eq _ hne, hx]
  have hex : (∃ x ∈ rest, isspace x = false) ↔ ¬ ∀ x ∈ rest, isspace x = true := by
    constructor
    · rintro ⟨x, hx1, hx2⟩ hall
      rw [hall x hx1] at hx2
      cases hx2
    · intro hn
      by_contra hcon
      apply hn
      intro x hx1
      by_contra hx2
      exact hcon ⟨x, hx1, by simpa using hx2⟩
  cases K <;> simp
  all_goals
    by_cases hall : ∀ x ∈ rest, isspace x = true
    · rw [if_neg (fun h => (hex.1 h) hall), if_pos hall]
    · rw [if_pos (hex.2 hall), if_neg hall]

theorem user_command_nil (atof : List Char → SDouble) (g : Globals) (o : Output) :
    layout_handle_user_command atof g o [] = some o := by
  simp [layout_handle_user_command, skip_whitespace, word_comp, List.isPrefixOf]

theorem user_command_dropWhile (atof : List Char → SDouble) (g : Globals) (o : Output)
    (cmd : List Char) :
    layout_handle_user_command atof g o cmd =
      layout_handle_user_command atof g o (cmd.dropWhile isspace) := by
  cases hd : cmd.dropWhile isspace with
  | nil =>
    rw [user_command_nil]
    unfold layout_handle_user_command
    rw [skip_whitespace_eq, hd]
    cases cmd with
    | nil =>
      have h := user_command_nil atof g o
      unfold layout_handle_user_command at h
      rw [skip_whitespace_eq] at h
      exact h
    | cons c t => rfl
  | cons c t =>
    have hc := dropWhile_space_head_false cmd c t hd
    unfold layout_handle_user_command
    rw [skip_whitespace_eq cmd, hd, skip_whitespace_word (c :: t) ⟨c, t, rfl, hc⟩]
    simp

theorem user_command_leading (atof : List Char → SDouble) (g : Globals) (o : Output)
    (pre y : List Char) (hpre : pre.all isspace = true)
    (hy : ∃ c t, y = c :: t ∧ isspace c = false) :
    layout_handle_user_command atof g o (pre ++ y) = layout_handle_user_command atof g o y := by
  obtain ⟨c, t, rfl, hc⟩ := hy
  rw [user_command_dropWhile, dropWhile_space_append pre _ hpre, dropWhile_space_head c t hc]

theorem user_command_unknown (atof : List Char → SDouble) (g : Globals) (o : Output)
    (w rest : List Char) (hw : w.all (fun c => !isspace c) = true) (hne : w ≠ [])
    (hrest : word_end rest = true) (hK : ∀ K : Keyword, w ≠ K.text) :
    layout_handle_user_command atof g o (w ++ rest) = some o := by
  have hf : ∀ K : Keyword, word_comp (w ++ rest) K.text = false := by
    intro K
    rw [word_comp_word K.text (keyword_no_space K) w rest hw hrest]
    simpa using hK K
  have h1 : word_comp (w ++ rest) "main_count".toList = false := hf Keyword.main_count
  have h2 : word_comp (w ++ rest) "view_padding".toList = false := hf Keyword.view_padding
  have h3 : word_comp (w ++ rest) "outer_padding".toList = false := hf Keyword.outer_padding
  have h4 : word_comp (w ++ rest) "main_ratio".toList = false := hf Keyword.main_ratio
  have h5 : word_comp (w ++ rest) "reset".toList = false := hf Keyword.reset
  have h6 : word_comp (w ++ rest) "swap_layout".toList = false := hf Keyword.swap_layout
  have hhead : ∃ c t, w ++ rest = c :: t ∧ isspace c = false := by
    cases w with
    | nil => exact absurd rfl hne
    | cons c t =>
      simp only [List.all_cons, Bool.and_eq_true, Bool.not_eq_true'] at hw
      exact ⟨c, t ++ rest, rfl, hw.1⟩
  unfold layout_handle_user_command
  rw [skip_whitespace_word _ hhead]
  simp only [h1, h2, h3, h4, h5, h6, Bool.false_eq_true, if_false]

/-! ## Commands: swap_layout and reset -/

theorem user_command_swap_layout (atof : List Char → SDouble) (g : Globals) (o : Output) :
    layout_handle_user_command atof g o "swap_layout".toList =
      some { o with
        layout_style := style_of_value ((style_value o.layout_style + 1) % LAYOUT_STYLE_COUNT) } := by
  have h := user_command_keyword atof g o Keyword.swap_layout [] rfl
  rw [List.append_nil] at h
  exact h

theorem user_command_reset (atof : List Char → SDouble) (g : Globals) (o : Output) :
    layout_handle_user_command atof g o "reset".toList =
      some { o with
        main_count := g.global_main_count
        main_ratio := g.global_main_ratio
        view_padding := g.global_view_padding
        outer_padding := g.global_outer_padding } := by
  have h := user_command_keyword atof g o Keyword.reset [] rfl
  rw [List.append_nil] at h
  exact h

theorem style_six_steps (s : LayoutStyle) :
    style_of_value ((style_value (style_of_value ((style_value (style_of_value
      ((style_value (style_of_value ((style_value (style_of_value ((style_value
        (style_of_value ((style_value s + 1) % LAYOUT_STYLE_COUNT)) + 1) % LAYOUT_STYLE_COUNT))
          + 1) % LAYOUT_STYLE_COUNT)) + 1) % LAYOUT_STYLE_COUNT)) + 1) % LAYOUT_STYLE_COUNT))
            + 1) % LAYOUT_STYLE_COUNT) = s := by
  cases s <;> rfl

/-- C15. swap_layout cycling: for every output (and every `atof` and
globals) the command `swap_layout` sets `layout_style` to
`(layout_style + 1) mod 6` and changes nothing else; the successor runs
through Tile, Spiral, Diminishing, Column, Stack, Grid and from Grid back to
Tile; the command applied 6 times in a row returns the output to its
original state. -/
theorem swap_layout_cycles (atof : List Char → SDouble) (g : Globals) (o : Output) :
    layout_handle_user_command atof g o "swap_layout".toList =
      some { o with layout_style := style_of_value ((style_value o.layout_style + 1) % 6) } ∧
    style_of_value ((style_value LayoutStyle.TILE + 1) % 6) = LayoutStyle.SPIRAL ∧
    style_of_value ((style_value LayoutStyle.SPIRAL + 1) % 6) = LayoutStyle.DIMINISHING ∧
    style_of_value ((style_value LayoutStyle.DIMINISHING + 1) % 6) = LayoutStyle.COLUMN ∧
    style_of_value ((style_value LayoutStyle.COLUMN + 1) % 6) = LayoutStyle.STACK ∧
    style_of_value ((style_value LayoutStyle.STACK + 1) % 6) = LayoutStyle.GRID ∧
    style_of_value ((style_value LayoutStyle.GRID + 1) % 6) = LayoutStyle.TILE ∧
    user_commands atof g o (List.replicate 6 "swap_layout".toList) = some o := by
  refine ⟨user_command_swap_layout atof g o, rfl, rfl, rfl, rfl, rfl, rfl, ?_⟩
  have hrep : List.replicate 6 "swap_layout".toList =
      ["swap_layout".toList, "swap_layout".toList, "swap_layout".toList,
        "swap_layout".toList, "swap_layout".toList, "swap_layout".toList] := rfl
  rw [hrep]
  simp only [user_commands, user_command_swap_layout]
  have h6 := style_six_steps o.layout_style
  cases o
  simp only [Option.some.injEq, Output.mk.injEq, true_and, and_true]
  exact h6

/-- C17. reset: for every output state and every value of the global
defaults the command `reset` sets `main_count`, `main_ratio`, `view_padding`
and `outer_padding` to `global_main_count`, `global_main_ratio`,
`global_view_padding` and `global_outer_padding`, and leaves `layout_style`
(and the handles and the configured flag) unchanged. -/
theorem reset_restores_defaults (atof : List Char → SDouble) (g : Globals) (o : Output) :
    ∃ o1, layout_handle_user_command atof g o "reset".toList = some o1 ∧
      o1.main_count = g.global_main_count ∧
      o1.main_ratio = g.global_main_ratio ∧
      o1.view_padding = g.global_view_padding ∧
      o1.outer_padding = g.global_outer_padding ∧
      o1.layout_style = o.layout_style ∧
      o1.output = o.output ∧ o1.layout = o.layout ∧ o1.configured = o.configured :=
  ⟨_, user_command_reset atof g o, rfl, rfl, rfl, rfl, rfl, rfl, rfl, rfl⟩

/-! ## Commands: the parameter commands -/

theorem handle_uint32_command_null (y : List Char) (v : Nat)
    (h : get_second_word y = some none) : handle_uint32_command y v = some v := by
  unfold handle_uint32_command
  rw [h]

theorem handle_float_command_null (atof : List Char → SDouble) (y : List Char) (v : Double)
    (b c : SDouble) (h : get_second_word y = some none) :
    handle_float_command atof y v b c = some v := by
  unfold handle_float_command
  rw [h]

theorem isspace_of_isDigit (c : Char) (h : c.isDigit = true) : isspace c = false := by
  by_contra hcon
  have h2 : isspace c = true := by simpa using hcon
  rw [isDigit_of_isspace c h2] at h
  cases h

theorem digits_no_space (digits : List Char) (hd : digits.all Char.isDigit = true) :
    digits.all (fun c => !isspace c) = true := by
  rw [List.all_eq_true] at hd ⊢
  intro c hc
  simp [isspace_of_isDigit c (hd c hc)]

theorem atoi_plus (digits post : List Char) (hd : digits.all Char.isDigit = true)
    (hpost : post.all isspace = true) :
    atoi ('+' :: (digits ++ post)) = (decimal_value digits : Int) := by
  have h := atoi_append ('+' :: digits) post (word_end_of_all_space post hpost)
    ⟨'+', digits, rfl, by decide⟩
  rw [List.cons_append] at h
  rw [h]
  unfold atoi
  rw [dropWhile_space_head '+' digits (by decide)]
  simp [atoi_digits_value digits hd]

theorem atoi_minus (digits post : List Char) (hd : digits.all Char.isDigit = true)
    (hpost : post.all isspace = true) :
    atoi ('-' :: (digits ++ post)) = -(decimal_value digits : Int) := by
  have h := atoi_append ('-' :: digits) post (word_end_of_all_space post hpost)
    ⟨'-', digits, rfl, by decide⟩
  rw [List.cons_append] at h
  rw [h]
  unfold atoi
  rw [dropWhile_space_head '-' digits (by decide)]
  simp [atoi_digits_value digits hd]

theorem atoi_unsigned (digits post : List Char) (hd : digits.all Char.isDigit = true)
    (hne : digits ≠ []) (hpost : post.all isspace = true) :
    atoi (digits ++ post) = (decimal_value digits : Int) ∧
    (digits ++ post).head? ≠ some '+' ∧ (digits ++ post).head? ≠ some '-' := by
  cases digits with
  | nil => exact absurd rfl hne
  | cons c t =>
    have hc : c.isDigit = true := by
      simp only [List.all_cons, Bool.and_eq_true] at hd
      exact hd.1
    have hsp : isspace c = false := isspace_of_isDigit c hc
    have h1 : c ≠ '-' := by
      intro h
      subst h
      exact absurd hc (by decide)
    have h2 : c ≠ '+' := by
      intro h
      subst h
      exact absurd hc (by decide)
    have h := atoi_append (c :: t) post (word_end_of_all_space post hpost) ⟨c, t, rfl, hsp⟩
    refine ⟨?_, ?_, ?_⟩
    · rw [h]
      unfold atoi
      rw [dropWhile_space_head c t hsp]
      have hv := atoi_digits_value (c :: t) hd 0
      simp [h1, h2, hv]
    · simpa using h2
    · simpa using h1

theorem to_int32_of_lt (v : Nat) (hv : v < 2147483648) : to_int32 v = (v : Int) := by
  unfold to_int32
  have h1 : v % 4294967296 = v := Nat.mod_eq_of_lt (by omega)
  rw [h1, if_pos hv]

theorem MAX_zero (a : Int) : MAX a 0 = max a 0 := by
  unfold MAX
  by_cases h : a > 0
  · rw [if_pos h, max_eq_left (le_of_lt h)]
  · rw [if_neg h, max_eq_right (not_lt.1 h)]

theorem in_int32_iff (n : Int) : in_int32 n = true ↔ -2147483648 ≤ n ∧ n ≤ 2147483647 := by
  unfold in_int32
  exact decide_eq_true_iff

theorem handle_uint32_plus (y digits post : List Char) (v : Nat)
    (hsw : get_second_word y = some (some ('+' :: (digits ++ post))))
    (hd : digits.all Char.isDigit = true) (hpost : post.all isspace = true)
    (hv : v < 2147483648) (hsum : v + decimal_value digits < 2147483648) :
    handle_uint32_command y v = some (max ((v : Int) + (decimal_value digits : Int)) 0).toNat := by
  have h1 : in_int32 (decimal_value digits : Int) = true := (in_int32_iff _).2 (by omega)
  have h2 : in_int32 ((v : Int) + (decimal_value digits : Int)) = true :=
    (in_int32_iff _).2 (by omega)
  unfold handle_uint32_command
  rw [hsw]
  simp only [atoi_plus digits post hd hpost, h1, to_int32_of_lt v hv, h2, MAX_zero,
    List.head?_cons, true_or, if_true]

theorem handle_uint32_minus (y digits post : List Char) (v : Nat)
    (hsw : get_second_word y = some (some ('-' :: (digits ++ post))))
    (hd : digits.all Char.isDigit = true) (hpost : post.all isspace = true)
    (hv : v < 2147483648) (hk : decimal_value digits ≤ 2147483648) :
    handle_uint32_command y v = some (max ((v : Int) - (decimal_value digits : Int)) 0).toNat := by
  have h1 : in_int32 (-(decimal_value digits : Int)) = true := (in_int32_iff _).2 (by omega)
  have h2 : in_int32 ((v : Int) + -(decimal_value digits : Int)) = true :=
    (in_int32_iff _).2 (by omega)
  unfold handle_uint32_command
  rw [hsw]
  simp only [atoi_minus digits post hd hpost, h1, to_int32_of_lt v hv, h2, MAX_zero,
    List.head?_cons, or_true, if_true]
  rfl

theorem handle_uint32_absolute (y digits post : List Char) (v : Nat)
    (hsw : get_second_word y = some (some (digits ++ post)))
    (hd : digits.all Char.isDigit = true) (hne : digits ≠ [])
    (hpost : post.all isspace = true) (hk : decimal_value digits < 2147483648) :
    handle_uint32_command y v = some (max (decimal_value digits : Int) 0).toNat := by
  have h1 : in_int32 (decimal_value digits : Int) = true := (in_int32_iff _).2 (by omega)
  obtain ⟨ha, hp, hm⟩ := atoi_unsigned digits post hd hne hpost
  unfold handle_uint32_command
  rw [hsw]
  simp only [ha, h1, MAX_zero, hp, hm, or_self, if_true, if_false]

theorem eta_main_count (o : Output) : { o with main_count := o.main_count } = o := by
  cases o
  rfl

theorem eta_view_padding (o : Output) : { o with view_padding := o.view_padding } = o := by
  cases o
  rfl

theorem eta_outer_padding (o : Output) : { o with outer_padding := o.outer_padding } = o := by
  cases o
  rfl

theorem eta_main_ratio (o : Output) : { o with main_ratio := o.main_ratio } = o := by
  cases o
  rfl

theorem int_command (atof : List Char → SDouble) (g : Globals) (o : Output) (K : Keyword)
    (hK : K = Keyword.main_count ∨ K = Keyword.view_padding ∨ K = Keyword.outer_padding)
    (pre rest : List Char) (hpre : pre.all isspace = true) (hrest : word_end rest = true)
    (v1 : Nat) (hval : handle_uint32_command (K.text ++ rest) (int_param K o) = some v1) :
    layout_handle_user_command atof g o (pre ++ (K.text ++ rest)) =
      some (set_int_param K o v1) := by
  rw [user_command_leading atof g o pre _ hpre (keyword_head K rest),
    user_command_keyword atof g o K rest hrest]
  rcases hK with h | h | h <;> subst h <;> simp only [int_param] at hval <;>
    simp only [hval, Option.map_some', set_int_param]

theorem sign_digits_no_space (c : Char) (digits : List Char) (hc : isspace c = false)
    (hd : digits.all Char.isDigit = true) :
    (c :: digits).all (fun c => !isspace c) = true := by
  simp only [List.all_cons, Bool.and_eq_true, Bool.not_eq_true']
  exact ⟨hc, digits_no_space digits hd⟩

theorem param_command_null (atof : List Char → SDouble) (g : Globals) (o : Output)
    (K : Keyword) (hK : K ≠ Keyword.reset ∧ K ≠ Keyword.swap_layout) (rest : List Char)
    (hrest : word_end rest = true) (hnull : get_second_word (K.text ++ rest) = some none) :
    layout_handle_user_command atof g o (K.text ++ rest) = some o := by
  rw [user_command_keyword atof g o K rest hrest]
  cases K with
  | main_count =>
    simp only [handle_uint32_command_null _ _ hnull, Option.map_some', eta_main_count]
  | view_padding =>
    simp only [handle_uint32_command_null _ _ hnull, Option.map_some', eta_view_padding]
  | outer_padding =>
    simp only [handle_uint32_command_null _ _ hnull, Option.map_some', eta_outer_padding]
  | main_ratio =>
    simp only [handle_float_command_null atof _ _ _ _ hnull, Option.map_some', eta_main_ratio]
  | reset => exact absurd rfl hK.1
  | swap_layout => exact absurd rfl hK.2

theorem main_count_plus_two (atof : List Char → SDouble) (g : Globals) (o : Output)
    (h : o.main_count = 1) :
    layout_handle_user_command atof g o "main_count +2".toList =
      some { o with main_count := 3 } := by
  have hsw := second_word_one_arg Keyword.main_count.text [' '] ['+', '2'] []
    (keyword_no_space _) (keyword_ne_nil _) (by decide) (by decide) (by decide) (by decide)
    (by decide)
  have hval := handle_uint32_plus (Keyword.main_count.text ++ ([' '] ++ (['+', '2'] ++ [])))
    ['2'] [] o.main_count hsw (by decide) (by decide) (by omega)
    (by rw [h]; decide)
  have hrun := int_command atof g o Keyword.main_count (Or.inl rfl) []
    ([' '] ++ (['+', '2'] ++ [])) (by decide) (by decide) _ hval
  have hcmd : "main_count +2".toList =
      [] ++ (Keyword.main_count.text ++ ([' '] ++ (['+', '2'] ++ []))) := by decide
  rw [hcmd, hrun, h]
  rfl

theorem main_count_minus_five (atof : List Char → SDouble) (g : Globals) (o : Output)
    (h : o.main_count = 3) :
    layout_handle_user_command atof g o "main_count -5".toList =
      some { o with main_count := 0 } := by
  have hsw := second_word_one_arg Keyword.main_count.text [' '] ['-', '5'] []
    (keyword_no_space _) (keyword_ne_nil _) (by decide) (by decide) (by decide) (by decide)
    (by decide)
  have hval := handle_uint32_minus (Keyword.main_count.text ++ ([' '] ++ (['-', '5'] ++ [])))
    ['5'] [] o.main_count hsw (by decide) (by decide) (by omega) (by decide)
  have hrun := int_command atof g o Keyword.main_count (Or.inl rfl) []
    ([' '] ++ (['-', '5'] ++ [])) (by decide) (by decide) _ hval
  have hcmd : "main_count -5".toList =
      [] ++ (Keyword.main_count.text ++ ([' '] ++ (['-', '5'] ++ []))) := by decide
  rw [hcmd, hrun, h]
  rfl

/-- C13. Integer parameter commands: for each keyword `K` among
`main_count`, `view_padding`, `outer_padding`, every current value
`v < 2^31` of its parameter (the range the parameter always stays in) and
every command made of the keyword, white space and an argument that is a
string of decimal digits of value `k` with an optional sign (surrounding
white space allowed): with a `+` the new value is `max (v + k) 0`
(for `v + k < 2^31`), with a `-` it is `max (v - k) 0`, and with no sign it
is `max k 0`; every other field is kept. In particular `main_count +2` on
`main_count = 1` yields 3 and `main_count -5` on `main_count = 3` yields 0. -/
theorem integer_parameter_commands (atof : List Char → SDouble) (g : Globals) (o : Output)
    (K : Keyword)
    (hK : K = Keyword.main_count ∨ K = Keyword.view_padding ∨ K = Keyword.outer_padding)
    (pre sep digits post : List Char)
    (hpre : pre.all isspace = true) (hsep : sep.all isspace = true) (hsepne : sep ≠ [])
    (hd : digits.all Char.isDigit = true) (hne : digits ≠ [])
    (hpost : post.all isspace = true) (hv : int_param K o < 2147483648) :
    (int_param K o + decimal_value digits < 2147483648 →
      layout_handle_user_command atof g o
          (pre ++ (K.text ++ (sep ++ ('+' :: (digits ++ post))))) =
        some (set_int_param K o
          (max ((int_param K o : Int) + (decimal_value digits : Int)) 0).toNat)) ∧
    (decimal_value digits ≤ 2147483648 →
      layout_handle_user_command atof g o
          (pre ++ (K.text ++ (sep ++ ('-' :: (digits ++ post))))) =
        some (set_int_param K o
          (max ((int_param K o : Int) - (decimal_value digits : Int)) 0).toNat)) ∧
    (decimal_value digits < 2147483648 →
      layout_handle_user_command atof g o (pre ++ (K.text ++ (sep ++ (digits ++ post)))) =
        some (set_int_param K o (max (decimal_value digits : Int) 0).toNat)) ∧
    (o.main_count = 1 →
      layout_handle_user_command atof g o "main_count +2".toList =
        some { o with main_count := 3 }) ∧
    (o.main_count = 3 →
      layout_handle_user_command atof g o "main_count -5".toList =
        some { o with main_count := 0 }) := by
  refine ⟨?_, ?_, ?_, main_count_plus_two atof g o, main_count_minus_five atof g o⟩
  · intro hsum
    have hsw := second_word_one_arg K.text sep ('+' :: digits) post (keyword_no_space K)
      (keyword_ne_nil K) hsep hsepne (sign_digits_no_space '+' digits (by decide) hd)
      (by simp) hpost
    exact int_command atof g o K hK pre _ hpre (word_end_append sep _ hsep hsepne) _
      (handle_uint32_plus _ digits post _ hsw hd hpost hv hsum)
  · intro hk
    have hsw := second_word_one_arg K.text sep ('-' :: digits) post (keyword_no_space K)
      (keyword_ne_nil K) hsep hsepne (sign_digits_no_space '-' digits (by decide) hd)
      (by simp) hpost
    exact int_command atof g o K hK pre _ hpre (word_end_append sep _ hsep hsepne) _
      (handle_uint32_minus _ digits post _ hsw hd hpost hv hk)
  · intro hk
    have hsw := second_word_one_arg K.text sep digits post (keyword_no_space K)
      (keyword_ne_nil K) hsep hsepne (digits_no_space digits hd) hne hpost
    exact int_command atof g o K hK pre _ hpre (word_end_append sep _ hsep hsepne) _
      (handle_uint32_absolute _ digits post _ hsw hd hne hpost hk)

/-! ## Commands: erroneous commands -/

theorem extra_token_command (atof : List Char → SDouble) (g : Globals) (o : Output)
    (K : Keyword) (hK : K = Keyword.reset ∨ K = Keyword.swap_layout) (sep : List Char)
    (c : Char) (rest : List Char) (hsep : sep.all isspace = true) (hsepne : sep ≠ [])
    (hc : isspace c = false) :
    layout_handle_user_command atof g o (K.text ++ (sep ++ c :: rest)) = some o := by
  have hd : (sep ++ c :: rest).dropWhile isspace = c :: rest := by
    rw [dropWhile_space_append sep _ hsep, dropWhile_space_head c rest hc]
  rw [user_command_keyword atof g o K _ (word_end_append sep _ hsep hsepne), hd]
  rcases hK with h | h <;> subst h <;> rfl

theorem frobnicate_unknown (K : Keyword) : "frobnicate".toList ≠ K.text := by
  cases K <;> decide

/-- C16. Erroneous commands mutate nothing: after any leading white space,
(a) a line whose first word is none of the six keywords (`frobnicate` for
one), (b) one of `main_count`, `main_ratio`, `view_padding`, `outer_padding`
with no argument, (c) one of those keywords followed by two or more
argument words, and (d) `reset` or `swap_layout` followed by any extra
word, all make `layout_handle_user_command` return with the output
unchanged. -/
theorem erroneous_commands_mutate_nothing (atof : List Char → SDouble) (g : Globals)
    (o : Output) (pre : List Char) (hpre : pre.all isspace = true) :
    (∀ w rest : List Char, w.all (fun c => !isspace c) = true → w ≠ [] →
      word_end rest = true → (∀ K : Keyword, w ≠ K.text) →
      layout_handle_user_command atof g o (pre ++ (w ++ rest)) = some o) ∧
    layout_handle_user_command atof g o "frobnicate".toList = some o ∧
    (∀ (K : Keyword) (post : List Char), K ≠ Keyword.reset ∧ K ≠ Keyword.swap_layout →
      post.all isspace = true →
      layout_handle_user_command atof g o (pre ++ (K.text ++ post)) = some o) ∧
    (∀ (K : Keyword) (sep a sep2 : List Char) (c : Char) (rest : List Char),
      K ≠ Keyword.reset ∧ K ≠ Keyword.swap_layout →
      sep.all isspace = true → sep ≠ [] →
      a.all (fun c => !isspace c) = true → a ≠ [] →
      sep2.all isspace = true → sep2 ≠ [] → isspace c = false →
      layout_handle_user_command atof g o
        (pre ++ (K.text ++ (sep ++ (a ++ (sep2 ++ c :: rest))))) = some o) ∧
    (∀ (K : Keyword) (sep : List Char) (c : Char) (rest : List Char),
      K = Keyword.reset ∨ K = Keyword.swap_layout →
      sep.all isspace = true → sep ≠ [] → isspace c = false →
      layout_handle_user_command atof g o (pre ++ (K.text ++ (sep ++ c :: rest))) = some o) := by
  refine ⟨?_, ?_, ?_, ?_, ?_⟩
  · intro w rest hw hne hrest hK
    have hhead : ∃ c t, w ++ rest = c :: t ∧ isspace c = false := by
      cases w with
      | nil => exact absurd rfl hne
      | cons c t =>
        simp only [List.all_cons, Bool.and_eq_true, Bool.not_eq_true'] at hw
        exact ⟨c, t ++ rest, rfl, hw.1⟩
    rw [user_command_leading atof g o pre _ hpre hhead]
    exact user_command_unknown atof g o w rest hw hne hrest hK
  · have h := user_command_unknown atof g o "frobnicate".toList [] (by decide) (by decide) rfl
      frobnicate_unknown
    rw [List.append_nil] at h
    exact h
  · intro K post hK hpost
    rw [user_command_leading atof g o pre _ hpre (keyword_head K post)]
    exact param_command_null atof g o K hK post (word_end_of_all_space post hpost)
      (second_word_no_arg K.text post (keyword_no_space K) (keyword_ne_nil K) hpost)
  · intro K sep a sep2 c rest hK hsep hsepne ha hane hsep2 hsep2ne hc
    rw [user_command_leading atof g o pre _ hpre (keyword_head K _)]
    exact param_command_null atof g o K hK _ (word_end_append sep _ hsep hsepne)
      (second_word_many K.text sep a sep2 c rest (keyword_no_space K) (keyword_ne_nil K)
        hsep hsepne ha hane hsep2 hsep2ne hc)
  · intro K sep c rest hK hsep hsepne hc
    rw [user_command_leading atof g o pre _ hpre (keyword_head K _)]
    exact extra_token_command atof g o K hK sep c rest hsep hsepne hc

/-! ## Commands: main_ratio -/

theorem literal_0_1_value : literal_0_1.toRat = 3602879701896397 / 36028797018963968 := by
  norm_num [literal_0_1, SDouble.toRat, SDouble.num, SDouble.exp, Double.mant, Double.exp]

theorem literal_0_9_value : literal_0_9.toRat = 8106479329266893 / 9007199254740992 := by
  norm_num [literal_0_9, SDouble.toRat, SDouble.num, SDouble.exp, Double.mant, Double.exp]

theorem literal_0_1_pos : (0 : ℚ) < literal_0_1.toRat := by
  rw [literal_0_1_value]
  norm_num

theorem literal_0_1_le_0_9 : literal_0_1.toRat ≤ literal_0_9.toRat := by
  rw [literal_0_1_value, literal_0_9_value]
  norm_num

theorem SDouble.lt_mk (na nb : Bool) (ma ea mb eb : Nat) :
    (SDouble.mk na (Double.mk ma ea)).lt (SDouble.mk nb (Double.mk mb eb)) = true ↔
      (SDouble.mk na (Double.mk ma ea)).toRat < (SDouble.mk nb (Double.mk mb eb)).toRat := by
  have ha : (0 : ℚ) < 2 ^ ea := by positivity
  have hb : (0 : ℚ) < 2 ^ eb := by positivity
  simp only [SDouble.lt, SDouble.isNaN, Bool.or_self, Bool.false_eq_true, if_false,
    SDouble.toRat, SDouble.exp, Double.exp, decide_eq_true_eq]
  rw [div_lt_div_iff₀ ha hb]
  constructor
  · intro h
    exact_mod_cast h
  · intro h
    exact_mod_cast h

theorem SDouble.toRat_mk_false (m e : Nat) :
    (SDouble.mk false (Double.mk m e)).toRat = (Double.mk m e).toRat := by
  rw [Double.toRat_mk]
  simp [SDouble.toRat, SDouble.num, SDouble.exp, Double.mant, Double.exp]

theorem SDouble.toRat_mk_true (m e : Nat) : (SDouble.mk true (Double.mk m e)).toRat ≤ 0 := by
  have hpos : (0 : ℚ) < 2 ^ e := by positivity
  simp only [SDouble.toRat, SDouble.num, SDouble.exp, Double.mant, Double.exp, if_true]
  apply div_nonpos_of_nonpos_of_nonneg _ hpos.le
  simp

theorem clamp_nan (a : SDouble) (h : a.isNaN = true) :
    CLAMP a literal_0_1 literal_0_9 = a := by
  have hmax : MAX_double literal_0_1 literal_0_9 = literal_0_9 := by decide
  have hmin : MIN_double literal_0_1 literal_0_9 = literal_0_1 := by decide
  have h1 : a.lt literal_0_1 = false := by
    unfold SDouble.lt
    rw [h]
    rfl
  have h2 : literal_0_9.lt a = false := by
    unfold SDouble.lt
    rw [h, Bool.or_true]
    rfl
  unfold CLAMP
  rw [hmax, hmin]
  unfold MIN_double MAX_double
  rw [h1]
  simp only [Bool.false_eq_true, if_false]
  rw [h2]
  rfl

theorem clamp_number (a : SDouble) (h : a.isNaN = false) :
    ∃ d : Double, CLAMP a literal_0_1 literal_0_9 = SDouble.mk false d ∧ d ≠ Double.nan ∧
      literal_0_1.toRat ≤ d.toRat ∧ d.toRat ≤ literal_0_9.toRat := by
  have h01 : (Double.mk 3602879701896397 55).toRat = literal_0_1.toRat := by
    rw [← SDouble.toRat_mk_false]
    rfl
  have h09 : (Double.mk 8106479329266893 53).toRat = literal_0_9.toRat := by
    rw [← SDouble.toRat_mk_false]
    rfl
  have hlow : ∃ d : Double, literal_0_1 = SDouble.mk false d ∧ d ≠ Double.nan ∧
      literal_0_1.toRat ≤ d.toRat ∧ d.toRat ≤ literal_0_9.toRat :=
    ⟨Double.mk 3602879701896397 55, rfl, by simp, by rw [h01], by
      rw [h01]
      exact literal_0_1_le_0_9⟩
  have hhigh : ∃ d : Double, literal_0_9 = SDouble.mk false d ∧ d ≠ Double.nan ∧
      literal_0_1.toRat ≤ d.toRat ∧ d.toRat ≤ literal_0_9.toRat :=
    ⟨Double.mk 8106479329266893 53, rfl, by simp, by
      rw [h09]
      exact literal_0_1_le_0_9, by rw [h09]⟩
  have hmax : MAX_double literal_0_1 literal_0_9 = literal_0_9 := by decide
  have hmin : MIN_double literal_0_1 literal_0_9 = literal_0_1 := by decide
  cases a with
  | inf neg =>
    cases neg with
    | false =>
      have hc : CLAMP (SDouble.inf false) literal_0_1 literal_0_9 = literal_0_9 := by decide
      rw [hc]
      exact hhigh
    | true =>
      have hc : CLAMP (SDouble.inf true) literal_0_1 literal_0_9 = literal_0_1 := by decide
      rw [hc]
      exact hlow
  | mk neg mag =>
    cases mag with
    | nan => cases h
    | mk m e =>
      unfold CLAMP
      rw [hmax, hmin]
      unfold MIN_double MAX_double
      by_cases ha : (SDouble.mk neg (Double.mk m e)).lt literal_0_1 = true
      · rw [if_pos ha]
        have h91 : literal_0_9.lt literal_0_1 = false := by decide
        rw [h91]
        simp only [Bool.false_eq_true, if_false]
        exact hlow
      · rw [if_neg ha]
        have ha2 : literal_0_1.toRat ≤ (SDouble.mk neg (Double.mk m e)).toRat :=
          not_lt.1 (fun hlt => ha ((SDouble.lt_mk _ _ _ _ _ _).2 hlt))
        by_cases hb : literal_0_9.lt (SDouble.mk neg (Double.mk m e)) = true
        · rw [if_pos hb]
          exact hhigh
        · rw [if_neg hb]
          have hb2 : (SDouble.mk neg (Double.mk m e)).toRat ≤ literal_0_9.toRat :=
            not_lt.1 (fun hlt => hb ((SDouble.lt_mk _ _ _ _ _ _).2 hlt))
          cases neg with
          | true =>
            have h0 := SDouble.toRat_mk_true m e
            have hp := literal_0_1_pos
            exact absurd (lt_of_lt_of_le hp ha2) (not_lt.2 h0)
          | false =>
            rw [SDouble.toRat_mk_false] at ha2 hb2
            exact ⟨Double.mk m e, rfl, by simp, ha2, hb2⟩

theorem add_nan_left (b : SDouble) :
    (SDouble.add (SDouble.mk false Double.nan) b).isNaN = true := by
  unfold SDouble.add
  rfl

theorem add_nan_right (a : SDouble) (b : SDouble) (h : b.isNaN = true) :
    (SDouble.add a b).isNaN = true := by
  unfold SDouble.add
  rw [h, Bool.or_true]
  rfl

theorem add_number (v : Double) (hv : v ≠ Double.nan) (b : SDouble) (hb : b.isNaN = false) :
    (SDouble.add (SDouble.mk false v) b).isNaN = false := by
  cases v with
  | nan => exact absurd rfl hv
  | mk m e =>
    cases b with
    | inf nb => rfl
    | mk nb mb =>
      cases mb with
      | nan => cases hb
      | mk mb eb =>
        have key : ∀ (c : Prop) [Decidable c] (x y : Bool) (r k : Nat),
            (if c then SDouble.inf x else SDouble.mk y (Double.mk r k)).isNaN = false := by
          intro c _ x y r k
          split <;> rfl
        unfold SDouble.add
        rw [if_neg (by simp [SDouble.isNaN])]
        exact key _ _ _ _ _

theorem store_number (d : Double) (hd : d ≠ Double.nan) :
    (SDouble.mk false d).toDouble = some d := by
  simp [SDouble.toDouble, hd]

theorem store_nan (a : SDouble) (h : a.isNaN = true) : a.toDouble = some Double.nan := by
  cases a with
  | inf neg => cases h
  | mk neg mag =>
    cases mag with
    | nan => rfl
    | mk m e => cases h

theorem handle_float_command_absolute (atof : List Char → SDouble) (y w : List Char)
    (v : Double) (h : get_second_word y = some (some w))
    (hw : ¬(w.head? = some '+' ∨ w.head? = some '-')) :
    (∃ r, handle_float_command atof y v literal_0_1 literal_0_9 = some r ∧
      ((atof w).isNaN = true → r = Double.nan) ∧
      ((atof w).isNaN = false →
        r ≠ Double.nan ∧ literal_0_1.toRat ≤ r.toRat ∧ r.toRat ≤ literal_0_9.toRat)) := by
  unfold handle_float_command
  rw [h]
  simp only []
  rw [if_neg hw]
  by_cases hn : (atof w).isNaN = true
  · rw [clamp_nan _ hn, store_nan _ hn]
    exact ⟨_, rfl, fun _ => rfl, fun hc => by rw [hn] at hc; cases hc⟩
  · have hn0 : (atof w).isNaN = false := by simpa using hn
    obtain ⟨d, hd, hdn, h1, h2⟩ := clamp_number _ hn0
    rw [hd, store_number d hdn]
    exact ⟨d, rfl, fun hc => absurd hc hn, fun _ => ⟨hdn, h1, h2⟩⟩

theorem handle_float_command_delta (atof : List Char → SDouble) (y w : List Char)
    (v : Double) (h : get_second_word y = some (some w))
    (hw : w.head? = some '+' ∨ w.head? = some '-') :
    (∃ r, handle_float_command atof y v literal_0_1 literal_0_9 = some r ∧
      (v = Double.nan ∨ (atof w).isNaN = true → r = Double.nan) ∧
      (v ≠ Double.nan → (atof w).isNaN = false →
        r ≠ Double.nan ∧ literal_0_1.toRat ≤ r.toRat ∧ r.toRat ≤ literal_0_9.toRat)) := by
  unfold handle_float_command
  rw [h]
  simp only []
  rw [if_pos hw]
  by_cases hn : (SDouble.add (SDouble.mk false v) (atof w)).isNaN = true
  · rw [clamp_nan _ hn, store_nan _ hn]
    refine ⟨_, rfl, fun _ => rfl, ?_⟩
    intro hv ha
    rw [add_number v hv _ ha] at hn
    cases hn
  · have hn0 : (SDouble.add (SDouble.mk false v) (atof w)).isNaN = false := by simpa using hn
    obtain ⟨d, hd, hdn, h1, h2⟩ := clamp_number _ hn0
    rw [hd, store_number d hdn]
    refine ⟨d, rfl, ?_, fun _ _ => ⟨hdn, h1, h2⟩⟩
    intro hc
    rcases hc with hc | hc
    · rw [hc, add_nan_left] at hn0
      cases hn0
    · rw [add_nan_right _ _ hc] at hn0
      cases hn0

theorem handle_float_command_value (atof : List Char → SDouble) (y w : List Char)
    (v : Double) (h : get_second_word y = some (some w)) :
    ∃ r, handle_float_command atof y v literal_0_1 literal_0_9 = some r ∧
      ((atof w).isNaN = true → r = Double.nan) ∧
      (v ≠ Double.nan → (atof w).isNaN = false →
        r ≠ Double.nan ∧ literal_0_1.toRat ≤ r.toRat ∧ r.toRat ≤ literal_0_9.toRat) := by
  by_cases hw : w.head? = some '+' ∨ w.head? = some '-'
  · obtain ⟨r, hr, h1, h2⟩ := handle_float_command_delta atof y w v h hw
    exact ⟨r, hr, fun hn => h1 (Or.inr hn), h2⟩
  · obtain ⟨r, hr, h1, h2⟩ := handle_float_command_absolute atof y w v h hw
    exact ⟨r, hr, h1, fun _ hn => h2 hn⟩

theorem handle_float_command_some (atof : List Char → SDouble) (y : List Char) (v : Double)
    (hy : y ≠ []) : ∃ r, handle_float_command atof y v literal_0_1 literal_0_9 = some r := by
  have h := get_second_word_eq y hy
  cases hx : (if after_word y = [] then none
      else if after_word (after_word y) = [] then some (after_word y) else none) with
  | none =>
    rw [hx] at h
    exact ⟨v, handle_float_command_null atof y v _ _ h⟩
  | some w =>
    rw [hx] at h
    obtain ⟨r, hr, _⟩ := handle_float_command_value atof y w v h
    exact ⟨r, hr⟩

/-- C18. Command frame: for every output state and every command line,
with `y` the line after its leading white space, the output returned by
`layout_handle_user_command` keeps the `wl_output` handle, the session
handle and the configured flag, and is either the output unchanged, or the
output with the one parameter named by the first word changed
(`main_count`, `view_padding`, `outer_padding`, `main_ratio`), or with the
four parameters set to the globals (first word `reset`), or with
`layout_style` alone changed (first word `swap_layout`); the handler always
returns, except for an integer command whose arithmetic overflows. -/
theorem command_frame (atof : List Char → SDouble) (g : Globals) (o : Output)
    (cmd : List Char) :
    (∀ o1, layout_handle_user_command atof g o cmd = some o1 →
      o1.output = o.output ∧ o1.layout = o.layout ∧ o1.configured = o.configured ∧
      (o1 = o ∨
        (word_comp (cmd.dropWhile isspace) "main_count".toList = true ∧
          ∃ v, o1 = { o with main_count := v }) ∨
        (word_comp (cmd.dropWhile isspace) "view_padding".toList = true ∧
          ∃ v, o1 = { o with view_padding := v }) ∨
        (word_comp (cmd.dropWhile isspace) "outer_padding".toList = true ∧
          ∃ v, o1 = { o with outer_padding := v }) ∨
        (word_comp (cmd.dropWhile isspace) "main_ratio".toList = true ∧
          ∃ r, o1 = { o with main_ratio := r }) ∨
        (word_comp (cmd.dropWhile isspace) "reset".toList = true ∧
          o1 = { o with
            main_count := g.global_main_count
            main_ratio := g.global_main_ratio
            view_padding := g.global_view_padding
            outer_padding := g.global_outer_padding }) ∨
        (word_comp (cmd.dropWhile isspace) "swap_layout".toList = true ∧
          o1 = { o with
            layout_style :=
              style_of_value ((style_value o.layout_style + 1) % LAYOUT_STYLE_COUNT) }))) ∧
    (layout_handle_user_command atof g o cmd = none →
      word_comp (cmd.dropWhile isspace) "main_count".toList = true ∨
      word_comp (cmd.dropWhile isspace) "view_padding".toList = true ∨
      word_comp (cmd.dropWhile isspace) "outer_padding".toList = true) := by
  rw [user_command_dropWhile]
  cases hd : cmd.dropWhile isspace with
  | nil =>
    rw [user_command_nil]
    refine ⟨?_, ?_⟩
    · intro o1 h
      cases h
      exact ⟨rfl, rfl, rfl, Or.inl rfl⟩
    · intro h
      cases h
  | cons c t =>
    have hc := dropWhile_space_head_false cmd c t hd
    have hne : c :: t ≠ [] := by simp
    unfold layout_handle_user_command
    rw [skip_whitespace_word (c :: t) ⟨c, t, rfl, hc⟩]
    simp only []
    by_cases h1 : word_comp (c :: t) "main_count".toList = true
    · rw [if_pos h1]
      cases hh : handle_uint32_command (c :: t) o.main_count with
      | none => exact ⟨fun o1 h => (by cases h), fun _ => Or.inl h1⟩
      | some v =>
        refine ⟨?_, fun h => by cases h⟩
        intro o1 h
        cases h
        exact ⟨rfl, rfl, rfl, Or.inr (Or.inl ⟨h1, v, rfl⟩)⟩
    · rw [if_neg h1]
      by_cases h2 : word_comp (c :: t) "view_padding".toList = true
      · rw [if_pos h2]
        cases hh : handle_uint32_command (c :: t) o.view_padding with
        | none => exact ⟨fun o1 h => (by cases h), fun _ => Or.inr (Or.inl h2)⟩
        | some v =>
          refine ⟨?_, fun h => by cases h⟩
          intro o1 h
          cases h
          exact ⟨rfl, rfl, rfl, Or.inr (Or.inr (Or.inl ⟨h2, v, rfl⟩))⟩
      · rw [if_neg h2]
        by_cases h3 : word_comp (c :: t) "outer_padding".toList = true
        · rw [if_pos h3]
          cases hh : handle_uint32_command (c :: t) o.outer_padding with
          | none => exact ⟨fun o1 h => (by cases h), fun _ => Or.inr (Or.inr h3)⟩
          | some v =>
            refine ⟨?_, fun h => by cases h⟩
            intro o1 h
            cases h
            exact ⟨rfl, rfl, rfl, Or.inr (Or.inr (Or.inr (Or.inl ⟨h3, v, rfl⟩)))⟩
        · rw [if_neg h3]
          by_cases h4 : word_comp (c :: t) "main_ratio".toList = true
          · rw [if_pos h4]
            obtain ⟨r, hr⟩ := handle_float_command_some atof (c :: t) o.main_ratio hne
            rw [hr]
            refine ⟨?_, fun h => by cases h⟩
            intro o1 h
            cases h
            exact ⟨rfl, rfl, rfl, Or.inr (Or.inr (Or.inr (Or.inr (Or.inl ⟨h4, r, rfl⟩))))⟩
          · rw [if_neg h4]
            by_cases h5 : word_comp (c :: t) "reset".toList = true
            · rw [if_pos h5, skip_nonwhitespace_eq (c :: t) hne]
              simp only []
              split
              · refine ⟨?_, fun h => by cases h⟩
                intro o1 h
                cases h
                exact ⟨rfl, rfl, rfl, Or.inl rfl⟩
              · refine ⟨?_, fun h => by cases h⟩
                intro o1 h
                cases h
                exact ⟨rfl, rfl, rfl,
                  Or.inr (Or.inr (Or.inr (Or.inr (Or.inr (Or.inl ⟨h5, rfl⟩)))))⟩
            · rw [if_neg h5]
              by_cases h6 : word_comp (c :: t) "swap_layout".toList = true
              · rw [if_pos h6, skip_nonwhitespace_eq (c :: t) hne]
                simp only []
                split
                · refine ⟨?_, fun h => by cases h⟩
                  intro o1 h
                  cases h
                  exact ⟨rfl, rfl, rfl, Or.inl rfl⟩
                · refine ⟨?_, fun h => by cases h⟩
                  intro o1 h
                  cases h
                  exact ⟨rfl, rfl, rfl,
                    Or.inr (Or.inr (Or.inr (Or.inr (Or.inr (Or.inr ⟨h6, rfl⟩)))))⟩
              · rw [if_neg h6]
                refine ⟨?_, fun h => by cases h⟩
                intro o1 h
                cases h
                exact ⟨rfl, rfl, rfl, Or.inl rfl⟩

/-! ## Commands: white space around a command -/

theorem dropWhile_nonspace_append_space (s : List Char) (hs : s.all isspace = true) :
    ∀ y : List Char, (y ++ s).dropWhile (fun c => !isspace c) =
      y.dropWhile (fun c => !isspace c) ++ s := by
  intro y
  induction y with
  | nil => exact dropWhile_nonspace_space s hs
  | cons c t ih =>
    by_cases hc : isspace c = true
    · rw [List.cons_append, dropWhile_nonspace_head c _ hc, dropWhile_nonspace_head c t hc]
      rfl
    · have hc2 : isspace c = false := by simpa using hc
      have h1 : List.dropWhile (fun c => !isspace c) (c :: (t ++ s)) =
          List.dropWhile (fun c => !isspace c) (t ++ s) := by
        simp [List.dropWhile, hc2]
      have h2 : List.dropWhile (fun c => !isspace c) (c :: t) =
          List.dropWhile (fun c => !isspace c) t := by
        simp [List.dropWhile, hc2]
      rw [List.cons_append, h1, h2, ih]

theorem dropWhile_space_append_space (s : List Char) (hs : s.all isspace = true) :
    ∀ r : List Char, (r ++ s).dropWhile isspace =
      if r.dropWhile isspace = [] then [] else r.dropWhile isspace ++ s := by
  intro r
  induction r with
  | nil => simpa using dropWhile_space_all s hs
  | cons c t ih =>
    by_cases hc : isspace c = true
    · rw [List.cons_append, List.dropWhile_cons_of_pos hc, List.dropWhile_cons_of_pos hc, ih]
    · have hc2 : isspace c = false := by simpa using hc
      rw [List.cons_append, dropWhile_space_head c _ hc2, dropWhile_space_head c t hc2,
        if_neg (by simp)]
      rfl

theorem after_word_append (y s : List Char) (hs : s.all isspace = true) :
    after_word (y ++ s) = if after_word y = [] then [] else after_word y ++ s := by
  rw [after_word_eq, after_word_eq, dropWhile_nonspace_append_space s hs y,
    dropWhile_space_append_space s hs]

theorem after_word_head (y : List Char) (hne : after_word y ≠ []) :
    ∃ c t, after_word y = c :: t ∧ isspace c = false := by
  cases h : after_word y with
  | nil => exact absurd h hne
  | cons c t =>
    rw [after_word_eq] at h
    exact ⟨c, t, rfl, dropWhile_space_head_false _ c t h⟩

theorem get_second_word_append (y s : List Char) (hy : y ≠ [])
    (hs : s.all isspace = true) :
    (get_second_word y = some none ∧ get_second_word (y ++ s) = some none) ∨
    (∃ w c t, w = c :: t ∧ isspace c = false ∧ get_second_word y = some (some w) ∧
      get_second_word (y ++ s) = some (some (w ++ s))) := by
  rw [get_second_word_eq y hy, get_second_word_eq (y ++ s) (append_ne_nil_left y s hy),
    after_word_append y s hs]
  by_cases ha : after_word y = []
  · left
    rw [if_pos ha, if_pos ha, if_pos rfl]
    exact ⟨rfl, rfl⟩
  · rw [if_neg ha, if_neg ha, if_neg (append_ne_nil_left _ s ha),
      after_word_append (after_word y) s hs]
    by_cases hb : after_word (after_word y) = []
    · right
      obtain ⟨c, t, hct, hc⟩ := after_word_head y ha
      rw [if_pos hb, if_pos hb, if_pos rfl]
      exact ⟨after_word y, c, t, hct, hc, rfl, rfl⟩
    · left
      rw [if_neg hb, if_neg hb, if_neg (append_ne_nil_left _ s hb)]
      exact ⟨rfl, rfl⟩

theorem handle_uint32_command_append (y s : List Char) (v : Nat) (hy : y ≠ [])
    (hs : s.all isspace = true) :
    handle_uint32_command (y ++ s) v = handle_uint32_command y v := by
  rcases get_second_word_append y s hy hs with ⟨h1, h2⟩ | ⟨w, c, t, hw, hc, h1, h2⟩
  · rw [handle_uint32_command_null _ _ h1, handle_uint32_command_null _ _ h2]
  · have hatoi : atoi (w ++ s) = atoi w :=
      atoi_append w s (word_end_of_all_space s hs) ⟨c, t, hw, hc⟩
    have hhead : (w ++ s).head? = w.head? := by
      rw [hw]
      rfl
    unfold handle_uint32_command
    rw [h1, h2]
    simp only [hatoi, hhead]

theorem handle_float_command_append (atof : List Char → SDouble)
    (hatof : ∀ w s : List Char, s.all isspace = true → atof (w ++ s) = atof w)
    (y s : List Char) (v : Double) (b c : SDouble) (hy : y ≠ [])
    (hs : s.all isspace = true) :
    handle_float_command atof (y ++ s) v b c = handle_float_command atof y v b c := by
  rcases get_second_word_append y s hy hs with ⟨h1, h2⟩ | ⟨w, d, t, hw, _, h1, h2⟩
  · rw [handle_float_command_null _ _ _ _ _ h1, handle_float_command_null _ _ _ _ _ h2]
  · have hhead : (w ++ s).head? = w.head? := by
      rw [hw]
      rfl
    unfold handle_float_command
    rw [h1, h2]
    simp only [hatof w s hs, hhead]

theorem extra_token_append (y s : List Char) (hs : s.all isspace = true) :
    (!(after_word (y ++ s)).isEmpty) = !(after_word y).isEmpty := by
  rw [after_word_append y s hs]
  by_cases ha : after_word y = []
  · rw [if_pos ha, ha]
  · rw [if_neg ha]
    cases h : after_word y with
    | nil => exact absurd h ha
    | cons c t => rfl

theorem user_command_trailing (atof : List Char → SDouble)
    (hatof : ∀ w s : List Char, s.all isspace = true → atof (w ++ s) = atof w)
    (g : Globals) (o : Output) (y s : List Char)
    (hy : ∃ c t, y = c :: t ∧ isspace c = false) (hs : s.all isspace = true) :
    layout_handle_user_command atof g o (y ++ s) = layout_handle_user_command atof g o y := by
  have hne : y ≠ [] := by
    obtain ⟨c, t, h, _⟩ := hy
    rw [h]
    simp
  have hne1 : y ++ s ≠ [] := append_ne_nil_left y s hne
  have hy1 : ∃ c t, y ++ s = c :: t ∧ isspace c = false := by
    obtain ⟨c, t, h, hc⟩ := hy
    exact ⟨c, t ++ s, by rw [h]; rfl, hc⟩
  have w1 : word_comp (y ++ s) "main_count".toList = word_comp y "main_count".toList :=
    word_comp_append_space _ (keyword_no_space Keyword.main_count) y s hs
  have w2 : word_comp (y ++ s) "view_padding".toList = word_comp y "view_padding".toList :=
    word_comp_append_space _ (keyword_no_space Keyword.view_padding) y s hs
  have w3 : word_comp (y ++ s) "outer_padding".toList = word_comp y "outer_padding".toList :=
    word_comp_append_space _ (keyword_no_space Keyword.outer_padding) y s hs
  have w4 : word_comp (y ++ s) "main_ratio".toList = word_comp y "main_ratio".toList :=
    word_comp_append_space _ (keyword_no_space Keyword.main_ratio) y s hs
  have w5 : word_comp (y ++ s) "reset".toList = word_comp y "reset".toList :=
    word_comp_append_space _ (keyword_no_space Keyword.reset) y s hs
  have w6 : word_comp (y ++ s) "swap_layout".toList = word_comp y "swap_layout".toList :=
    word_comp_append_space _ (keyword_no_space Keyword.swap_layout) y s hs
  unfold layout_handle_user_command
  rw [skip_whitespace_word _ hy1, skip_whitespace_word _ hy]
  simp only [w1, w2, w3, w4, w5, w6, handle_uint32_command_append y s _ hne hs,
    handle_float_command_append atof hatof y s _ _ _ hne hs,
    skip_nonwhitespace_eq _ hne1, skip_nonwhitespace_eq _ hne, extra_token,
    extra_token_append y s hs]

theorem atoi_dropWhile (w : List Char) : atoi (w.dropWhile isspace) = atoi w := by
  unfold atoi
  have h : (w.dropWhile isspace).dropWhile isspace = w.dropWhile isspace := by
    cases hd : w.dropWhile isspace with
    | nil => rfl
    | cons c t => exact dropWhile_space_head c t (dropWhile_space_head_false w c t hd)
  rw [h]

theorem atoi_trailing (w s : List Char) (hs : s.all isspace = true) :
    atoi (w ++ s) = atoi w := by
  rw [← atoi_dropWhile (w ++ s), ← atoi_dropWhile w, dropWhile_space_append_space s hs w]
  by_cases hd : w.dropWhile isspace = []
  · rw [if_pos hd, hd]
  · rw [if_neg hd]
    cases hc : w.dropWhile isspace with
    | nil => exact absurd hc hd
    | cons c t =>
      exact atoi_append (c :: t) s (word_end_of_all_space s hs)
        ⟨c, t, rfl, dropWhile_space_head_false w c t hc⟩

theorem integer_atof_trailing (w s : List Char) (hs : s.all isspace = true) :
    integer_atof (w ++ s) = integer_atof w := by
  unfold integer_atof
  rw [atoi_trailing w s hs]

/-- C19. White-space insignificance: for every output state, every command
line `c` and all strings `p` and `s` of white-space characters, the command
`p ++ c ++ s` has the same result as `c` (the same new output state, or in
both cases none), for every `atof` that, like the C library function, does
not read past the number into trailing white space. -/
theorem whitespace_insignificant (atof : List Char → SDouble)
    (hatof : ∀ w s : List Char, s.all isspace = true → atof (w ++ s) = atof w)
    (g : Globals) (o : Output) (p c s : List Char)
    (hp : p.all isspace = true) (hs : s.all isspace = true) :
    layout_handle_user_command atof g o (p ++ c ++ s) =
      layout_handle_user_command atof g o c := by
  rw [List.append_assoc, user_command_dropWhile atof g o (p ++ (c ++ s)),
    dropWhile_space_append p _ hp, dropWhile_space_append_space s hs c,
    user_command_dropWhile atof g o c]
  by_cases hd : c.dropWhile isspace = []
  · rw [if_pos hd, hd]
  · rw [if_neg hd]
    cases hc : c.dropWhile isspace with
    | nil => exact absurd hc hd
    | cons d t =>
      exact user_command_trailing atof hatof g o (d :: t) s
        ⟨d, t, rfl, dropWhile_space_head_false c d t hc⟩ hs

theorem whitespace_insignificant_witness :
    (∀ w s : List Char, s.all isspace = true → integer_atof (w ++ s) = integer_atof w) ∧
    ([' ', '\t'].all isspace = true ∧ [' ', '\n'].all isspace = true) ∧
    layout_handle_user_command integer_atof default_globals (default_output LayoutStyle.TILE)
        ([' ', '\t'] ++ "main_ratio +1".toList ++ [' ', '\n']) =
      layout_handle_user_command integer_atof default_globals (default_output LayoutStyle.TILE)
        "main_ratio +1".toList :=
  ⟨integer_atof_trailing, ⟨by decide, by decide⟩,
    whitespace_insignificant integer_atof integer_atof_trailing default_globals
      (default_output LayoutStyle.TILE) [' ', '\t'] "main_ratio +1".toList [' ', '\n']
      (by decide) (by decide)⟩

/-! ## The event loop: a namespace conflict -/

/-- C20 fails on the code. In the run where the registry advertises the
layout manager and one `wl_output`, the sync callback is done, and the
compositor then reports the namespace of that output as in use,
`layout_handle_namespace_in_use` sets `loop` to false and leaves `ret`
as it is (it does so in every state), the loop stops before the next batch
of events, `finish_wayland` destroys every output, and `main` returns
`EXIT_SUCCESS`, where the claim says `EXIT_FAILURE`; the two sibling error
paths (`registry_handle_global`, `sync_handle_done`) do set
`ret = EXIT_FAILURE`. -/
theorem namespace_conflict_exit_status (atof : List Char → SDouble) (g : Globals) :
    main atof g true
        [[Event.global 1 Interface.river_layout_manager_v3 true,
            Event.global 2 Interface.wl_output true, Event.sync_done],
          [Event.namespace_in_use 2],
          [Event.global 3 Interface.wl_output true]] =
      some (EXIT_SUCCESS, State.mk none [] none false EXIT_SUCCESS) ∧
    EXIT_SUCCESS ≠ EXIT_FAILURE ∧
    (∀ s : State, (layout_handle_namespace_in_use s).loop = false ∧
      (layout_handle_namespace_in_use s).ret = s.ret ∧
      (layout_handle_namespace_in_use s).outputs = s.outputs) ∧
    (∀ (s : State) (name : Nat),
      (registry_handle_global g s name Interface.wl_output false).ret = EXIT_FAILURE) ∧
    (∀ s : State, s.layout_manager = none → (sync_handle_done s).ret = EXIT_FAILURE) := by
  refine ⟨rfl, by decide, fun s => ⟨rfl, rfl, rfl⟩, fun s name => rfl, ?_⟩
  intro s h
  unfold sync_handle_done
  simp only [h]

/-! ## Instances of the theorems on commands and the usable area -/

theorem usable_area_is_wrapped_difference_witness :
    (4 < 4294967296 ∧ 810 < 4294967296 ∧
      2 * (default_output LayoutStyle.STACK).outer_padding < 4294967296) ∧
    usable (default_output LayoutStyle.STACK) 4 =
      4 + 4294967296 - 2 * (default_output LayoutStyle.STACK).outer_padding ∧
    usable (default_output LayoutStyle.STACK) 810 =
      810 - 2 * (default_output LayoutStyle.STACK).outer_padding :=
  ⟨⟨by decide, by decide, by decide⟩,
    (usable_area_is_wrapped_difference (default_output LayoutStyle.STACK) 4 810 0 7
      (by decide) (by decide) (by decide)).2.1 (by decide),
    (usable_area_is_wrapped_difference (default_output LayoutStyle.STACK) 4 810 0 7
      (by decide) (by decide) (by decide)).2.2.1 (by decide)⟩

theorem integer_parameter_commands_witness :
    ([' '].all isspace = true ∧ [' ', ' '].all isspace = true ∧
      ['1', '2'].all Char.isDigit = true ∧ ['\t'].all isspace = true ∧
      int_param Keyword.view_padding (default_output LayoutStyle.TILE) < 2147483648 ∧
      int_param Keyword.view_padding (default_output LayoutStyle.TILE) +
        decimal_value ['1', '2'] < 2147483648) ∧
    layout_handle_user_command integer_atof default_globals (default_output LayoutStyle.TILE)
        ([' '] ++ (Keyword.view_padding.text ++
          ([' ', ' '] ++ ('+' :: (['1', '2'] ++ ['\t']))))) =
      some (set_int_param Keyword.view_padding (default_output LayoutStyle.TILE)
        (max ((int_param Keyword.view_padding (default_output LayoutStyle.TILE) : Int) +
          (decimal_value ['1', '2'] : Int)) 0).toNat) :=
  ⟨⟨by decide, by decide, by decide, by decide, by decide, by decide⟩,
    (integer_parameter_commands integer_atof default_globals (default_output LayoutStyle.TILE)
      Keyword.view_padding (Or.inr (Or.inl rfl)) [' '] [' ', ' '] ['1', '2'] ['\t']
      (by decide) (by decide) (by decide) (by decide) (by decide) (by decide)
      (by decide)).1 (by decide)⟩

theorem erroneous_commands_mutate_nothing_witness :
    ([' '].all isspace = true ∧ isspace 'x' = false) ∧
    layout_handle_user_command integer_atof default_globals (default_output LayoutStyle.GRID)
        "frobnicate".toList = some (default_output LayoutStyle.GRID) ∧
    layout_handle_user_command integer_atof default_globals (default_output LayoutStyle.GRID)
        ([' '] ++ (Keyword.swap_layout.text ++ ([' '] ++ 'x' :: []))) =
      some (default_output LayoutStyle.GRID) :=
  ⟨⟨by decide, by decide⟩,
    (erroneous_commands_mutate_nothing integer_atof default_globals
      (default_output LayoutStyle.GRID) [' '] (by decide)).2.1,
    (erroneous_commands_mutate_nothing integer_atof default_globals
      (default_output LayoutStyle.GRID) [' '] (by decide)).2.2.2.2
      Keyword.swap_layout [' '] 'x' [] (Or.inr rfl) (by decide) (by decide) (by decide)⟩

theorem command_frame_witness :
    layout_handle_user_command integer_atof default_globals (default_output LayoutStyle.GRID)
        "swap_layout".toList =
      some { default_output LayoutStyle.GRID with
        layout_style := style_of_value
          ((style_value (default_output LayoutStyle.GRID).layout_style + 1) %
            LAYOUT_STYLE_COUNT) } ∧
    ({ default_output LayoutStyle.GRID with
        layout_style := style_of_value
          ((style_value (default_output LayoutStyle.GRID).layout_style + 1) %
            LAYOUT_STYLE_COUNT) } : Output).output =
      (default_output LayoutStyle.GRID).output ∧
    ({ default_output LayoutStyle.GRID with
        layout_style := style_of_value
          ((style_value (default_output LayoutStyle.GRID).layout_style + 1) %
            LAYOUT_STYLE_COUNT) } : Output).layout =
      (default_output LayoutStyle.GRID).layout :=
  ⟨user_command_swap_layout integer_atof default_globals (default_output LayoutStyle.GRID),
    ((command_frame integer_atof default_globals (default_output LayoutStyle.GRID)
      "swap_layout".toList).1 _
      (user_command_swap_layout integer_atof default_globals
        (default_output LayoutStyle.GRID))).1,
    ((command_frame integer_atof default_globals (default_output LayoutStyle.GRID)
      "swap_layout".toList).1 _
      (user_command_swap_layout integer_atof default_globals
        (default_output LayoutStyle.GRID))).2.1⟩

/-! ## The event loop: discovery and deferred configuration -/

theorem dispatch_batch_cons (atof : List Char → SDouble) (g : Globals) (s : State)
    (e : Event) (es : List Event) :
    dispatch_batch atof g s (e :: es) =
      match dispatch_event atof g s e with
      | none => none
      | some s1 => dispatch_batch atof g s1 es :=
  rfl

theorem dispatch_batch_append (atof : List Char → SDouble) (g : Globals) (a b : List Event) :
    ∀ s : State, dispatch_batch atof g s (a ++ b) =
      (dispatch_batch atof g s a).bind (fun s1 => dispatch_batch atof g s1 b) := by
  induction a with
  | nil => intro s; rfl
  | cons e es ih =>
    intro s
    rw [List.cons_append, dispatch_batch_cons, dispatch_batch_cons]
    cases dispatch_event atof g s e with
    | none => rfl
    | some s1 => exact ih s1

theorem get_layout_requests_eq (os : List Output) :
    get_layout_requests os = (os.filter (fun o => !o.configured)).map Output.output := by
  induction os with
  | nil => rfl
  | cons o os ih =>
    unfold get_layout_requests
    cases hc : o.configured <;> simp [hc, ih]

theorem get_layout_requests_unconfigured (os : List Output)
    (h : ∀ o ∈ os, o.configured = false) :
    get_layout_requests os = os.map Output.output := by
  induction os with
  | nil => rfl
  | cons o os ih =>
    unfold get_layout_requests
    rw [if_neg (by rw [h o (List.mem_cons_self o os)]; decide),
      ih (fun p hp => h p (List.mem_cons_of_mem o hp))]
    rfl

theorem sync_handle_done_outputs (lm : Nat) (outputs : List Output) (sc : Option Nat)
    (loop : Bool) (ret : Nat) :
    sync_handle_done (State.mk (some lm) outputs sc loop ret) =
      State.mk (some lm)
        (outputs.map (fun o => if o.configured then o else configure_output o)) none loop ret :=
  rfl

theorem discover_outputs (atof : List Char → SDouble) (g : Globals) (names : List Nat) :
    ∀ s : State, s.layout_manager = none →
      ∃ os : List Output,
        dispatch_batch atof g s
            (names.map (fun n => Event.global n Interface.wl_output true)) =
          some { s with outputs := os ++ s.outputs } ∧
        os.map Output.output = names.reverse ∧
        ∀ o ∈ os, o.configured = false ∧ o.layout = none := by
  induction names with
  | nil =>
    intro s _
    exact ⟨[], rfl, rfl, fun o ho => absurd ho (List.not_mem_nil o)⟩
  | cons n ns ih =>
    intro s hs
    have hstep : dispatch_event atof g s (Event.global n Interface.wl_output true) =
        some (State.mk s.layout_manager
          (Output.mk n none g.global_main_count g.global_main_ratio g.global_view_padding
            g.global_outer_padding LayoutStyle.TILE false :: s.outputs)
          s.sync_callback s.loop s.ret) := by
      simp [dispatch_event, registry_handle_global, create_output, hs]
    obtain ⟨os, hrun, hnames, hall⟩ := ih (State.mk s.layout_manager
      (Output.mk n none g.global_main_count g.global_main_ratio g.global_view_padding
        g.global_outer_padding LayoutStyle.TILE false :: s.outputs)
      s.sync_callback s.loop s.ret) hs
    refine ⟨os ++ [Output.mk n none g.global_main_count g.global_main_ratio
      g.global_view_padding g.global_outer_padding LayoutStyle.TILE false], ?_, ?_, ?_⟩
    · rw [List.map_cons, dispatch_batch_cons, hstep]
      simp only []
      rw [hrun]
      simp
    · simp [hnames]
    · intro o ho
      rcases List.mem_append.1 ho with h | h
      · exact hall o h
      · rw [List.mem_singleton] at h
        rw [h]
        exact ⟨rfl, rfl⟩

/-- C21, as stated, fails: when the outputs 1 and 2 are discovered in that
order before the layout manager (name 3) is advertised, the list of
outputs holds output 2 first, and `sync_handle_done` sends the
`get_layout` request of output 2 before that of output 1: the output
discovered first is configured last. -/
theorem deferred_configuration_newest_first :
    (dispatch_batch integer_atof default_globals loop_entry
      [Event.global 1 Interface.wl_output true, Event.global 2 Interface.wl_output true,
        Event.global 3 Interface.river_layout_manager_v3 true]).map
      (fun s => (s.outputs.map Output.output, s.outputs.map Output.configured,
        sync_handle_done_requests s)) =
      some ([2, 1], [false, false], [2, 1]) ∧
    ([2, 1] : List Nat) ≠ [1, 2] := by
  refine ⟨rfl, by decide⟩

/-- C21, amended. When outputs were discovered before the layout manager
was advertised, `sync_handle_done` configures every output that is still
unconfigured (afterwards every output is configured and holds a session),
and it sends their `get_layout` requests in the order of the list of
outputs, which is the reverse of the discovery order: the output
discovered last is configured first. In any state with a layout manager
the requests are those of the unconfigured outputs, in list order. -/
theorem deferred_configuration_order (atof : List Char → SDouble) (g : Globals)
    (names : List Nat) (m : Nat) :
    (∃ s, dispatch_batch atof g loop_entry
          (names.map (fun n => Event.global n Interface.wl_output true) ++
            [Event.global m Interface.river_layout_manager_v3 true]) = some s ∧
      s.outputs.map Output.output = names.reverse ∧
      (∀ o ∈ s.outputs, o.configured = false ∧ o.layout = none) ∧
      sync_handle_done_requests s = names.reverse ∧
      (sync_handle_done s).outputs.map Output.output = names.reverse ∧
      (∀ o ∈ (sync_handle_done s).outputs, o.configured = true ∧ o.layout = some o.output)) ∧
    (∀ (lm : Nat) (outputs : List Output) (sc : Option Nat) (loop : Bool) (ret : Nat),
      sync_handle_done_requests (State.mk (some lm) outputs sc loop ret) =
        (outputs.filter (fun o => !o.configured)).map Output.output ∧
      (∀ o ∈ (sync_handle_done (State.mk (some lm) outputs sc loop ret)).outputs,
        o.configured = true)) := by
  refine ⟨?_, ?_⟩
  · obtain ⟨os, hrun, hnames, hall⟩ := discover_outputs atof g names loop_entry rfl
    refine ⟨State.mk (some m) os (some 0) true EXIT_SUCCESS, ?_, hnames, hall, ?_, ?_, ?_⟩
    · rw [dispatch_batch_append, hrun]
      simp [dispatch_batch, dispatch_event, registry_handle_global, loop_entry]
    · show get_layout_requests os = names.reverse
      rw [get_layout_requests_unconfigured os (fun o ho => (hall o ho).1), hnames]
    · rw [sync_handle_done_outputs, ← hnames]
      simp only [List.map_map]
      apply List.map_congr_left
      intro o ho
      simp [(hall o ho).1, configure_output]
    · rw [sync_handle_done_outputs]
      intro o ho
      simp only [List.mem_map] at ho
      obtain ⟨p, hp, rfl⟩ := ho
      simp [(hall p hp).1, configure_output]
  · intro lm outputs sc loop ret
    refine ⟨get_layout_requests_eq outputs, ?_⟩
    rw [sync_handle_done_outputs]
    intro o ho
    simp only [List.mem_map] at ho
    obtain ⟨p, hp, rfl⟩ := ho
    by_cases hc : p.configured = true
    · simp [hc]
    · simp [hc, configure_output]

/-! ## The event loop: sessions and the configured flag -/

theorem user_command_handles (atof : List Char → SDouble) (g : Globals) (o : Output)
    (cmd : List Char) (o1 : Output) (h : layout_handle_user_command atof g o cmd = some o1) :
    o1.output = o.output ∧ o1.layout = o.layout ∧ o1.configured = o.configured := by
  unfold layout_handle_user_command at h
  repeat' split at h
  all_goals
    first
    | (cases h <;> exact ⟨rfl, rfl, rfl⟩)
    | (simp only [Option.map_eq_some'] at h
       obtain ⟨v, _, rfl⟩ := h
       exact ⟨rfl, rfl, rfl⟩)

theorem user_command_outputs_session (atof : List Char → SDouble) (g : Globals)
    (wl_output : Nat) (command : List Char) :
    ∀ os os1 : List Output, user_command_outputs atof g wl_output command os = some os1 →
      (∀ o ∈ os, (o.layout ≠ none ↔ o.configured = true)) →
      ∀ o ∈ os1, (o.layout ≠ none ↔ o.configured = true) := by
  intro os
  induction os with
  | nil =>
    intro os1 h _ o ho
    cases h
    exact absurd ho (List.not_mem_nil o)
  | cons p ps ih =>
    intro os1 h hinv o ho
    unfold user_command_outputs at h
    cases hp : (if p.layout = some wl_output then layout_handle_user_command atof g p command
        else some p) with
    | none =>
      rw [hp] at h
      cases h
    | some p1 =>
      rw [hp] at h
      simp only [Option.map_eq_some'] at h
      obtain ⟨ps1, hps, rfl⟩ := h
      have hp1 : p1.layout = p.layout ∧ p1.configured = p.configured := by
        by_cases hl : p.layout = some wl_output
        · rw [if_pos hl] at hp
          exact (user_command_handles atof g p command p1 hp).2
        · rw [if_neg hl] at hp
          cases hp
          exact ⟨rfl, rfl⟩
      rcases List.mem_cons.1 ho with h1 | h1
      · rw [h1, hp1.1, hp1.2]
        exact hinv p (List.mem_cons_self p ps)
      · exact ih ps1 hps (fun q hq => hinv q (List.mem_cons_of_mem p hq)) o h1

theorem configure_output_session (o : Output) :
    (configure_output o).layout ≠ none ↔ (configure_output o).configured = true := by
  simp [configure_output]

theorem dispatch_event_session (atof : List Char → SDouble) (g : Globals) (s s1 : State)
    (e : Event) (h : dispatch_event atof g s e = some s1)
    (hinv : ∀ o ∈ s.outputs, (o.layout ≠ none ↔ o.configured = true)) :
    ∀ o ∈ s1.outputs, (o.layout ≠ none ↔ o.configured = true) := by
  cases e with
  | global name interface alloc_ok =>
    simp only [dispatch_event, Option.some.injEq] at h
    subst h
    cases interface with
    | river_layout_manager_v3 => exact hinv
    | other => exact hinv
    | wl_output =>
      cases alloc_ok with
      | false => exact hinv
      | true =>
        intro o ho
        simp only [registry_handle_global, create_output, if_true] at ho
        rcases List.mem_cons.1 ho with h1 | h1
        · rw [h1]
          by_cases hm : s.layout_manager = none
          · simp [hm]
          · simp [hm, configure_output]
        · exact hinv o h1
  | sync_done =>
    simp only [dispatch_event, Option.some.injEq] at h
    subst h
    intro o ho
    unfold sync_handle_done at ho
    cases hm : s.layout_manager with
    | none =>
      simp only [hm] at ho
      exact hinv o ho
    | some lm =>
      simp only [hm, List.mem_map] at ho
      obtain ⟨p, hp, rfl⟩ := ho
      by_cases hc : p.configured = true
      · rw [if_pos hc]
        exact hinv p hp
      · rw [if_neg hc]
        exact configure_output_session p
  | namespace_in_use wl_output =>
    simp only [dispatch_event] at h
    split at h <;> cases h <;> exact hinv
  | layout_demand wl_output view_count width height tags serial =>
    simp only [dispatch_event, Option.some.injEq] at h
    subst h
    exact hinv
  | user_command wl_output command =>
    simp only [dispatch_event, Option.map_eq_some'] at h
    obtain ⟨os1, hos, rfl⟩ := h
    exact user_command_outputs_session atof g wl_output command s.outputs os1 hos hinv

theorem dispatch_batch_session (atof : List Char → SDouble) (g : Globals) (evs : List Event) :
    ∀ s s1 : State, dispatch_batch atof g s evs = some s1 →
      (∀ o ∈ s.outputs, (o.layout ≠ none ↔ o.configured = true)) →
      ∀ o ∈ s1.outputs, (o.layout ≠ none ↔ o.configured = true) := by
  induction evs with
  | nil =>
    intro s s1 h hinv
    cases h
    exact hinv
  | cons e es ih =>
    intro s s1 h hinv
    rw [dispatch_batch_cons] at h
    cases he : dispatch_event atof g s e with
    | none =>
      rw [he] at h
      cases h
    | some s2 =>
      rw [he] at h
      exact ih s2 s1 h (dispatch_event_session atof g s s2 e he hinv)

theorem main_loop_session (atof : List Char → SDouble) (g : Globals)
    (batches : List (List Event)) :
    ∀ s s1 : State, main_loop atof g s batches = some s1 →
      (∀ o ∈ s.outputs, (o.layout ≠ none ↔ o.configured = true)) →
      ∀ o ∈ s1.outputs, (o.layout ≠ none ↔ o.configured = true) := by
  induction batches with
  | nil =>
    intro s s1 h hinv
    cases h
    exact hinv
  | cons b bs ih =>
    intro s s1 h hinv
    unfold main_loop at h
    by_cases hl : s.loop = true
    · rw [if_pos hl] at h
      cases hb : dispatch_batch atof g s b with
      | none =>
        rw [hb] at h
        cases h
      | some s2 =>
        rw [hb] at h
        exact ih s2 s1 h (dispatch_batch_session atof g b s s2 hb hinv)
    · rw [if_neg hl] at h
      cases h
      exact hinv

/-- C22. Session/configured invariant: in every state the event loop
reaches from its entry, after any number of dispatched batches and any
events of the next batch (output discovery, the advertisement of the layout
manager, the completion of the sync callback, user commands, layout
demands, namespace conflicts), each output of the list has a session
handle (`layout` is not `NULL`) if and only if its `configured` flag is
true. -/
theorem session_iff_configured (atof : List Char → SDouble) (g : Globals)
    (batches : List (List Event)) (evs : List Event) (s1 s : State)
    (h1 : main_loop atof g loop_entry batches = some s1)
    (h2 : dispatch_batch atof g s1 evs = some s) :
    ∀ o ∈ s.outputs, (o.layout ≠ none ↔ o.configured = true) :=
  dispatch_batch_session atof g evs s1 s h2
    (main_loop_session atof g batches loop_entry s1 h1
      (fun o ho => absurd ho (List.not_mem_nil o)))

theorem session_iff_configured_witness :
    ∃ s1 s : State,
      main_loop integer_atof default_globals loop_entry
          [[Event.global 1 Interface.wl_output true,
            Event.global 2 Interface.river_layout_manager_v3 true,
            Event.global 3 Interface.wl_output true]] = some s1 ∧
      dispatch_batch integer_atof default_globals s1
          [Event.sync_done, Event.user_command 3 "swap_layout".toList] = some s ∧
      s.outputs.map Output.configured = [true, true] ∧
      ∀ o ∈ s.outputs, (o.layout ≠ none ↔ o.configured = true) :=
  ⟨_, _, rfl, rfl, rfl,
    session_iff_configured integer_atof default_globals
      [[Event.global 1 Interface.wl_output true,
        Event.global 2 Interface.river_layout_manager_v3 true,
        Event.global 3 Interface.wl_output true]]
      [Event.sync_done, Event.user_command 3 "swap_layout".toList] _ _ rfl rfl⟩

/-! ## The event loop: no layout manager at the barrier -/

theorem registry_event_unconfigured (atof : List Char → SDouble) (g : Globals) (s : State)
    (t : Nat × Interface × Bool) (ht : t.2.1 ≠ Interface.river_layout_manager_v3)
    (hm : s.layout_manager = none)
    (hu : ∀ o ∈ s.outputs, o.configured = false ∧ o.layout = none)
    (hr : s.loop = false → s.ret = EXIT_FAILURE) :
    ∃ s1, dispatch_event atof g s (Event.global t.1 t.2.1 t.2.2) = some s1 ∧
      s1.layout_manager = none ∧
      (∀ o ∈ s1.outputs, o.configured = false ∧ o.layout = none) ∧
      (s1.loop = false → s1.ret = EXIT_FAILURE) := by
  obtain ⟨name, interface, alloc_ok⟩ := t
  refine ⟨registry_handle_global g s name interface alloc_ok, rfl, ?_⟩
  cases interface with
  | river_layout_manager_v3 => exact absurd rfl ht
  | other => exact ⟨hm, hu, hr⟩
  | wl_output =>
    cases alloc_ok with
    | false => exact ⟨hm, hu, fun _ => rfl⟩
    | true =>
      refine ⟨hm, ?_, hr⟩
      intro o ho
      simp only [registry_handle_global, create_output, if_true] at ho
      rcases List.mem_cons.1 ho with h1 | h1
      · rw [h1]
        simp [hm]
      · exact hu o h1

theorem registry_events_unconfigured (atof : List Char → SDouble) (g : Globals)
    (l : List (Nat × Interface × Bool)) :
    ∀ s : State, (∀ t ∈ l, t.2.1 ≠ Interface.river_layout_manager_v3) →
      s.layout_manager = none →
      (∀ o ∈ s.outputs, o.configured = false ∧ o.layout = none) →
      (s.loop = false → s.ret = EXIT_FAILURE) →
      ∃ s1, dispatch_batch atof g s (registry_events l) = some s1 ∧
        s1.layout_manager = none ∧
        (∀ o ∈ s1.outputs, o.configured = false ∧ o.layout = none) ∧
        (s1.loop = false → s1.ret = EXIT_FAILURE) := by
  induction l with
  | nil =>
    intro s _ hm hu hr
    exact ⟨s, rfl, hm, hu, hr⟩
  | cons t ts ih =>
    intro s hl hm hu hr
    obtain ⟨s1, h1, hm1, hu1, hr1⟩ := registry_event_unconfigured atof g s t
      (hl t (List.mem_cons_self t ts)) hm hu hr
    obtain ⟨s2, h2, hm2, hu2, hr2⟩ := ih s1 (fun q hq => hl q (List.mem_cons_of_mem t hq))
      hm1 hu1 hr1
    refine ⟨s2, ?_, hm2, hu2, hr2⟩
    show dispatch_batch atof g s (Event.global t.1 t.2.1 t.2.2 :: registry_events ts) = some s2
    rw [dispatch_batch_cons, h1]
    exact h2

theorem sync_handle_done_no_manager (s : State) (hm : s.layout_manager = none) :
    sync_handle_done s = State.mk none s.outputs none false EXIT_FAILURE := by
  unfold sync_handle_done
  simp only [hm]

theorem main_loop_stopped (atof : List Char → SDouble) (g : Globals) (s : State)
    (batches : List (List Event)) (h : s.loop = false) :
    main_loop atof g s batches = some s := by
  cases batches with
  | nil => rfl
  | cons b bs =>
    unfold main_loop
    rw [if_neg (by rw [h]; decide)]

theorem barrier_batch (atof : List Char → SDouble) (g : Globals)
    (pre : List (Nat × Interface × Bool)) (s : State)
    (hpre : ∀ t ∈ pre, t.2.1 ≠ Interface.river_layout_manager_v3)
    (hm : s.layout_manager = none)
    (hu : ∀ o ∈ s.outputs, o.configured = false ∧ o.layout = none)
    (hr : s.loop = false → s.ret = EXIT_FAILURE) :
    ∃ s1, dispatch_batch atof g s (registry_events pre ++ [Event.sync_done]) = some s1 ∧
      s1.loop = false ∧ s1.ret = EXIT_FAILURE ∧ s1.layout_manager = none ∧
      (∀ o ∈ s1.outputs, o.configured = false ∧ o.layout = none) := by
  obtain ⟨s1, h1, hm1, hu1, _⟩ := registry_events_unconfigured atof g pre s hpre hm hu hr
  refine ⟨sync_handle_done s1, ?_, ?_⟩
  · rw [dispatch_batch_append, h1]
    rfl
  · rw [sync_handle_done_no_manager s1 hm1]
    exact ⟨rfl, rfl, rfl, hu1⟩

theorem dispatch_event_stopped (atof : List Char → SDouble) (g : Globals) (s s1 : State)
    (e : Event) (h : dispatch_event atof g s e = some s1)
    (hs : s.loop = false ∧ s.ret = EXIT_FAILURE) :
    s1.loop = false ∧ s1.ret = EXIT_FAILURE := by
  cases e with
  | global name interface alloc_ok =>
    simp only [dispatch_event, Option.some.injEq] at h
    subst h
    cases interface with
    | river_layout_manager_v3 => exact hs
    | other => exact hs
    | wl_output =>
      cases alloc_ok with
      | false => exact ⟨rfl, rfl⟩
      | true => exact hs
  | sync_done =>
    simp only [dispatch_event, Option.some.injEq] at h
    subst h
    unfold sync_handle_done
    cases hm : s.layout_manager with
    | none => exact ⟨rfl, rfl⟩
    | some lm => exact hs
  | namespace_in_use wl_output =>
    simp only [dispatch_event] at h
    split at h <;> cases h
    · exact ⟨rfl, hs.2⟩
    · exact hs
  | layout_demand wl_output view_count width height tags serial =>
    simp only [dispatch_event, Option.some.injEq] at h
    subst h
    exact hs
  | user_command wl_output command =>
    simp only [dispatch_event, Option.map_eq_some'] at h
    obtain ⟨os1, _, rfl⟩ := h
    exact hs

theorem dispatch_batch_stopped (atof : List Char → SDouble) (g : Globals) (evs : List Event) :
    ∀ s s1 : State, dispatch_batch atof g s evs = some s1 →
      s.loop = false ∧ s.ret = EXIT_FAILURE → s1.loop = false ∧ s1.ret = EXIT_FAILURE := by
  induction evs with
  | nil =>
    intro s s1 h hs
    cases h
    exact hs
  | cons e es ih =>
    intro s s1 h hs
    rw [dispatch_batch_cons] at h
    cases he : dispatch_event atof g s e with
    | none =>
      rw [he] at h
      cases h
    | some s2 =>
      rw [he] at h
      exact ih s2 s1 h (dispatch_event_stopped atof g s s2 e he hs)

theorem registry_events_defined (atof : List Char → SDouble) (g : Globals)
    (l : List (Nat × Interface × Bool)) :
    ∀ s : State, ∃ s1, dispatch_batch atof g s (registry_events l) = some s1 := by
  induction l with
  | nil => exact fun s => ⟨s, rfl⟩
  | cons t ts ih =>
    intro s
    obtain ⟨s1, h1⟩ := ih (registry_handle_global g s t.1 t.2.1 t.2.2)
    exact ⟨s1, h1⟩

theorem main_loop_cons (atof : List Char → SDouble) (g : Globals) (s : State)
    (b : List Event) (bs : List (List Event)) :
    main_loop atof g s (b :: bs) =
      if s.loop then
        match dispatch_batch atof g s b with
        | none => none
        | some s1 => main_loop atof g s1 bs
      else some s :=
  rfl

theorem main_loop_registry_batches (atof : List Char → SDouble) (g : Globals)
    (bs : List (List (Nat × Interface × Bool))) :
    ∀ s : State, (∀ b ∈ bs, ∀ t ∈ b, t.2.1 ≠ Interface.river_layout_manager_v3) →
      s.layout_manager = none →
      (∀ o ∈ s.outputs, o.configured = false ∧ o.layout = none) →
      (s.loop = false → s.ret = EXIT_FAILURE) →
      ∃ s1, s1.layout_manager = none ∧
        (∀ o ∈ s1.outputs, o.configured = false ∧ o.layout = none) ∧
        (s1.loop = false → s1.ret = EXIT_FAILURE) ∧
        ∀ tail : List (List Event),
          main_loop atof g s (bs.map registry_events ++ tail) = main_loop atof g s1 tail := by
  induction bs with
  | nil =>
    intro s _ hm hu hr
    exact ⟨s, hm, hu, hr, fun tail => rfl⟩
  | cons b bs ih =>
    intro s hbs hm hu hr
    by_cases hl : s.loop = true
    · obtain ⟨s1, h1, hm1, hu1, hr1⟩ := registry_events_unconfigured atof g b s
        (hbs b (List.mem_cons_self b bs)) hm hu hr
      obtain ⟨s2, hm2, hu2, hr2, h2⟩ := ih s1
        (fun c hc => hbs c (List.mem_cons_of_mem b hc)) hm1 hu1 hr1
      refine ⟨s2, hm2, hu2, hr2, ?_⟩
      intro tail
      rw [List.map_cons, List.cons_append, main_loop_cons, if_pos hl, h1]
      exact h2 tail
    · have hl0 : s.loop = false := by
        cases h : s.loop with
        | false => rfl
        | true => exact absurd h hl
      refine ⟨s, hm, hu, hr, ?_⟩
      intro tail
      rw [main_loop_stopped atof g s _ hl0, main_loop_stopped atof g s tail hl0]

theorem barrier_run (atof : List Char → SDouble) (g : Globals)
    (bs : List (List (Nat × Interface × Bool))) (pre : List (Nat × Interface × Bool))
    (hbs : ∀ b ∈ bs, ∀ t ∈ b, t.2.1 ≠ Interface.river_layout_manager_v3)
    (hpre : ∀ t ∈ pre, t.2.1 ≠ Interface.river_layout_manager_v3) :
    ∃ s2, s2.loop = false ∧ s2.ret = EXIT_FAILURE ∧ s2.layout_manager = none ∧
      (∀ o ∈ s2.outputs, o.configured = false ∧ o.layout = none) ∧
      ∀ (post : List Event) (rest : List (List Event)),
        main_loop atof g loop_entry
            (bs.map registry_events ++
              ((registry_events pre ++ Event.sync_done :: post) :: rest)) = some s2 ∨
        main_loop atof g loop_entry
            (bs.map registry_events ++
              ((registry_events pre ++ Event.sync_done :: post) :: rest)) =
          dispatch_batch atof g s2 post := by
  obtain ⟨s1, hm1, hu1, hr1, h1⟩ := main_loop_registry_batches atof g bs loop_entry hbs rfl
    (fun o ho => absurd ho (List.not_mem_nil o)) (fun h => by cases h)
  by_cases hl : s1.loop = true
  · obtain ⟨s2, h2, hl2, hr2, hm2, hu2⟩ := barrier_batch atof g pre s1 hpre hm1 hu1 hr1
    refine ⟨s2, hl2, hr2, hm2, hu2, ?_⟩
    intro post rest
    right
    have happ : registry_events pre ++ Event.sync_done :: post =
        (registry_events pre ++ [Event.sync_done]) ++ post := by
      rw [List.append_assoc]
      rfl
    rw [h1, happ, main_loop_cons, if_pos hl, dispatch_batch_append, h2]
    show (match dispatch_batch atof g s2 post with
      | none => none
      | some s3 => main_loop atof g s3 rest) = dispatch_batch atof g s2 post
    cases h3 : dispatch_batch atof g s2 post with
    | none => rfl
    | some s3 =>
      exact main_loop_stopped atof g s3 rest
        (dispatch_batch_stopped atof g post s2 s3 h3 ⟨hl2, hr2⟩).1
  · have hl0 : s1.loop = false := by
      cases h : s1.loop with
      | false => rfl
      | true => exact absurd h hl
    refine ⟨s1, hl0, hr1 hl0, hm1, hu1, ?_⟩
    intro post rest
    left
    rw [h1]
    exact main_loop_stopped atof g s1 _ hl0

theorem main_of_stopped (atof : List Char → SDouble) (g : Globals)
    (batches : List (List Event)) (s : State)
    (h : main_loop atof g loop_entry batches = some s)
    (hs : s.loop = false ∧ s.ret = EXIT_FAILURE) :
    main atof g true batches = some (EXIT_FAILURE, State.mk none [] none false EXIT_FAILURE) := by
  show (main_loop atof g loop_entry batches).map
    (fun s2 => ((finish_wayland s2).ret, finish_wayland s2)) = _
  rw [h]
  simp [finish_wayland, destroy_all_outputs, hs.1, hs.2]

theorem main_loop_of_main (atof : List Char → SDouble) (g : Globals)
    (batches : List (List Event)) (r : Nat × State)
    (h : main atof g true batches = some r) :
    ∃ s, main_loop atof g loop_entry batches = some s := by
  have h2 : (main_loop atof g loop_entry batches).map
      (fun s2 => ((finish_wayland s2).ret, finish_wayland s2)) = some r := h
  cases hm : main_loop atof g loop_entry batches with
  | none =>
    rw [hm] at h2
    cases h2
  | some s => exact ⟨s, rfl⟩

/-- C23, as stated, fails when the layout manager is advertised after the
barrier in the same dispatch: `wl_display_dispatch` still handles the events
that follow the `done` of the sync callback, and no handler consults `loop`.
In the dispatch `wl_output` 1, sync done, layout manager 2, `wl_output` 3 the
capability is not advertised before the barrier, `main` returns
`EXIT_FAILURE`, and yet output 3 is configured and holds a session. -/
theorem capability_after_barrier :
    (dispatch_batch integer_atof default_globals loop_entry
      [Event.global 1 Interface.wl_output true, Event.sync_done,
        Event.global 2 Interface.river_layout_manager_v3 true,
        Event.global 3 Interface.wl_output true]).map
      (fun s => (s.loop, s.ret,
        s.outputs.map (fun o => (o.output, o.configured, o.layout)))) =
      some (false, EXIT_FAILURE, [(3, true, some 3), (1, false, none)]) ∧
    main integer_atof default_globals true
      [[Event.global 1 Interface.wl_output true, Event.sync_done,
        Event.global 2 Interface.river_layout_manager_v3 true,
        Event.global 3 Interface.wl_output true]] =
      some (EXIT_FAILURE, State.mk none [] none false EXIT_FAILURE) := by
  refine ⟨rfl, rfl⟩

/-- C23, amended. For every sequence of registry events, delivered in any
number of dispatches, none of which advertises the layout manager, followed
by the completion of the sync callback: `sync_handle_done` sets `ret` to
`EXIT_FAILURE` and `loop` to false (in every state without a layout
manager); `main` returns `EXIT_FAILURE` whatever registry events follow the
barrier in its dispatch and whatever later dispatches would bring, and
whenever it returns after any other events there; and when none of the
events that follow the barrier in its dispatch advertises the layout
manager either (in particular when none follows), no output is configured
or holds a session when the loop ends, nor after any part of the registry
events. -/
theorem missing_capability_fails (atof : List Char → SDouble) (g : Globals)
    (bs : List (List (Nat × Interface × Bool))) (pre : List (Nat × Interface × Bool))
    (rest : List (List Event))
    (hbs : ∀ b ∈ bs, ∀ t ∈ b, t.2.1 ≠ Interface.river_layout_manager_v3)
    (hpre : ∀ t ∈ pre, t.2.1 ≠ Interface.river_layout_manager_v3) :
    (∀ s : State, s.layout_manager = none →
      (sync_handle_done s).ret = EXIT_FAILURE ∧ (sync_handle_done s).loop = false ∧
      (sync_handle_done s).outputs = s.outputs) ∧
    (∀ post : List (Nat × Interface × Bool),
      main atof g true
          (bs.map registry_events ++
            ((registry_events pre ++ Event.sync_done :: registry_events post) :: rest)) =
        some (EXIT_FAILURE, State.mk none [] none false EXIT_FAILURE)) ∧
    (∀ (post : List Event) (r : Nat × State),
      main atof g true
          (bs.map registry_events ++
            ((registry_events pre ++ Event.sync_done :: post) :: rest)) = some r →
        r = (EXIT_FAILURE, State.mk none [] none false EXIT_FAILURE)) ∧
    (∀ post : List (Nat × Interface × Bool),
      (∀ t ∈ post, t.2.1 ≠ Interface.river_layout_manager_v3) →
      ∃ s1, main_loop atof g loop_entry
            (bs.map registry_events ++
              ((registry_events pre ++ Event.sync_done :: registry_events post) :: rest)) =
          some s1 ∧
        s1.loop = false ∧ s1.ret = EXIT_FAILURE ∧
        ∀ o ∈ s1.outputs, o.configured = false ∧ o.layout = none) ∧
    (∀ l : List (Nat × Interface × Bool),
      (∀ t ∈ l, t.2.1 ≠ Interface.river_layout_manager_v3) →
      ∃ s1, dispatch_batch atof g loop_entry (registry_events l) = some s1 ∧
        ∀ o ∈ s1.outputs, o.configured = false ∧ o.layout = none) := by
  obtain ⟨s2, hl2, hr2, hm2, hu2, hrun⟩ := barrier_run atof g bs pre hbs hpre
  refine ⟨?_, ?_, ?_, ?_, ?_⟩
  · intro s hm
    rw [sync_handle_done_no_manager s hm]
    exact ⟨rfl, rfl, rfl⟩
  · intro post
    rcases hrun (registry_events post) rest with h | h
    · exact main_of_stopped atof g _ s2 h ⟨hl2, hr2⟩
    · obtain ⟨s3, h3⟩ := registry_events_defined atof g post s2
      rw [h3] at h
      exact main_of_stopped atof g _ s3 h
        (dispatch_batch_stopped atof g _ s2 s3 h3 ⟨hl2, hr2⟩)
  · intro post r hmain
    obtain ⟨s, hs⟩ := main_loop_of_main atof g _ r hmain
    have hstop : s.loop = false ∧ s.ret = EXIT_FAILURE := by
      rcases hrun post rest with h | h
      · rw [h] at hs
        cases hs
        exact ⟨hl2, hr2⟩
      · rw [h] at hs
        exact dispatch_batch_stopped atof g post s2 s hs ⟨hl2, hr2⟩
    rw [main_of_stopped atof g _ s hs hstop] at hmain
    exact (Option.some.inj hmain).symm
  · intro post hpost
    rcases hrun (registry_events post) rest with h | h
    · exact ⟨s2, h, hl2, hr2, hu2⟩
    · obtain ⟨s3, h3, _, hu3, _⟩ := registry_events_unconfigured atof g post s2 hpost hm2 hu2
        (fun _ => hr2)
      have hstop := dispatch_batch_stopped atof g _ s2 s3 h3 ⟨hl2, hr2⟩
      rw [h3] at h
      exact ⟨s3, h, hstop.1, hstop.2, hu3⟩
  · intro l hl
    obtain ⟨s1, h1, _, hu1, _⟩ := registry_events_unconfigured atof g l loop_entry hl rfl
      (fun o ho => absurd ho (List.not_mem_nil o)) (fun h => by cases h)
    exact ⟨s1, h1, hu1⟩

theorem missing_capability_fails_witness :
    ((∀ b ∈ [[((1 : Nat), Interface.wl_output, true)]], ∀ t ∈ b,
        t.2.1 ≠ Interface.river_layout_manager_v3) ∧
      (∀ t ∈ [((2 : Nat), Interface.other, true), (3, Interface.wl_output, true)],
        t.2.1 ≠ Interface.river_layout_manager_v3)) ∧
    main integer_atof default_globals true
        ([[((1 : Nat), Interface.wl_output, true)]].map registry_events ++
          ((registry_events [(2, Interface.other, true), (3, Interface.wl_output, true)] ++
            Event.sync_done ::
              registry_events [(4, Interface.river_layout_manager_v3, true),
                (5, Interface.wl_output, true)]) ::
            [[Event.global 6 Interface.wl_output true]])) =
      some (EXIT_FAILURE, State.mk none [] none false EXIT_FAILURE) :=
  ⟨⟨by decide, by decide⟩,
    (missing_capability_fails integer_atof default_globals
      [[(1, Interface.wl_output, true)]]
      [(2, Interface.other, true), (3, Interface.wl_output, true)]
      [[Event.global 6 Interface.wl_output true]]
      (by decide) (by decide)).2.1
      [(4, Interface.river_layout_manager_v3, true), (5, Interface.wl_output, true)]⟩

/-! ## Rectangles: supporting lemmas -/

theorem Rect.within_refl (a : Rect) : a.within a :=
  ⟨Nat.le_refl _, Nat.le_refl _, Nat.le_refl _, Nat.le_refl _⟩

theorem Rect.within_trans {a b c : Rect} (h1 : a.within b) (h2 : b.within c) : a.within c := by
  unfold Rect.within at *
  omega

theorem Rect.not_overlap_within {a b c : Rect} (h : ¬ a.overlap c) (hb : b.within c) :
    ¬ a.overlap b := by
  unfold Rect.overlap at *
  unfold Rect.within at hb
  omega

theorem Rect.not_overlap_of_x {a b : Rect}
    (h : a.view_x + a.view_width ≤ b.view_x ∨ b.view_x + b.view_width ≤ a.view_x) :
    ¬ a.overlap b := by
  unfold Rect.overlap
  omega

theorem Rect.not_overlap_of_y {a b : Rect}
    (h : a.view_y + a.view_height ≤ b.view_y ∨ b.view_y + b.view_height ≤ a.view_y) :
    ¬ a.overlap b := by
  unfold Rect.overlap
  omega

theorem push_inset_no_padding (o : Output) (r : Rect) (serial : Nat)
    (hvp : o.view_padding = 0) (hx : o.outer_padding + r.view_x < 4294967296)
    (hy : o.outer_padding + r.view_y < 4294967296) (hw : r.view_width < 4294967296)
    (hh : r.view_height < 4294967296) :
    push_inset o r serial =
      Request.push_view_dimensions (o.outer_padding + r.view_x) (o.outer_padding + r.view_y)
        r.view_width r.view_height serial := by
  have h1 : (o.outer_padding + r.view_x + 0) % 4294967296 = o.outer_padding + r.view_x :=
    Nat.mod_eq_of_lt hx
  have h2 : (o.outer_padding + r.view_y + 0) % 4294967296 = o.outer_padding + r.view_y :=
    Nat.mod_eq_of_lt hy
  have h3 : sub32 r.view_width (mul32 2 0) = r.view_width := by
    unfold sub32 mul32
    omega
  have h4 : sub32 r.view_height (mul32 2 0) = r.view_height := by
    unfold sub32 mul32
    omega
  rw [push_inset_eq, hvp, h1, h2, h3, h4]

/-! ## Spiral: packing -/

theorem spiral_iter_packing (o : Output) (view_count serial : Nat) (diminish : Bool) (i : Nat)
    (s : Rect) (hx : s.view_x + s.view_width < 4294967296)
    (hy : s.view_y + s.view_height < 4294967296) :
    (spiral_iter o view_count serial diminish i s).2.within s ∧
    (spiral_region view_count diminish i s).within s ∧
    (i ≠ sub32 view_count 1 →
      ¬ (spiral_region view_count diminish i s).overlap
        (spiral_iter o view_count serial diminish i s).2) := by
  by_cases hlast : i = sub32 view_count 1
  · rw [spiral_iter_last o view_count serial diminish i s hlast]
    have hr : spiral_region view_count diminish i s = s := by
      unfold spiral_region
      rw [if_pos hlast]
    rw [hr]
    exact ⟨Rect.within_refl s, Rect.within_refl s, fun h => absurd hlast h⟩
  · have hax : add32 s.view_x (s.view_width / 2) = s.view_x + s.view_width / 2 := by
      unfold add32
      omega
    have hay : add32 s.view_y (s.view_height / 2) = s.view_y + s.view_height / 2 := by
      unfold add32
      omega
    by_cases heven : i % 2 = 0
    · by_cases hside : i % 4 = 2 ∧ diminish = false
      · rw [spiral_iter_right o view_count serial diminish i s hlast hside.1 hside.2]
        have hr : spiral_region view_count diminish i s =
            Rect.mk (s.view_x + s.view_width / 2) s.view_y (s.view_width / 2) s.view_height := by
          unfold spiral_region
          rw [if_neg hlast, if_pos heven, if_pos hside]
        rw [hr]
        unfold Rect.within Rect.overlap
        simp only []
        omega
      · rw [spiral_iter_left o view_count serial diminish i s hlast heven hside, hax]
        have hr : spiral_region view_count diminish i s =
            Rect.mk s.view_x s.view_y (s.view_width / 2) s.view_height := by
          unfold spiral_region
          rw [if_neg hlast, if_pos heven, if_neg hside]
        rw [hr]
        unfold Rect.within Rect.overlap
        simp only []
        omega
    · have hodd : i % 2 = 1 := by omega
      by_cases hside : i % 4 = 3 ∧ diminish = false
      · rw [spiral_iter_bottom o view_count serial diminish i s hlast hside.1 hside.2]
        have hr : spiral_region view_count diminish i s =
            Rect.mk s.view_x (s.view_y + s.view_height / 2) s.view_width (s.view_height / 2) := by
          unfold spiral_region
          rw [if_neg hlast, if_neg heven, if_pos hside]
        rw [hr]
        unfold Rect.within Rect.overlap
        simp only []
        omega
      · rw [spiral_iter_top o view_count serial diminish i s hlast hodd hside, hay]
        have hr : spiral_region view_count diminish i s =
            Rect.mk s.view_x s.view_y s.view_width (s.view_height / 2) := by
          unfold spiral_region
          rw [if_neg hlast, if_neg heven, if_neg hside]
        rw [hr]
        unfold Rect.within Rect.overlap
        simp only []
        omega

theorem spiral_vars_within (o : Output) (view_count serial : Nat) (diminish : Bool)
    (W H : Nat) (hW : W < 4294967296) (hH : H < 4294967296) (i d : Nat) :
    (spiral_vars o view_count serial diminish W H (i + d)).within
      (spiral_vars o view_count serial diminish W H i) := by
  induction d with
  | zero => exact Rect.within_refl _
  | succ d ih =>
    have hb := spiral_vars_bounds o view_count serial diminish W H hW hH (i + d)
    have hstep := (spiral_iter_packing o view_count serial diminish (i + d)
      (spiral_vars o view_count serial diminish W H (i + d)) (by omega) (by omega)).1
    exact Rect.within_trans hstep ih

theorem spiral_regions_packed (o : Output) (view_count serial : Nat) (diminish : Bool)
    (W H : Nat) (hW : W < 4294967296) (hH : H < 4294967296) (hn : 1 ≤ view_count)
    (h32 : view_count < 4294967296) (i j : Nat) (hij : i < j) (hj : j < view_count) :
    ¬ (spiral_region view_count diminish i
        (spiral_vars o view_count serial diminish W H i)).overlap
      (spiral_region view_count diminish j
        (spiral_vars o view_count serial diminish W H j)) := by
  have hlast : i ≠ sub32 view_count 1 := by
    unfold sub32
    omega
  have hbi := spiral_vars_bounds o view_count serial diminish W H hW hH i
  have hbj := spiral_vars_bounds o view_count serial diminish W H hW hH j
  have hi := spiral_iter_packing o view_count serial diminish i
    (spiral_vars o view_count serial diminish W H i) (by omega) (by omega)
  have hjw := (spiral_iter_packing o view_count serial diminish j
    (spiral_vars o view_count serial diminish W H j) (by omega) (by omega)).2.1
  have hchain := spiral_vars_within o view_count serial diminish W H hW hH (i + 1) (j - (i + 1))
  rw [show i + 1 + (j - (i + 1)) = j by omega] at hchain
  exact Rect.not_overlap_within (hi.2.2 hlast) (Rect.within_trans hjw hchain)

theorem spiral_region_inside (o : Output) (view_count serial : Nat) (diminish : Bool)
    (W H : Nat) (hW : W < 4294967296) (hH : H < 4294967296) (i : Nat) :
    (spiral_region view_count diminish i
      (spiral_vars o view_count serial diminish W H i)).within (Rect.mk 0 0 W H) := by
  have hb := spiral_vars_bounds o view_count serial diminish W H hW hH i
  have hr := (spiral_iter_packing o view_count serial diminish i
    (spiral_vars o view_count serial diminish W H i) (by omega) (by omega)).2.1
  have h0 := spiral_vars_within o view_count serial diminish W H hW hH 0 i
  rw [Nat.zero_add] at h0
  exact Rect.within_trans hr h0

/-- C24. Spiral packing: for Spiral and Diminishing, every
`view_count >= 1`, `view_padding = 0` and `2 * outer_padding <= width,
height`, the handler pushes `view_count` rectangles, each inside the usable
area (the rectangle of size `width - 2 * outer_padding` by
`height - 2 * outer_padding` at `(outer_padding, outer_padding)`), and no two
rectangles of distinct views have interiors that meet. -/
theorem spiral_packing (o : Output) (view_count width height tags serial : Nat)
    (diminish : Bool) (hn : 1 ≤ view_count) (h32 : view_count < 4294967296)
    (hvp : o.view_padding = 0)
    (hw : 2 * o.outer_padding ≤ width) (hh : 2 * o.outer_padding ≤ height)
    (hw32 : width < 4294967296) (hh32 : height < 4294967296) :
    usable o width = width - 2 * o.outer_padding ∧
    usable o height = height - 2 * o.outer_padding ∧
    ∃ rects : List Rect, rects.length = view_count ∧
      delta_handle_layout_demand_spiral o view_count width height tags serial diminish =
        some (rects.map (fun r =>
            Request.push_view_dimensions r.view_x r.view_y r.view_width r.view_height serial)
          ++ [Request.commit (spiral_name diminish) serial]) ∧
      (∀ r ∈ rects, r.within
        (Rect.mk o.outer_padding o.outer_padding (usable o width) (usable o height))) ∧
      rects.Pairwise (fun a b => ¬ a.overlap b) := by
  have hW := usable_of_le o width hw32 hw
  have hH := usable_of_le o height hh32 hh
  have hW32 := usable_lt o width
  have hH32 := usable_lt o height
  have hin := spiral_region_inside o view_count serial diminish (usable o width)
    (usable o height) hW32 hH32
  refine ⟨hW, hH, (List.range view_count).map (fun i =>
    Rect.mk
      (o.outer_padding + (spiral_region view_count diminish i
        (spiral_vars o view_count serial diminish (usable o width) (usable o height) i)).view_x)
      (o.outer_padding + (spiral_region view_count diminish i
        (spiral_vars o view_count serial diminish (usable o width) (usable o height) i)).view_y)
      (spiral_region view_count diminish i
        (spiral_vars o view_count serial diminish (usable o width) (usable o height) i)).view_width
      (spiral_region view_count diminish i
        (spiral_vars o view_count serial diminish (usable o width) (usable o height) i)).view_height),
    ?_, ?_, ?_, ?_⟩
  · rw [List.length_map, List.length_range]
  · rw [spiral_region_pushes, List.map_map]
    congr 2
    apply List.map_congr_left
    intro i _
    have h := hin i
    unfold Rect.within at h
    simp only [] at h
    exact push_inset_no_padding o _ serial hvp (by omega) (by omega) (by omega) (by omega)
  · intro r hr
    simp only [List.mem_map] at hr
    obtain ⟨i, _, rfl⟩ := hr
    have h := hin i
    unfold Rect.within at h ⊢
    simp only [] at h ⊢
    omega
  · rw [List.pairwise_map]
    refine List.Pairwise.imp_of_mem ?_ (List.pairwise_lt_range view_count)
    intro i j _ hj hij
    have h := spiral_regions_packed o view_count serial diminish (usable o width)
      (usable o height) hW32 hH32 hn h32 i j hij (List.mem_range.1 hj)
    unfold Rect.overlap at h ⊢
    simp only [] at h ⊢
    omega

theorem spiral_packing_witness :
    (1 ≤ 5 ∧ 5 < 4294967296 ∧ (unpadded_output LayoutStyle.SPIRAL).view_padding = 0 ∧
      2 * (unpadded_output LayoutStyle.SPIRAL).outer_padding ≤ 1010 ∧
      2 * (unpadded_output LayoutStyle.SPIRAL).outer_padding ≤ 810) ∧
    ∃ rects : List Rect, rects.length = 5 ∧
      delta_handle_layout_demand_spiral (unpadded_output LayoutStyle.SPIRAL) 5 1010 810 0 7
          false =
        some (rects.map (fun r =>
            Request.push_view_dimensions r.view_x r.view_y r.view_width r.view_height 7)
          ++ [Request.commit (spiral_name false) 7]) ∧
      (∀ r ∈ rects, r.within
        (Rect.mk (unpadded_output LayoutStyle.SPIRAL).outer_padding
          (unpadded_output LayoutStyle.SPIRAL).outer_padding
          (usable (unpadded_output LayoutStyle.SPIRAL) 1010)
          (usable (unpadded_output LayoutStyle.SPIRAL) 810))) ∧
      rects.Pairwise (fun a b => ¬ a.overlap b) :=
  ⟨⟨by decide, by decide, rfl, by decide, by decide⟩,
    (spiral_packing (unpadded_output LayoutStyle.SPIRAL) 5 1010 810 0 7 false
      (by decide) (by decide) rfl (by decide) (by decide) (by decide) (by decide)).2.2⟩

/-! ## Grid: packing -/

theorem mul_succ_le (a b c : Nat) (h : a < b) : a * c + c ≤ b * c := by
  have h1 : (a + 1) * c ≤ b * c := Nat.mul_le_mul_right c h
  rw [Nat.add_mul, Nat.one_mul] at h1
  exact h1

theorem grid_cell_injective (g i j : Nat) (h : (i / g, i % g) = (j / g, j % g)) : i = j := by
  have h1 : i / g = j / g := congrArg Prod.fst h
  have h2 : i % g = j % g := congrArg Prod.snd h
  rw [← Nat.div_add_mod i g, ← Nat.div_add_mod j g, h1, h2]

/-- C25. Grid packing: for every `view_count >= 1`, `view_padding = 0` and
`2 * outer_padding <= width, height`, with `g = grid_size view_count` and
the cell size `W / g` by `H / g` of the usable area `W` by `H`: distinct
view indices below `view_count` have distinct `(row, col)` cells, every
cell lies inside the usable area, the handler pushes for view `i` the
rectangle of its cell (moved by `outer_padding`), and no two of the pushed
rectangles have interiors that meet. -/
theorem grid_packing (o : Output) (view_count width height tags serial : Nat)
    (hn : 1 ≤ view_count) (h32 : view_count < 4294967296) (hvp : o.view_padding = 0)
    (hw : 2 * o.outer_padding ≤ width) (hh : 2 * o.outer_padding ≤ height)
    (hw32 : width < 4294967296) (hh32 : height < 4294967296) :
    usable o width = width - 2 * o.outer_padding ∧
    usable o height = height - 2 * o.outer_padding ∧
    (∀ i j, i < view_count → j < view_count → i ≠ j →
      (i / grid_size view_count, i % grid_size view_count) ≠
        (j / grid_size view_count, j % grid_size view_count)) ∧
    (∀ i, i < view_count →
      i % grid_size view_count < grid_size view_count ∧
      i / grid_size view_count < grid_size view_count ∧
      i % grid_size view_count * (usable o width / grid_size view_count) +
        usable o width / grid_size view_count ≤ usable o width ∧
      i / grid_size view_count * (usable o height / grid_size view_count) +
        usable o height / grid_size view_count ≤ usable o height) ∧
    delta_handle_layout_demand_grid o view_count width height tags serial =
      some ((List.range view_count).map (fun i =>
          Request.push_view_dimensions
            (o.outer_padding +
              i % grid_size view_count * (usable o width / grid_size view_count))
            (o.outer_padding +
              i / grid_size view_count * (usable o height / grid_size view_count))
            (usable o width / grid_size view_count)
            (usable o height / grid_size view_count)
            serial)
        ++ [Request.commit "#" serial]) ∧
    (∀ i j, i < view_count → j < view_count → i ≠ j →
      ¬ (Rect.mk
          (o.outer_padding +
            i % grid_size view_count * (usable o width / grid_size view_count))
          (o.outer_padding +
            i / grid_size view_count * (usable o height / grid_size view_count))
          (usable o width / grid_size view_count)
          (usable o height / grid_size view_count)).overlap
        (Rect.mk
          (o.outer_padding +
            j % grid_size view_count * (usable o width / grid_size view_count))
          (o.outer_padding +
            j / grid_size view_count * (usable o height / grid_size view_count))
          (usable o width / grid_size view_count)
          (usable o height / grid_size view_count))) := by
  have hW := usable_of_le o width hw32 hw
  have hH := usable_of_le o height hh32 hh
  have hg := grid_size_pos view_count hn h32
  have hcov := grid_size_covers view_count h32
  have hcol : ∀ i, i % grid_size view_count < grid_size view_count :=
    fun i => Nat.mod_lt i hg
  have hrow : ∀ i, i < view_count → i / grid_size view_count < grid_size view_count :=
    fun i hi => Nat.div_lt_of_lt_mul (Nat.lt_of_lt_of_le hi hcov)
  have hcell : ∀ i, i < view_count →
      i % grid_size view_count * (usable o width / grid_size view_count) +
        usable o width / grid_size view_count ≤ usable o width ∧
      i / grid_size view_count * (usable o height / grid_size view_count) +
        usable o height / grid_size view_count ≤ usable o height :=
    fun i hi => ⟨succ_mul_div_le (usable o width) (hcol i),
      succ_mul_div_le (usable o height) (hrow i hi)⟩
  refine ⟨hW, hH, ?_, fun i hi => ⟨hcol i, hrow i hi, hcell i hi⟩, ?_, ?_⟩
  · intro i j _ _ hij h
    exact hij (grid_cell_injective (grid_size view_count) i j h)
  · rw [grid_pushes o view_count width height tags serial hn h32]
    congr 2
    apply List.map_congr_left
    intro i hi
    have hc := hcell i (List.mem_range.1 hi)
    have hdw : usable o width / grid_size view_count ≤ usable o width := Nat.div_le_self _ _
    have hdh : usable o height / grid_size view_count ≤ usable o height := Nat.div_le_self _ _
    have hx := Nat.le_trans (Nat.le_add_right _ _) hc.1
    have hy := Nat.le_trans (Nat.le_add_right _ _) hc.2
    exact push_inset_no_padding o _ serial hvp (by simp only []; omega) (by simp only []; omega)
      (by simp only []; omega) (by simp only []; omega)
  · intro i j _ _ hij
    rcases Nat.lt_trichotomy (i / grid_size view_count) (j / grid_size view_count) with h | h | h
    · exact Rect.not_overlap_of_y (Or.inl (by
        have := mul_succ_le _ _ (usable o height / grid_size view_count) h
        simp only []
        omega))
    · have hne : i % grid_size view_count ≠ j % grid_size view_count := by
        intro hm
        exact hij (grid_cell_injective (grid_size view_count) i j (by rw [h, hm]))
      rcases Nat.lt_or_gt_of_ne hne with h1 | h1
      · exact Rect.not_overlap_of_x (Or.inl (by
          have := mul_succ_le _ _ (usable o width / grid_size view_count) h1
          simp only []
          omega))
      · exact Rect.not_overlap_of_x (Or.inr (by
          have := mul_succ_le _ _ (usable o width / grid_size view_count) h1
          simp only []
          omega))
    · exact Rect.not_overlap_of_y (Or.inr (by
        have := mul_succ_le _ _ (usable o height / grid_size view_count) h
        simp only []
        omega))

theorem grid_packing_witness :
    (1 ≤ 5 ∧ 5 < 4294967296 ∧ (unpadded_output LayoutStyle.GRID).view_padding = 0 ∧
      2 * (unpadded_output LayoutStyle.GRID).outer_padding ≤ 1010 ∧
      2 * (unpadded_output LayoutStyle.GRID).outer_padding ≤ 810) ∧
    usable (unpadded_output LayoutStyle.GRID) 1010 =
      1010 - 2 * (unpadded_output LayoutStyle.GRID).outer_padding ∧
    usable (unpadded_output LayoutStyle.GRID) 810 =
      810 - 2 * (unpadded_output LayoutStyle.GRID).outer_padding ∧
    (∀ i j, i < 5 → j < 5 → i ≠ j →
      (i / grid_size 5, i % grid_size 5) ≠ (j / grid_size 5, j % grid_size 5)) :=
  ⟨⟨by decide, by decide, rfl, by decide, by decide⟩,
    (grid_packing (unpadded_output LayoutStyle.GRID) 5 1010 810 0 7
      (by decide) (by decide) rfl (by decide) (by decide) (by decide) (by decide)).1,
    (grid_packing (unpadded_output LayoutStyle.GRID) 5 1010 810 0 7
      (by decide) (by decide) rfl (by decide) (by decide) (by decide) (by decide)).2.1,
    (grid_packing (unpadded_output LayoutStyle.GRID) 5 1010 810 0 7
      (by decide) (by decide) rfl (by decide) (by decide) (by decide) (by decide)).2.2.1⟩

end Delta
